import Mathlib

/-
Verification of the imgtest repository (Horn–Schunck optical flow in Go).

Shallow embedding conventions:
* Go `float32` values are modelled as exact rationals (ℚ); float rounding is
  below the resolution of this model.  For `ScaleToUnsignedByte`, where the
  production (or not) of non-finite values (NaN/Inf) is itself at issue, values
  are modelled as `Option ℚ` with `none` standing for a non-finite float.
* Go slices of float32 are `List ℚ`; `p.Pix[i:]` is `p.pix.drop i`;
  element reads out of range yield the default 0 (Go would panic; all theorems
  carry the in-bounds facts needed so this default is never load-bearing).
* `image.Point` / `image.Rectangle` are `Pt` / `Rect` with the Go field names.
* Loops become folds over explicit index lists; goroutine band dispatch
  becomes a fold over the band list in launch order, with scheduling freedom
  modelled by quantifying over permutations of the processed-cell sequence.
* The global flag `numRowsPerGo` is threaded as an explicit parameter `n`.
  The Go band loop does not terminate for `n ≤ 0`; the embedding uses fuel
  `(upper-lower).toNat`, which is exact for every `n ≥ 1`.
-/

namespace Imgtest

/-- Point, from Go `image.Point`. -/
structure Pt where
  X : Int
  Y : Int
deriving DecidableEq, Repr

/-- Rectangle, from Go `image.Rectangle`: min/max corners, half-open. -/
structure Rect where
  Min : Pt
  Max : Pt
deriving DecidableEq, Repr

/-- Width, from Go `Rectangle.Dx`. -/
def Rect.Dx (r : Rect) : Int := r.Max.X - r.Min.X

/-- Height, from Go `Rectangle.Dy`. -/
def Rect.Dy (r : Rect) : Int := r.Max.Y - r.Min.Y

/-- Emptiness test, from Go `Rectangle.Empty`:
`r.Min.X >= r.Max.X || r.Min.Y >= r.Max.Y`. -/
def Rect.EmptyR (r : Rect) : Prop := r.Max.X ≤ r.Min.X ∨ r.Max.Y ≤ r.Min.Y

instance instDecEmptyR (r : Rect) : Decidable r.EmptyR := by
  unfold Rect.EmptyR; exact inferInstance

/-- Membership of a coordinate pair in a rectangle, from Go `Point.In`. -/
def inRect (x y : Int) (r : Rect) : Prop :=
  r.Min.X ≤ x ∧ x < r.Max.X ∧ r.Min.Y ≤ y ∧ y < r.Max.Y

instance instDecInRect (x y : Int) (r : Rect) : Decidable (inRect x y r) := by
  unfold inRect; exact inferInstance

/-- Intersection, from Go `Rectangle.Intersect`: clip each side, and return the
zero rectangle if the clipped rectangle is empty. -/
def Rect.intersect (r s : Rect) : Rect :=
  let t : Rect := ⟨⟨max r.Min.X s.Min.X, max r.Min.Y s.Min.Y⟩,
                   ⟨min r.Max.X s.Max.X, min r.Max.Y s.Max.Y⟩⟩
  if t.EmptyR then ⟨⟨0, 0⟩, ⟨0, 0⟩⟩ else t

/-- Read of a flat float32 slice at a (possibly negative) index; 0 out of range. -/
def getQ (l : List ℚ) (i : Int) : ℚ :=
  if 0 ≤ i then l.getD i.toNat 0 else 0

/-- Write of a flat float32 slice at a (possibly negative) index; Go would
panic out of range, the model leaves the slice unchanged there. -/
def setQ (l : List ℚ) (i : Int) (v : ℚ) : List ℚ :=
  if 0 ≤ i then l.set i.toNat v else l

/-- FloatImg, from `floatimage.FloatImg` (the display-only `ColorFunc` /
`ColorModelFunc` fields play no part in any claim and are omitted). -/
structure FloatImg where
  pix : List ℚ
  stride : Int
  chancnt : Nat
  rect : Rect
deriving DecidableEq, Repr

/-- Constructor, from `floatimage.NewFloatImg`:
`w, h := r.Dx(), r.Dy(); pix := make([]float32, channelCount*w*h)`,
stride `channelCount * w`.  (For malformed rectangles Go's `make` would panic
on a negative size; `toNat` clamps instead, and no claim involves them.) -/
def NewFloatImg (r : Rect) (channelCount : Nat) : FloatImg :=
  { pix := List.replicate (channelCount * r.Dx.toNat * r.Dy.toNat) 0
    stride := (channelCount : Int) * r.Dx
    chancnt := channelCount
    rect := r }

/-- Offset arithmetic, from `FloatImg.PixOffset`:
`(y-p.Rect.Min.Y)*p.Stride + (x-p.Rect.Min.X)*p.Chancnt`. -/
def FloatImg.PixOffset (p : FloatImg) (x y : Int) : Int :=
  (y - p.rect.Min.Y) * p.stride + (x - p.rect.Min.X) * (p.chancnt : Int)

/-- Channel read at (x, y), from `FloatImg.AtF` (one element of the returned
channel slice). -/
def FloatImg.atF (p : FloatImg) (x y : Int) (c : Nat) : ℚ :=
  getQ p.pix (p.PixOffset x y + (c : Int))

/-- Channel write at (x, y), from `FloatImg.Set` (equally, an assignment
through the slice returned by `AtF`). -/
def FloatImg.setF (p : FloatImg) (x y : Int) (c : Nat) (v : ℚ) : FloatImg :=
  { p with pix := setQ p.pix (p.PixOffset x y + (c : Int)) v }

/-- Go's `copy(dst, src)` on slices: copies `min (len dst) (len src)` elements
into the front of `dst`, keeping `dst`'s tail. -/
def copyList (dst src : List ℚ) : List ℚ :=
  src.take dst.length ++ dst.drop src.length

/-- Metadata-and-contents copy, from `FloatImg.Copy`:
`p.Rect = orig.Rect; p.Stride = orig.Stride; p.Chancnt = orig.Chancnt;
copy(p.Pix, orig.Pix)`. -/
def FloatImg.copyFrom (p orig : FloatImg) : FloatImg :=
  { pix := copyList p.pix orig.pix
    stride := orig.stride
    chancnt := orig.chancnt
    rect := orig.rect }

/-- Well-formedness of an owning buffer: stride and storage length agree with
the rectangle, exactly as `NewFloatImg` establishes them. -/
def wf (p : FloatImg) : Prop :=
  p.stride = (p.chancnt : Int) * p.rect.Dx ∧
  p.pix.length = p.chancnt * p.rect.Dx.toNat * p.rect.Dy.toNat

/-- Fuel-driven worker for `intRange` (structural recursion, so that the
kernel can evaluate it inside `decide`). -/
def intRangeGo (fuel : Nat) (a b : Int) : List Int :=
  match fuel with
  | 0 => []
  | Nat.succ f => if a < b then a :: intRangeGo f (a + 1) b else []

/-- Integer interval `[a, b)` as a list, used to model `for i := a; i < b; i++`. -/
def intRange (a b : Int) : List Int := intRangeGo (b - a).toNat a b

/-- Mirroring pass for the top and bottom border rows, from the first loop of
`FloatImg.Dummies`: for every interior column x, per channel, first
`row (Max.Y-1) ← row (Max.Y-2)`, then `row Min.Y ← row (Min.Y+1)`, each
assignment reading the live storage (the Go code reads through slices). -/
def dummiesTB (f : FloatImg) : FloatImg :=
  (intRange (f.rect.Min.X + 1) (f.rect.Max.X - 1)).foldl (fun g x =>
    (List.range f.chancnt).foldl (fun g2 c =>
      let g3 := g2.setF x (f.rect.Max.Y - 1) c (g2.atF x (f.rect.Max.Y - 2) c)
      g3.setF x f.rect.Min.Y c (g3.atF x (f.rect.Min.Y + 1) c)) g) f

/-- Mirroring pass for the left and right border columns, from the second loop
of `FloatImg.Dummies`: for every y of the full Y range, per channel, first
`col Min.X ← col (Min.X+1)`, then `col (Max.X-1) ← col (Max.X-2)`. -/
def dummiesLR (f : FloatImg) : FloatImg :=
  (intRange f.rect.Min.Y f.rect.Max.Y).foldl (fun g y =>
    (List.range f.chancnt).foldl (fun g2 c =>
      let g3 := g2.setF f.rect.Min.X y c (g2.atF (f.rect.Min.X + 1) y c)
      g3.setF (f.rect.Max.X - 1) y c (g3.atF (f.rect.Max.X - 2) y c)) g) f

/-- Mirror-border application, from `FloatImg.Dummies`: the top/bottom pass
followed by the left/right pass. -/
def Dummies (f : FloatImg) : FloatImg := dummiesLR (dummiesTB f)

/-- Sub-view, from `FloatImg.SubImage`: intersect, return a fresh zero-channel
buffer when empty, otherwise alias the owner's storage from the offset of the
intersection's Min corner (`Pix: p.Pix[i:]` becomes `pix.drop i`). -/
def SubImage (p : FloatImg) (r : Rect) : FloatImg :=
  let r2 := r.intersect p.rect
  if r2.EmptyR then NewFloatImg r2 0
  else
    { pix := p.pix.drop (p.PixOffset r2.Min.X r2.Min.Y).toNat
      stride := p.stride
      chancnt := p.chancnt
      rect := r2 }

/-- Row-band list, from the Go band loops
`for lower := a; lower < b; { upper := min(lower+n, b); ...; lower = upper }`,
with fuel `(b-a).toNat` (exact whenever `n ≥ 1`, see the file header). -/
def goBands (fuel : Nat) (lower b n : Int) : List (Int × Int) :=
  match fuel with
  | 0 => []
  | Nat.succ f =>
    if lower < b then (lower, min (lower + n) b) :: goBands f (min (lower + n) b) b n
    else []

/-- Bands covering `[a, b)` with at most `n` rows each. -/
def bandsOf (a b n : Int) : List (Int × Int) := goBands (b - a).toNat a b n

/-- Cells (i, j) of one row j with `xa ≤ i < xb`, in loop order. -/
def rowCells (xa xb j : Int) : List (Int × Int) :=
  (intRange xa xb).map (fun i => (i, j))

/-- Cells of the block `[xa, xb) × [ya, yb)` in loop order (j outer, i inner),
matching the nested `for j { for i }` loops. -/
def blockCells (xa xb ya yb : Int) : List (Int × Int) :=
  (intRange ya yb).flatMap (fun j => rowCells xa xb j)

/-- Spatiotemporal derivatives at one cell, from the body of `innerDerive`
(`hx = hy = 1`). -/
def deriveFxyz (f1 f2 : FloatImg) (i j : Int) : ℚ × ℚ × ℚ :=
  let hx : ℚ := 1
  let hy : ℚ := 1
  let Fx := (f1.atF (i+1) j 0 - f1.atF (i-1) j 0 + f2.atF (i+1) j 0 - f2.atF (i-1) j 0) / (4 * hx)
  let Fy := (f1.atF i (j+1) 0 - f1.atF i (j-1) 0 + f2.atF i (j+1) 0 - f2.atF i (j-1) 0) / (4 * hy)
  let Fz := f2.atF i j 0 - f1.atF i j 0
  (Fx, Fy, Fz)

/-- Derivative write at one cell, from `innerDerive`:
`dvs[Fxc], dvs[Fyc], dvs[Fzc] = Fx, Fy, Fz` with channels (0, 1, 2). -/
def deriveCellStep (f1 f2 : FloatImg) (derivs : FloatImg) (cell : Int × Int) : FloatImg :=
  let d := deriveFxyz f1 f2 cell.1 cell.2
  ((derivs.setF cell.1 cell.2 0 d.1).setF cell.1 cell.2 1 d.2.1).setF cell.1 cell.2 2 d.2.2

/-- Cell sequence of the banded derivative computation, from `deriveMixed`:
bands over `[Min.Y+1, Max.Y-1)`, columns `[Min.X+1, Max.X-1)`, of `f1.Bounds()`. -/
def deriveOrder (r : Rect) (n : Int) : List (Int × Int) :=
  (bandsOf (r.Min.Y + 1) (r.Max.Y - 1) n).flatMap
    (fun bnd => blockCells (r.Min.X + 1) (r.Max.X - 1) bnd.1 bnd.2)

/-- Derivative computation over an explicit cell sequence (the fresh 3-channel
output buffer is `NewFloatImg (f1.Bounds()) 3` as in `deriveMixed`). -/
def deriveSched (order : List (Int × Int)) (f1 f2 : FloatImg) : FloatImg :=
  order.foldl (fun d cell => deriveCellStep f1 f2 d cell) (NewFloatImg f1.rect 3)

/-- Derivative field, from `deriveMixed` with `numRowsPerGo = n` and the bands
run in launch order. -/
def deriveMixed (f1 f2 : FloatImg) (n : Int) : FloatImg :=
  deriveSched (deriveOrder f1.rect n) f1 f2

/-- One cell's Jacobi values (uSum, vSum), from the body of `innerFlow`:
neighbor accumulation guarded by the four bounds tests, then the
Horn–Schunck update with `help = 1/alpha`; all value reads from `oldvec`
and `derivs`. -/
def flowUV (alpha : ℚ) (derivs oldvec : FloatImg) (bounds : Rect) (i j : Int) : ℚ × ℚ :=
  let help := 1 / alpha
  let a0 : Nat × ℚ × ℚ := (0, 0, 0)
  let a1 := if bounds.Min.X < i then
      (a0.1 + 1, a0.2.1 + oldvec.atF (i-1) j 0, a0.2.2 + oldvec.atF (i-1) j 1) else a0
  let a2 := if i < bounds.Max.X - 1 then
      (a1.1 + 1, a1.2.1 + oldvec.atF (i+1) j 0, a1.2.2 + oldvec.atF (i+1) j 1) else a1
  let a3 := if bounds.Min.Y < j then
      (a2.1 + 1, a2.2.1 + oldvec.atF i (j-1) 0, a2.2.2 + oldvec.atF i (j-1) 1) else a2
  let a4 := if j < bounds.Max.Y - 1 then
      (a3.1 + 1, a3.2.1 + oldvec.atF i (j+1) 0, a3.2.2 + oldvec.atF i (j+1) 1) else a3
  let fxij := derivs.atF i j 0
  let fyij := derivs.atF i j 1
  let fzij := derivs.atF i j 2
  let uSum1 := a4.2.1 - help * fxij * (fyij * oldvec.atF i j 1 + fzij)
  let uSum2 := uSum1 / ((a4.1 : ℚ) + help * fxij * fxij)
  let vSum1 := a4.2.2 - help * fyij * (fxij * oldvec.atF i j 0 + fzij)
  let vSum2 := vSum1 / ((a4.1 : ℚ) + help * fyij * fyij)
  (uSum2, vSum2)

/-- One cell's relaxation write, from `innerFlow`:
`uv = vecField.AtF(i, j); uv[0], uv[1] = uSum, vSum` (bounds are
`vecField.Bounds()`). -/
def flowCellStep (alpha : ℚ) (derivs oldvec : FloatImg) (vecField : FloatImg)
    (cell : Int × Int) : FloatImg :=
  let r := flowUV alpha derivs oldvec vecField.rect cell.1 cell.2
  (vecField.setF cell.1 cell.2 0 r.1).setF cell.1 cell.2 1 r.2

/-- One relaxation sweep over an explicit cell sequence. -/
def flowSched (order : List (Int × Int)) (alpha : ℚ) (derivs oldvec vecField : FloatImg) :
    FloatImg :=
  order.foldl (fun v cell => flowCellStep alpha derivs oldvec v cell) vecField

/-- Cell sequence of the banded sweep, from `flow`: bands over
`[Min.Y, Max.Y)` of `vecField.Bounds()`, full column range. -/
def flowOrder (r : Rect) (n : Int) : List (Int × Int) :=
  (bandsOf r.Min.Y r.Max.Y n).flatMap
    (fun bnd => blockCells r.Min.X r.Max.X bnd.1 bnd.2)

/-- One banded relaxation sweep, from `flow` with `numRowsPerGo = n`, bands in
launch order. -/
def flowGo (n : Int) (alpha : ℚ) (derivs oldvec vecField : FloatImg) : FloatImg :=
  flowSched (flowOrder vecField.rect n) alpha derivs oldvec vecField

/-- State of the solver during `OpticFlowHornSchunk`: the two bordered inputs,
the derivative field, and the two flow-field iterates.  Each Go write site
targets exactly one of these separately-allocated buffers. -/
structure SolveState where
  f1 : FloatImg
  f2 : FloatImg
  derivs : FloatImg
  uvOld : FloatImg
  uv : FloatImg
deriving DecidableEq, Repr

/-- One iteration of the driving loop of `OpticFlowHornSchunk`:
`flow(alpha, derivs, uvOld, uv); uvOld.Copy(uv)`. -/
def hsIterStepN (alpha : ℚ) (n : Int) (s : SolveState) : SolveState :=
  let uv2 := flowGo n alpha s.derivs s.uvOld s.uv
  { s with uv := uv2, uvOld := s.uvOld.copyFrom uv2 }

/-- The driving loop `for k := 1; k <= iterations; k++`. -/
def runItersN (alpha : ℚ) (n : Int) : Nat → SolveState → SolveState
  | 0, s => s
  | Nat.succ k, s => runItersN alpha n k (hsIterStepN alpha n s)

/-- Full solver state after `OpticFlowHornSchunk(f1, f2, alpha, iterations)`
with `numRowsPerGo = n`: derivatives once, then the iteration loop; both flow
iterates are `NewFloatImg(f1.Bounds(), 2)`. -/
def OpticFlowHornSchunkS (f1 f2 : FloatImg) (alpha : ℚ) (iterations : Nat) (n : Int) :
    SolveState :=
  runItersN alpha n iterations
    { f1 := f1
      f2 := f2
      derivs := deriveMixed f1 f2 n
      uvOld := NewFloatImg f1.rect 2
      uv := NewFloatImg f1.rect 2 }

/-- Return value of `OpticFlowHornSchunk`: the `uv` buffer. -/
def OpticFlowHornSchunk (f1 f2 : FloatImg) (alpha : ℚ) (iterations : Nat) (n : Int) :
    FloatImg :=
  (OpticFlowHornSchunkS f1 f2 alpha iterations n).uv

/-- Iteration step with an explicit per-sweep cell sequence (the sweep's
scheduling freedom); used to state determinism across band scheduling. -/
def hsIterStepSched (alpha : ℚ) (s : SolveState) (ord : List (Int × Int)) : SolveState :=
  let uv2 := flowSched ord alpha s.derivs s.uvOld s.uv
  { s with uv := uv2, uvOld := s.uvOld.copyFrom uv2 }

/-- Driving loop with one explicit cell sequence per sweep. -/
def runItersSched (alpha : ℚ) (ords : List (List (Int × Int))) (s : SolveState) : SolveState :=
  ords.foldl (hsIterStepSched alpha) s

/-- Full solver with explicit cell sequences for the derivative pass and for
each sweep. -/
def OpticFlowHornSchunkSched (f1 f2 : FloatImg) (alpha : ℚ)
    (dOrd : List (Int × Int)) (fOrds : List (List (Int × Int))) : SolveState :=
  runItersSched alpha fOrds
    { f1 := f1
      f2 := f2
      derivs := deriveSched dOrd f1 f2
      uvOld := NewFloatImg f1.rect 2
      uv := NewFloatImg f1.rect 2 }

/-- Float32 values with non-finiteness tracked: `none` models NaN/Inf.
Used for `ScaleToUnsignedByte`, whose claim is about NaN production. -/
abbrev FV := Option ℚ

/-- Comparison `v > m` on float32: false whenever an operand is non-finite
(IEEE comparisons with NaN are false). -/
def fgtF : FV → FV → Bool
  | some a, some b => decide (b < a)
  | _, _ => false

/-- Product `255 * v` on float32 (non-finite propagates). -/
def fmul255 : FV → FV
  | some a => some (255 * a)
  | none => none

/-- Quotient on float32: a zero divisor yields a non-finite value
(`0/0 = NaN`, `x/0 = ±Inf`); non-finite operands propagate. -/
def fdivF : FV → FV → FV
  | some a, some b => if b = 0 then none else some (a / b)
  | _, _ => none

/-- FloatImg carrying NaN-aware values, same layout as `FloatImg`. -/
structure FloatImgF where
  pix : List FV
  stride : Int
  chancnt : Nat
  rect : Rect
deriving DecidableEq, Repr

/-- Offset arithmetic of `FloatImg.PixOffset` for the NaN-aware buffer. -/
def FloatImgF.PixOffset (p : FloatImgF) (x y : Int) : Int :=
  (y - p.rect.Min.Y) * p.stride + (x - p.rect.Min.X) * (p.chancnt : Int)

/-- Channel read (`AtF`) for the NaN-aware buffer. -/
def FloatImgF.atFF (p : FloatImgF) (x y : Int) (c : Nat) : FV :=
  if 0 ≤ p.PixOffset x y + (c : Int) then p.pix.getD (p.PixOffset x y + (c : Int)).toNat (some 0)
  else some 0

/-- Channel write (`Set`) for the NaN-aware buffer. -/
def FloatImgF.setFF (p : FloatImgF) (x y : Int) (c : Nat) (v : FV) : FloatImgF :=
  if 0 ≤ p.PixOffset x y + (c : Int) then
    { p with pix := p.pix.set (p.PixOffset x y + (c : Int)).toNat v }
  else p

/-- Well-formedness for the NaN-aware buffer. -/
def wfF (p : FloatImgF) : Prop :=
  p.stride = (p.chancnt : Int) * p.rect.Dx ∧
  p.pix.length = p.chancnt * p.rect.Dx.toNat * p.rect.Dy.toNat

/-- Largest finite float32, `math.MaxFloat32 = 2^128 - 2^104`. -/
def maxFloat32 : ℚ := 340282346638528859811704183484516925440

/-- Per-channel maxima, from the first loop nest of `ScaleToUnsignedByte`:
`max[i] = -1.0 * math.MaxFloat32` initially, then
`if v > max[c] { max[c] = v }` over y, x, c in loop order. -/
def scaleMax (p : FloatImgF) : List FV :=
  (blockCells p.rect.Min.X p.rect.Max.X p.rect.Min.Y p.rect.Max.Y).foldl
    (fun m cell =>
      (List.range p.chancnt).foldl (fun m2 c =>
        let v := p.atFF cell.1 cell.2 c
        if fgtF v (m2.getD c none) then m2.set c v else m2) m)
    (List.replicate p.chancnt (some (-1 * maxFloat32)))

/-- In-place rescale, from the second loop nest of `ScaleToUnsignedByte`:
`help = 255 * p.AtF(x, y)[c] / max[c]; p.Set(x, y, c, help)`, reading the live
buffer. -/
def ScaleToUnsignedByte (p : FloatImgF) : FloatImgF :=
  let maxs := scaleMax p
  (blockCells p.rect.Min.X p.rect.Max.X p.rect.Min.Y p.rect.Max.Y).foldl
    (fun q cell =>
      (List.range p.chancnt).foldl (fun q2 c =>
        q2.setFF cell.1 cell.2 c (fdivF (fmul255 (q2.atFF cell.1 cell.2 c)) (maxs.getD c none))) q)
    p


/-! Concrete buffers used by witnesses and counterexamples. -/

/-- Bordered 4x4 all-zero single-channel input. -/
def z44 : FloatImg := NewFloatImg ⟨⟨0, 0⟩, ⟨4, 4⟩⟩ 1

/-- Bordered 4x4 single-channel input with distinct values. -/
def m44 : FloatImg :=
  { pix := [0, 1, 2, 3, 4, 5, 6, 7, 8, 9, 10, 11, 12, 13, 14, 15]
    stride := 4
    chancnt := 1
    rect := ⟨⟨0, 0⟩, ⟨4, 4⟩⟩ }

/-- A 3-wide, 2-high single-channel buffer (Y extent below 3). -/
def cimg32 : FloatImg :=
  { pix := [1, 2, 3, 4, 5, 6]
    stride := 3
    chancnt := 1
    rect := ⟨⟨0, 0⟩, ⟨3, 2⟩⟩ }

/-- A 2-wide, 2-high single-channel buffer (X extent below 3). -/
def cimg22 : FloatImg :=
  { pix := [7, 8, 9, 10]
    stride := 2
    chancnt := 1
    rect := ⟨⟨0, 0⟩, ⟨2, 2⟩⟩ }

/-- A 3x3 single-channel buffer with distinct values. -/
def cimg33 : FloatImg :=
  { pix := [1, 2, 3, 4, 5, 6, 7, 8, 9]
    stride := 3
    chancnt := 1
    rect := ⟨⟨0, 0⟩, ⟨3, 3⟩⟩ }

/-- A 2x1 single-channel NaN-aware buffer holding only zeroes. -/
def zf2 : FloatImgF :=
  { pix := [some 0, some 0]
    stride := 2
    chancnt := 1
    rect := ⟨⟨0, 0⟩, ⟨2, 1⟩⟩ }

/-- A 4x1 single-channel NaN-aware buffer holding 0, 10, 50, 100. -/
def sf4 : FloatImgF :=
  { pix := [some 0, some 10, some 50, some 100]
    stride := 4
    chancnt := 1
    rect := ⟨⟨0, 0⟩, ⟨4, 1⟩⟩ }

/-- A 2x1 two-channel NaN-aware buffer: channel 0 holds (40, 100), channel 1
holds (5, 10). -/
def mf2 : FloatImgF :=
  { pix := [some 40, some 5, some 100, some 10]
    stride := 4
    chancnt := 2
    rect := ⟨⟨0, 0⟩, ⟨2, 1⟩⟩ }

end Imgtest

namespace Imgtest

/-! Arithmetic helpers for flat row-major offsets. -/

theorem int_addmul_inj (K a a2 b b2 : Int) (hb : 0 ≤ b) (hbK : b < K)
    (hb2 : 0 ≤ b2) (hb2K : b2 < K) (h : a * K + b = a2 * K + b2) :
    a = a2 ∧ b = b2 := by
  have hK : 0 < K := lt_of_le_of_lt hb hbK
  by_cases ha : a = a2
  · subst ha
    constructor
    · rfl
    · omega
  · exfalso
    have hne : a - a2 ≠ 0 := fun hc => ha (by omega)
    have h1 : (a - a2) * K = b2 - b := by ring_nf; omega
    have h2 : |a - a2| * K = |b2 - b| := by
      rw [← abs_of_nonneg hK.le, ← abs_mul, h1]
    have h3 : 1 ≤ |a - a2| := Int.one_le_abs hne
    have h4 : |b2 - b| < K := by
      rw [abs_lt]; omega
    nlinarith [abs_nonneg (b2 - b)]

theorem offset_nonneg_lt (K W H dx dy c : Int) (hdx : 0 ≤ dx) (hdxW : dx < W)
    (hdy : 0 ≤ dy) (hdyH : dy < H) (hc : 0 ≤ c) (hcK : c < K) :
    0 ≤ dy * (K * W) + dx * K + c ∧ dy * (K * W) + dx * K + c < K * W * H := by
  have hK : 0 < K := lt_of_le_of_lt hc hcK
  have hW : 0 < W := lt_of_le_of_lt hdx hdxW
  constructor
  · have h1 : 0 ≤ dy * (K * W) := mul_nonneg hdy (by positivity)
    have h2 : 0 ≤ dx * K := mul_nonneg hdx hK.le
    omega
  · have h1 : dx * K + c ≤ W * K - 1 := by nlinarith
    have h2 : dy * (K * W) ≤ (H - 1) * (K * W) :=
      mul_le_mul_of_nonneg_right (by omega) (by positivity)
    nlinarith

theorem offset_inj (K W H dx dy dx2 dy2 c c2 : Int) (hdx : 0 ≤ dx) (hdxW : dx < W)
    (hdy : 0 ≤ dy) (hdyH : dy < H) (hc : 0 ≤ c) (hcK : c < K)
    (hdx2 : 0 ≤ dx2) (hdx2W : dx2 < W) (hdy2 : 0 ≤ dy2) (hdy2H : dy2 < H)
    (hc2 : 0 ≤ c2) (hc2K : c2 < K)
    (h : dy * (K * W) + dx * K + c = dy2 * (K * W) + dx2 * K + c2) :
    dx = dx2 ∧ dy = dy2 ∧ c = c2 := by
  have h1 : (dy * W + dx) * K + c = (dy2 * W + dx2) * K + c2 := by linear_combination h
  obtain ⟨hA, hc⟩ := int_addmul_inj K (dy * W + dx) (dy2 * W + dx2) c c2 hc hcK hc2 hc2K h1
  have h2 : dy * W + dx = dy2 * W + dx2 := hA
  obtain ⟨hy, hx⟩ := int_addmul_inj W dy dy2 dx dx2 hdx hdxW hdx2 hdx2W (by omega)
  exact ⟨hx, hy, hc⟩

/-! Basic facts about `getQ` and `setQ`. -/

theorem length_setQ (l : List ℚ) (i : Int) (v : ℚ) : (setQ l i v).length = l.length := by
  unfold setQ; split <;> simp

theorem getQ_setQ_self (l : List ℚ) (i : Int) (v : ℚ) (h0 : 0 ≤ i)
    (hl : i < (l.length : Int)) : getQ (setQ l i v) i = v := by
  unfold getQ setQ
  rw [if_pos h0, if_pos h0]
  have hlt : i.toNat < l.length := by omega
  simp [List.getD_eq_getElem?_getD, List.getElem?_set_self, hlt]

theorem getQ_setQ_other (l : List ℚ) (i j : Int) (v : ℚ) (hne : i ≠ j) :
    getQ (setQ l i v) j = getQ l j := by
  unfold getQ setQ
  by_cases h0 : 0 ≤ i
  · by_cases h1 : 0 ≤ j
    · have : i.toNat ≠ j.toNat := by omega
      simp only [if_pos h0, if_pos h1,
        List.getD_eq_getElem?_getD, List.getElem?_set_ne this]
    · simp [if_pos h0, if_neg h1]
  · simp [if_neg h0]

theorem getQ_replicate (n : Nat) (i : Int) : getQ (List.replicate n (0 : ℚ)) i = 0 := by
  unfold getQ
  split
  · rw [List.getD_eq_getElem?_getD]
    rcases Nat.lt_or_ge i.toNat n with h | h
    · simp [List.getElem?_replicate, h]
    · rw [List.getElem?_eq_none (by simpa using h)]
      rfl
  · rfl

theorem setQ_replicate_zero (n : Nat) (i : Int) : setQ (List.replicate n (0 : ℚ)) i 0 = List.replicate n 0 := by
  unfold setQ
  split
  · exact List.set_replicate_self ..
  · rfl

end Imgtest

namespace Imgtest

/-! Structural facts about `setF` and `NewFloatImg`. -/

theorem rect_setF (p : FloatImg) (x y : Int) (c : Nat) (v : ℚ) :
    (p.setF x y c v).rect = p.rect := rfl

theorem stride_setF (p : FloatImg) (x y : Int) (c : Nat) (v : ℚ) :
    (p.setF x y c v).stride = p.stride := rfl

theorem chancnt_setF (p : FloatImg) (x y : Int) (c : Nat) (v : ℚ) :
    (p.setF x y c v).chancnt = p.chancnt := rfl

theorem length_pix_setF (p : FloatImg) (x y : Int) (c : Nat) (v : ℚ) :
    (p.setF x y c v).pix.length = p.pix.length := length_setQ ..

theorem pixOffset_setF (p : FloatImg) (x y : Int) (c : Nat) (v : ℚ) (x2 y2 : Int) :
    (p.setF x y c v).PixOffset x2 y2 = p.PixOffset x2 y2 := rfl

theorem wf_setF (p : FloatImg) (x y : Int) (c : Nat) (v : ℚ) (h : wf p) :
    wf (p.setF x y c v) := by
  obtain ⟨h1, h2⟩ := h
  exact ⟨h1, by rw [length_pix_setF]; exact h2⟩

theorem rect_new (r : Rect) (k : Nat) : (NewFloatImg r k).rect = r := rfl

theorem chancnt_new (r : Rect) (k : Nat) : (NewFloatImg r k).chancnt = k := rfl

theorem wf_new (r : Rect) (k : Nat) : wf (NewFloatImg r k) :=
  ⟨rfl, by simp [NewFloatImg]⟩

theorem atF_new (r : Rect) (k : Nat) (x y : Int) (c : Nat) :
    (NewFloatImg r k).atF x y c = 0 := getQ_replicate ..

/-! Offset bounds and injectivity under well-formedness. -/

theorem pixOffset_bound (p : FloatImg) (hwf : wf p) (x y : Int) (c : Nat)
    (hin : inRect x y p.rect) (hc : c < p.chancnt) :
    0 ≤ p.PixOffset x y + (c : Int) ∧
    p.PixOffset x y + (c : Int) < (p.pix.length : Int) := by
  obtain ⟨hs, hl⟩ := hwf
  obtain ⟨h1, h2, h3, h4⟩ := hin
  have hDx : (0 : Int) < p.rect.Dx := by unfold Rect.Dx; omega
  have hDy : (0 : Int) < p.rect.Dy := by unfold Rect.Dy; omega
  have hlen : (p.pix.length : Int) = (p.chancnt : Int) * p.rect.Dx * p.rect.Dy := by
    rw [hl]
    push_cast [Int.toNat_of_nonneg hDx.le, Int.toNat_of_nonneg hDy.le]
    ring
  have hb := offset_nonneg_lt (p.chancnt : Int) p.rect.Dx p.rect.Dy
    (x - p.rect.Min.X) (y - p.rect.Min.Y) (c : Int)
    (by omega) (by unfold Rect.Dx; omega) (by omega) (by unfold Rect.Dy; omega)
    (by positivity) (by exact_mod_cast hc)
  rw [FloatImg.PixOffset, hs, hlen]
  constructor
  · have := hb.1; nlinarith [hb.1]
  · nlinarith [hb.2]

theorem pixOffset_inj_cells (p : FloatImg) (hwf : wf p) (x y x2 y2 : Int) (c c2 : Nat)
    (hin : inRect x y p.rect) (hc : c < p.chancnt)
    (hin2 : inRect x2 y2 p.rect) (hc2 : c2 < p.chancnt)
    (heq : p.PixOffset x y + (c : Int) = p.PixOffset x2 y2 + (c2 : Int)) :
    x = x2 ∧ y = y2 ∧ c = c2 := by
  obtain ⟨hs, _⟩ := hwf
  obtain ⟨h1, h2, h3, h4⟩ := hin
  obtain ⟨g1, g2, g3, g4⟩ := hin2
  rw [FloatImg.PixOffset, FloatImg.PixOffset, hs] at heq
  have hi := offset_inj (p.chancnt : Int) p.rect.Dx p.rect.Dy
    (x - p.rect.Min.X) (y - p.rect.Min.Y) (x2 - p.rect.Min.X) (y2 - p.rect.Min.Y)
    (c : Int) (c2 : Int)
    (by omega) (by unfold Rect.Dx; omega) (by omega) (by unfold Rect.Dy; omega)
    (by positivity) (by exact_mod_cast hc)
    (by omega) (by unfold Rect.Dx; omega) (by omega) (by unfold Rect.Dy; omega)
    (by positivity) (by exact_mod_cast hc2)
    (by linear_combination heq)
  refine ⟨by omega, by omega, ?_⟩
  exact_mod_cast hi.2.2

/-! Reads after writes. -/

theorem atF_setF_self (p : FloatImg) (hwf : wf p) (x y : Int) (c : Nat)
    (hin : inRect x y p.rect) (hc : c < p.chancnt) (v : ℚ) :
    (p.setF x y c v).atF x y c = v := by
  have hb := pixOffset_bound p hwf x y c hin hc
  exact getQ_setQ_self _ _ _ hb.1 hb.2

theorem atF_setF_other (p : FloatImg) (hwf : wf p) (x y : Int) (c : Nat)
    (hin : inRect x y p.rect) (hc : c < p.chancnt)
    (x2 y2 : Int) (c2 : Nat) (hin2 : inRect x2 y2 p.rect) (hc2 : c2 < p.chancnt)
    (hne : ¬(x = x2 ∧ y = y2 ∧ c = c2)) (v : ℚ) :
    (p.setF x y c v).atF x2 y2 c2 = p.atF x2 y2 c2 := by
  apply getQ_setQ_other
  intro heq
  exact hne (pixOffset_inj_cells p hwf x y x2 y2 c c2 hin hc hin2 hc2 heq)

end Imgtest

namespace Imgtest

/-! Facts about the loop-index lists. -/

theorem intRange_unfold (a b : Int) :
    intRange a b = if a < b then a :: intRange (a + 1) b else [] := by
  unfold intRange
  by_cases h : a < b
  · rw [if_pos h]
    have hk : (b - a).toNat = (b - (a + 1)).toNat + 1 := by omega
    rw [hk]
    show (if a < b then a :: intRangeGo ((b - (a + 1)).toNat) (a + 1) b else []) = _
    rw [if_pos h]
  · rw [if_neg h]
    have hk : (b - a).toNat = 0 := by omega
    rw [hk]
    rfl

theorem intRange_nil (a b : Int) (h : b ≤ a) : intRange a b = [] := by
  rw [intRange_unfold, if_neg (by omega)]

theorem mem_intRange (x : Int) : ∀ a b : Int, x ∈ intRange a b ↔ a ≤ x ∧ x < b := by
  intro a b
  generalize hk : (b - a).toNat = k
  induction k generalizing a with
  | zero =>
    rw [intRange_unfold, if_neg (by omega)]
    simp only [List.not_mem_nil, false_iff]
    omega
  | succ k ih =>
    rw [intRange_unfold, if_pos (by omega)]
    simp only [List.mem_cons, ih (a + 1) (by omega)]
    omega

theorem nodup_intRange : ∀ a b : Int, (intRange a b).Nodup := by
  intro a b
  generalize hk : (b - a).toNat = k
  induction k generalizing a with
  | zero =>
    rw [intRange_unfold, if_neg (by omega)]
    exact List.nodup_nil
  | succ k ih =>
    rw [intRange_unfold, if_pos (by omega)]
    refine List.nodup_cons.mpr ⟨?_, ih (a + 1) (by omega)⟩
    rw [mem_intRange]
    omega

theorem intRange_append (m : Int) : ∀ a b : Int, a ≤ m → m ≤ b →
    intRange a m ++ intRange m b = intRange a b := by
  intro a b
  generalize hk : (m - a).toNat = k
  induction k generalizing a with
  | zero =>
    intro ham hmb
    have : a = m := by omega
    subst this
    rw [intRange_nil a a (le_refl a), List.nil_append]
  | succ k ih =>
    intro ham hmb
    have h : a < m := by omega
    have hab : intRange a b = a :: intRange (a + 1) b := by
      rw [intRange_unfold]
      rw [if_pos (by omega : a < b)]
    have ham2 : intRange a m = a :: intRange (a + 1) m := by
      rw [intRange_unfold]
      rw [if_pos h]
    rw [ham2, hab]
    simp only [List.cons_append, List.cons.injEq, true_and]
    exact ih (a + 1) (by omega) (by omega) hmb

theorem mem_rowCells (cl : Int × Int) (xa xb j : Int) :
    cl ∈ rowCells xa xb j ↔ xa ≤ cl.1 ∧ cl.1 < xb ∧ cl.2 = j := by
  unfold rowCells
  simp only [List.mem_map, mem_intRange]
  constructor
  · rintro ⟨i, ⟨h1, h2⟩, rfl⟩
    exact ⟨h1, h2, rfl⟩
  · rintro ⟨h1, h2, h3⟩
    exact ⟨cl.1, ⟨h1, h2⟩, by rw [← h3]⟩

theorem mem_blockCells (cl : Int × Int) (xa xb ya yb : Int) :
    cl ∈ blockCells xa xb ya yb ↔ xa ≤ cl.1 ∧ cl.1 < xb ∧ ya ≤ cl.2 ∧ cl.2 < yb := by
  unfold blockCells
  simp only [List.mem_flatMap, mem_intRange, mem_rowCells]
  constructor
  · rintro ⟨j, ⟨h1, h2⟩, h3, h4, rfl⟩
    exact ⟨h3, h4, h1, h2⟩
  · rintro ⟨h1, h2, h3, h4⟩
    exact ⟨cl.2, ⟨h3, h4⟩, h1, h2, rfl⟩

theorem nodup_rowCells (xa xb j : Int) : (rowCells xa xb j).Nodup := by
  unfold rowCells
  exact (nodup_intRange xa xb).map (fun i i2 h => by
    simpa using congrArg Prod.fst h)

theorem nodup_blockCells (xa xb ya yb : Int) : (blockCells xa xb ya yb).Nodup := by
  unfold blockCells
  rw [List.nodup_flatMap]
  refine ⟨fun j _ => nodup_rowCells xa xb j, ?_⟩
  refine List.Pairwise.imp ?_ (nodup_intRange ya yb)
  intro j1 j2 hne
  simp only [Function.onFun]
  rw [List.disjoint_iff_ne]
  intro cl1 h1 cl2 h2 heq
  rw [mem_rowCells] at h1 h2
  subst heq
  exact hne (h1.2.2 ▸ h2.2.2)

theorem blockCells_append (xa xb m ya yb : Int) (h1 : ya ≤ m) (h2 : m ≤ yb) :
    blockCells xa xb ya m ++ blockCells xa xb m yb = blockCells xa xb ya yb := by
  unfold blockCells
  rw [← List.flatMap_append, intRange_append m ya yb h1 h2]

theorem goBands_cover (xa xb n : Int) (hn : 1 ≤ n) :
    ∀ (fuel : Nat) (a b : Int), (b - a).toNat ≤ fuel →
    (goBands fuel a b n).flatMap (fun bd => blockCells xa xb bd.1 bd.2) =
      blockCells xa xb a b := by
  intro fuel
  induction fuel with
  | zero =>
    intro a b hf
    unfold goBands
    simp only [List.flatMap_nil]
    unfold blockCells
    rw [intRange_nil a b (by omega)]
    rfl
  | succ f ih =>
    intro a b hf
    unfold goBands
    by_cases h : a < b
    · rw [if_pos h]
      simp only [List.flatMap_cons]
      rw [ih (min (a + n) b) b (by omega)]
      exact blockCells_append xa xb (min (a + n) b) a b (by omega) (by omega)
    · rw [if_neg h]
      simp only [List.flatMap_nil]
      unfold blockCells
      rw [intRange_nil a b (by omega)]
      rfl

theorem flowOrder_eq (r : Rect) (n : Int) (hn : 1 ≤ n) :
    flowOrder r n = blockCells r.Min.X r.Max.X r.Min.Y r.Max.Y :=
  goBands_cover r.Min.X r.Max.X n hn _ _ _ (le_refl _)

theorem deriveOrder_eq (r : Rect) (n : Int) (hn : 1 ≤ n) :
    deriveOrder r n = blockCells (r.Min.X + 1) (r.Max.X - 1) (r.Min.Y + 1) (r.Max.Y - 1) :=
  goBands_cover (r.Min.X + 1) (r.Max.X - 1) n hn _ _ _ (le_refl _)

/-! A fold over a list of pairwise-commuting actions is invariant under
permutations of the list (with an invariant `P` carried through the fold). -/

theorem foldl_perm_of_comm {α β : Type} {P : β → Prop} {f : β → α → β}
    (hpres : ∀ z a, P z → P (f z a)) :
    ∀ {l l2 : List α}, l.Perm l2 →
    (∀ a ∈ l, ∀ b ∈ l, ∀ z, P z → f (f z a) b = f (f z b) a) →
    ∀ z, P z → l.foldl f z = l2.foldl f z := by
  intro l l2 hp
  induction hp with
  | nil =>
    intro _ z _
    rfl
  | cons x hpm ih =>
    intro hcomm z hz
    simp only [List.foldl_cons]
    exact ih (fun a ha b hb => hcomm a (List.mem_cons_of_mem x ha) b (List.mem_cons_of_mem x hb))
      (f z x) (hpres z x hz)
  | swap x y l =>
    intro hcomm z hz
    simp only [List.foldl_cons]
    rw [hcomm y (by simp) x (by simp) z hz]
  | trans h12 h23 ih12 ih23 =>
    intro hcomm z hz
    refine (ih12 hcomm z hz).trans (ih23 ?_ z hz)
    intro a ha b hb
    exact hcomm a (h12.mem_iff.mpr ha) b (h12.mem_iff.mpr hb)

end Imgtest

namespace Imgtest

/-! Commutation of writes at distinct storage locations. -/

theorem setQ_comm (l : List ℚ) (i j : Int) (v w : ℚ) (hne : i ≠ j) :
    setQ (setQ l i v) j w = setQ (setQ l j w) i v := by
  unfold setQ
  by_cases h0 : 0 ≤ i
  · by_cases h1 : 0 ≤ j
    · simp only [if_pos h0, if_pos h1]
      exact (List.set_comm _ _ _ (by omega)).symm
    · simp [if_pos h0, if_neg h1]
  · by_cases h1 : 0 ≤ j
    · simp [if_neg h0, if_pos h1]
    · simp [if_neg h0, if_neg h1]

theorem setF_comm (p : FloatImg) (hwf : wf p) (x y : Int) (c : Nat)
    (hin : inRect x y p.rect) (hc : c < p.chancnt)
    (x2 y2 : Int) (c2 : Nat) (hin2 : inRect x2 y2 p.rect) (hc2 : c2 < p.chancnt)
    (hne : ¬(x = x2 ∧ y = y2 ∧ c = c2)) (v v2 : ℚ) :
    (p.setF x y c v).setF x2 y2 c2 v2 = (p.setF x2 y2 c2 v2).setF x y c v := by
  have hne2 : p.PixOffset x y + (c : Int) ≠ p.PixOffset x2 y2 + (c2 : Int) := by
    intro heq
    exact hne (pixOffset_inj_cells p hwf x y x2 y2 c c2 hin hc hin2 hc2 heq)
  show FloatImg.mk
      (setQ (setQ p.pix (p.PixOffset x y + (c : Int)) v) (p.PixOffset x2 y2 + (c2 : Int)) v2)
      p.stride p.chancnt p.rect =
    FloatImg.mk
      (setQ (setQ p.pix (p.PixOffset x2 y2 + (c2 : Int)) v2) (p.PixOffset x y + (c : Int)) v)
      p.stride p.chancnt p.rect
  rw [setQ_comm _ _ _ _ _ hne2]

end Imgtest

namespace Imgtest

/-! Shape preservation and pointwise characterization of the relaxation sweep. -/

theorem flowCellStep_eq (alpha : ℚ) (d o v : FloatImg) (cl : Int × Int) :
    flowCellStep alpha d o v cl =
      (v.setF cl.1 cl.2 0 (flowUV alpha d o v.rect cl.1 cl.2).1).setF cl.1 cl.2 1
        (flowUV alpha d o v.rect cl.1 cl.2).2 := rfl

theorem flowCellStep_rect (alpha : ℚ) (d o v : FloatImg) (cl : Int × Int) :
    (flowCellStep alpha d o v cl).rect = v.rect := rfl

theorem flowCellStep_chancnt (alpha : ℚ) (d o v : FloatImg) (cl : Int × Int) :
    (flowCellStep alpha d o v cl).chancnt = v.chancnt := rfl

theorem flowCellStep_wf (alpha : ℚ) (d o v : FloatImg) (cl : Int × Int) (h : wf v) :
    wf (flowCellStep alpha d o v cl) :=
  wf_setF _ _ _ _ _ (wf_setF _ _ _ _ _ h)

theorem flowSched_rect (alpha : ℚ) (d o : FloatImg) :
    ∀ (ord : List (Int × Int)) (v : FloatImg), (flowSched ord alpha d o v).rect = v.rect := by
  intro ord
  induction ord with
  | nil => intro v; rfl
  | cons hd tl ih =>
    intro v
    show (flowSched tl alpha d o (flowCellStep alpha d o v hd)).rect = v.rect
    rw [ih]
    rfl

theorem flowSched_chancnt (alpha : ℚ) (d o : FloatImg) :
    ∀ (ord : List (Int × Int)) (v : FloatImg),
    (flowSched ord alpha d o v).chancnt = v.chancnt := by
  intro ord
  induction ord with
  | nil => intro v; rfl
  | cons hd tl ih =>
    intro v
    show (flowSched tl alpha d o (flowCellStep alpha d o v hd)).chancnt = v.chancnt
    rw [ih]
    rfl

theorem flowSched_wf (alpha : ℚ) (d o : FloatImg) :
    ∀ (ord : List (Int × Int)) (v : FloatImg), wf v → wf (flowSched ord alpha d o v) := by
  intro ord
  induction ord with
  | nil => intro v h; exact h
  | cons hd tl ih =>
    intro v h
    exact ih (flowCellStep alpha d o v hd) (flowCellStep_wf alpha d o v hd h)

theorem flowSched_atF (alpha : ℚ) (d o : FloatImg) :
    ∀ (ord : List (Int × Int)) (v : FloatImg), wf v → v.chancnt = 2 →
    (∀ cl ∈ ord, inRect cl.1 cl.2 v.rect) →
    ∀ (x y : Int), inRect x y v.rect → ∀ (c : Nat), c < 2 →
    (flowSched ord alpha d o v).atF x y c =
      if (x, y) ∈ ord then
        (if c = 0 then (flowUV alpha d o v.rect x y).1 else (flowUV alpha d o v.rect x y).2)
      else v.atF x y c := by
  intro ord
  induction ord with
  | nil =>
    intro v _ _ _ x y _ c _
    simp [flowSched]
  | cons hd tl ih =>
    intro v hwf hch hmem x y hxy c hc
    have hhd : inRect hd.1 hd.2 v.rect := hmem hd (by simp)
    have hch0 : (0 : Nat) < v.chancnt := by omega
    have hch1 : (1 : Nat) < v.chancnt := by omega
    have hcc : c < v.chancnt := by omega
    have hstep : flowSched (hd :: tl) alpha d o v =
        flowSched tl alpha d o (flowCellStep alpha d o v hd) := rfl
    have hrect1 : (flowCellStep alpha d o v hd).rect = v.rect := rfl
    have hwf1 : wf (flowCellStep alpha d o v hd) := flowCellStep_wf alpha d o v hd hwf
    have hch1' : (flowCellStep alpha d o v hd).chancnt = 2 := hch
    have hmem1 : ∀ cl ∈ tl, inRect cl.1 cl.2 (flowCellStep alpha d o v hd).rect := by
      intro cl hcl
      exact hmem cl (List.mem_cons_of_mem hd hcl)
    have hxy1 : inRect x y (flowCellStep alpha d o v hd).rect := hxy
    rw [hstep, ih (flowCellStep alpha d o v hd) hwf1 hch1' hmem1 x y hxy1 c hc]
    by_cases hmt : (x, y) ∈ tl
    · rw [if_pos hmt, if_pos (List.mem_cons_of_mem hd hmt)]
      rfl
    · by_cases hdx : (x, y) = hd
      · rw [if_neg hmt, if_pos (by rw [hdx]; exact List.mem_cons_self hd tl)]
        subst hdx
        rw [flowCellStep_eq]
        rcases c with _ | _ | c
        · rw [if_pos rfl]
          have h1 : ((v.setF x y 0 (flowUV alpha d o v.rect x y).1).setF x y 1
              (flowUV alpha d o v.rect x y).2).atF x y 0 =
              (v.setF x y 0 (flowUV alpha d o v.rect x y).1).atF x y 0 := by
            apply atF_setF_other _ (wf_setF _ _ _ _ _ hwf) x y 1 hxy hch1 x y 0 hxy hch0
            simp
          rw [h1]
          exact atF_setF_self v hwf x y 0 hxy hch0 _
        · rw [if_neg (by omega)]
          exact atF_setF_self _ (wf_setF _ _ _ _ _ hwf) x y 1 hxy hch1 _
        · omega
      · rw [if_neg hmt, if_neg (by
          intro hmm
          rcases List.mem_cons.mp hmm with h | h
          · exact hdx h
          · exact hmt h)]
        rw [flowCellStep_eq]
        have hne1 : ¬(hd.1 = x ∧ hd.2 = y ∧ (1 : Nat) = c) := by
          intro ⟨e1, e2, _⟩
          exact hdx (by rw [Prod.ext_iff]; exact ⟨e1.symm, e2.symm⟩)
        have hne0 : ¬(hd.1 = x ∧ hd.2 = y ∧ (0 : Nat) = c) := by
          intro ⟨e1, e2, _⟩
          exact hdx (by rw [Prod.ext_iff]; exact ⟨e1.symm, e2.symm⟩)
        rw [atF_setF_other _ (wf_setF _ _ _ _ _ hwf) hd.1 hd.2 1 hhd hch1 x y c hxy hcc hne1]
        rw [atF_setF_other _ hwf hd.1 hd.2 0 hhd hch0 x y c hxy hcc hne0]

end Imgtest

namespace Imgtest

/-! Commutation of the per-cell actions, hence scheduling independence. -/

theorem setF2_comm (p : FloatImg) (hwf : wf p) (hch : 2 ≤ p.chancnt)
    (a1 a2 b1 b2 : Int) (hA : inRect a1 a2 p.rect) (hB : inRect b1 b2 p.rect)
    (hne : ¬(a1 = b1 ∧ a2 = b2)) (u1 v1 u2 v2 : ℚ) :
    (((p.setF a1 a2 0 u1).setF a1 a2 1 v1).setF b1 b2 0 u2).setF b1 b2 1 v2 =
    (((p.setF b1 b2 0 u2).setF b1 b2 1 v2).setF a1 a2 0 u1).setF a1 a2 1 v1 := by
  have hc0 : (0 : Nat) < p.chancnt := by omega
  have hc1 : (1 : Nat) < p.chancnt := by omega
  have hneAB : ∀ ca cb : Nat, ¬(a1 = b1 ∧ a2 = b2 ∧ ca = cb) := by
    intro ca cb ⟨e1, e2, _⟩
    exact hne ⟨e1, e2⟩
  have hneBA : ∀ cb ca : Nat, ¬(b1 = a1 ∧ b2 = a2 ∧ cb = ca) := by
    intro cb ca ⟨e1, e2, _⟩
    exact hne ⟨e1.symm, e2.symm⟩
  have w1 : wf (p.setF a1 a2 0 u1) := wf_setF _ _ _ _ _ hwf
  have w2 : wf ((p.setF a1 a2 0 u1).setF a1 a2 1 v1) := wf_setF _ _ _ _ _ w1
  have wB1 : wf (p.setF b1 b2 0 u2) := wf_setF _ _ _ _ _ hwf
  have wB2 : wf ((p.setF b1 b2 0 u2).setF a1 a2 0 u1) := wf_setF _ _ _ _ _ wB1
  -- move the (b, 0) write inwards past (a, 1) and (a, 0)
  have s1 : ((p.setF a1 a2 0 u1).setF a1 a2 1 v1).setF b1 b2 0 u2 =
      ((p.setF a1 a2 0 u1).setF b1 b2 0 u2).setF a1 a2 1 v1 :=
    setF_comm _ w1 a1 a2 1 hA hc1 b1 b2 0 hB hc0 (hneAB 1 0) v1 u2
  have s2 : (p.setF a1 a2 0 u1).setF b1 b2 0 u2 =
      (p.setF b1 b2 0 u2).setF a1 a2 0 u1 :=
    setF_comm _ hwf a1 a2 0 hA hc0 b1 b2 0 hB hc0 (hneAB 0 0) u1 u2
  have s3 : (((p.setF b1 b2 0 u2).setF a1 a2 0 u1).setF a1 a2 1 v1).setF b1 b2 1 v2 =
      (((p.setF b1 b2 0 u2).setF a1 a2 0 u1).setF b1 b2 1 v2).setF a1 a2 1 v1 :=
    setF_comm _ wB2 a1 a2 1 hA hc1 b1 b2 1 hB hc1 (hneAB 1 1) v1 v2
  have s4 : ((p.setF b1 b2 0 u2).setF a1 a2 0 u1).setF b1 b2 1 v2 =
      ((p.setF b1 b2 0 u2).setF b1 b2 1 v2).setF a1 a2 0 u1 :=
    setF_comm _ wB1 a1 a2 0 hA hc0 b1 b2 1 hB hc1 (hneAB 0 1) u1 v2
  calc (((p.setF a1 a2 0 u1).setF a1 a2 1 v1).setF b1 b2 0 u2).setF b1 b2 1 v2
      = (((p.setF a1 a2 0 u1).setF b1 b2 0 u2).setF a1 a2 1 v1).setF b1 b2 1 v2 := by rw [s1]
    _ = (((p.setF b1 b2 0 u2).setF a1 a2 0 u1).setF a1 a2 1 v1).setF b1 b2 1 v2 := by rw [s2]
    _ = (((p.setF b1 b2 0 u2).setF a1 a2 0 u1).setF b1 b2 1 v2).setF a1 a2 1 v1 := by rw [s3]
    _ = (((p.setF b1 b2 0 u2).setF b1 b2 1 v2).setF a1 a2 0 u1).setF a1 a2 1 v1 := by rw [s4]

theorem flowCellStep_comm (alpha : ℚ) (d o : FloatImg) (z : FloatImg) (c1 c2 : Int × Int)
    (hwf : wf z) (hch : z.chancnt = 2)
    (h1 : inRect c1.1 c1.2 z.rect) (h2 : inRect c2.1 c2.2 z.rect) :
    flowCellStep alpha d o (flowCellStep alpha d o z c1) c2 =
    flowCellStep alpha d o (flowCellStep alpha d o z c2) c1 := by
  by_cases heq : c1 = c2
  · rw [heq]
  · have hne : ¬(c1.1 = c2.1 ∧ c1.2 = c2.2) := by
      intro ⟨e1, e2⟩
      exact heq (Prod.ext e1 e2)
    show (((z.setF c1.1 c1.2 0 _).setF c1.1 c1.2 1 _).setF c2.1 c2.2 0 _).setF c2.1 c2.2 1 _ =
      (((z.setF c2.1 c2.2 0 _).setF c2.1 c2.2 1 _).setF c1.1 c1.2 0 _).setF c1.1 c1.2 1 _
    exact setF2_comm z hwf (by omega) c1.1 c1.2 c2.1 c2.2 h1 h2 hne _ _ _ _

theorem flowSched_perm (alpha : ℚ) (d o : FloatImg) (R : Rect)
    (ord1 ord2 : List (Int × Int)) (hp : ord1.Perm ord2)
    (hmem : ∀ cl ∈ ord1, inRect cl.1 cl.2 R)
    (v : FloatImg) (hwf : wf v) (hch : v.chancnt = 2) (hrect : v.rect = R) :
    flowSched ord1 alpha d o v = flowSched ord2 alpha d o v := by
  unfold flowSched
  refine foldl_perm_of_comm (P := fun z => wf z ∧ z.chancnt = 2 ∧ z.rect = R)
    ?_ hp ?_ v ⟨hwf, hch, hrect⟩
  · intro z cl hz
    exact ⟨flowCellStep_wf alpha d o z cl hz.1,
      by rw [flowCellStep_chancnt]; exact hz.2.1,
      by rw [flowCellStep_rect]; exact hz.2.2⟩
  · intro c1 hc1 c2 hc2 z hz
    exact flowCellStep_comm alpha d o z c1 c2 hz.1 hz.2.1
      (by rw [hz.2.2]; exact hmem c1 hc1) (by rw [hz.2.2]; exact hmem c2 hc2)

end Imgtest

namespace Imgtest

/-! Write-chain commutation (used for the 3-channel derivative writes). -/

theorem setF_foldl_comm (x1 y1 x2 y2 : Int) (hne : ¬(x1 = x2 ∧ y1 = y2)) :
    ∀ (ws : List (Nat × ℚ)) (p : FloatImg), wf p → inRect x1 y1 p.rect →
    inRect x2 y2 p.rect → (∀ w ∈ ws, w.1 < p.chancnt) →
    ∀ (c1 : Nat), c1 < p.chancnt → ∀ (v1 : ℚ),
    ws.foldl (fun g w => g.setF x2 y2 w.1 w.2) (p.setF x1 y1 c1 v1) =
    (ws.foldl (fun g w => g.setF x2 y2 w.1 w.2) p).setF x1 y1 c1 v1 := by
  intro ws
  induction ws with
  | nil =>
    intro p _ _ _ _ c1 _ v1
    rfl
  | cons w ws ih =>
    intro p hwf h1 h2 hws c1 hc1 v1
    simp only [List.foldl_cons]
    have hswap : (p.setF x1 y1 c1 v1).setF x2 y2 w.1 w.2 =
        (p.setF x2 y2 w.1 w.2).setF x1 y1 c1 v1 :=
      setF_comm p hwf x1 y1 c1 h1 hc1 x2 y2 w.1 h2 (hws w (by simp))
        (by intro ⟨e1, e2, _⟩; exact hne ⟨e1, e2⟩) v1 w.2
    rw [hswap]
    exact ih (p.setF x2 y2 w.1 w.2) (wf_setF _ _ _ _ _ hwf) h1 h2
      (fun w2 hw2 => hws w2 (by simp [hw2])) c1 hc1 v1

theorem setF_chain_comm (x1 y1 x2 y2 : Int) (hne : ¬(x1 = x2 ∧ y1 = y2)) :
    ∀ (wsA wsB : List (Nat × ℚ)) (p : FloatImg), wf p → inRect x1 y1 p.rect →
    inRect x2 y2 p.rect → (∀ w ∈ wsA, w.1 < p.chancnt) → (∀ w ∈ wsB, w.1 < p.chancnt) →
    wsB.foldl (fun g w => g.setF x2 y2 w.1 w.2)
      (wsA.foldl (fun g w => g.setF x1 y1 w.1 w.2) p) =
    wsA.foldl (fun g w => g.setF x1 y1 w.1 w.2)
      (wsB.foldl (fun g w => g.setF x2 y2 w.1 w.2) p) := by
  intro wsA
  induction wsA with
  | nil =>
    intro wsB p _ _ _ _ _
    rfl
  | cons a as ih =>
    intro wsB p hwf h1 h2 hA hB
    simp only [List.foldl_cons]
    rw [ih wsB (p.setF x1 y1 a.1 a.2) (wf_setF _ _ _ _ _ hwf) h1 h2
      (fun w hw => hA w (by simp [hw])) hB]
    rw [setF_foldl_comm x1 y1 x2 y2 hne wsB p hwf h1 h2 hB a.1 (hA a (by simp)) a.2]

/-! Shape preservation and pointwise characterization of the derivative pass. -/

theorem deriveCellStep_eq (f1 f2 d : FloatImg) (cl : Int × Int) :
    deriveCellStep f1 f2 d cl =
      ((d.setF cl.1 cl.2 0 (deriveFxyz f1 f2 cl.1 cl.2).1).setF cl.1 cl.2 1
        (deriveFxyz f1 f2 cl.1 cl.2).2.1).setF cl.1 cl.2 2
        (deriveFxyz f1 f2 cl.1 cl.2).2.2 := rfl

theorem deriveCellStep_rect (f1 f2 d : FloatImg) (cl : Int × Int) :
    (deriveCellStep f1 f2 d cl).rect = d.rect := rfl

theorem deriveCellStep_chancnt (f1 f2 d : FloatImg) (cl : Int × Int) :
    (deriveCellStep f1 f2 d cl).chancnt = d.chancnt := rfl

theorem deriveCellStep_wf (f1 f2 d : FloatImg) (cl : Int × Int) (h : wf d) :
    wf (deriveCellStep f1 f2 d cl) :=
  wf_setF _ _ _ _ _ (wf_setF _ _ _ _ _ (wf_setF _ _ _ _ _ h))

theorem deriveFold_atF (f1 f2 : FloatImg) :
    ∀ (ord : List (Int × Int)) (d : FloatImg), wf d → d.chancnt = 3 →
    (∀ cl ∈ ord, inRect cl.1 cl.2 d.rect) →
    ∀ (x y : Int), inRect x y d.rect → ∀ (c : Nat), c < 3 →
    (ord.foldl (fun dd cl => deriveCellStep f1 f2 dd cl) d).atF x y c =
      if (x, y) ∈ ord then
        (if c = 0 then (deriveFxyz f1 f2 x y).1
         else if c = 1 then (deriveFxyz f1 f2 x y).2.1
         else (deriveFxyz f1 f2 x y).2.2)
      else d.atF x y c := by
  intro ord
  induction ord with
  | nil =>
    intro d _ _ _ x y _ c _
    simp
  | cons hd tl ih =>
    intro d hwf hch hmem x y hxy c hc
    have hhd : inRect hd.1 hd.2 d.rect := hmem hd (by simp)
    have hch0 : (0 : Nat) < d.chancnt := by omega
    have hch1 : (1 : Nat) < d.chancnt := by omega
    have hch2 : (2 : Nat) < d.chancnt := by omega
    have hcc : c < d.chancnt := by omega
    have hwf1 : wf (deriveCellStep f1 f2 d hd) := deriveCellStep_wf f1 f2 d hd hwf
    have hmem1 : ∀ cl ∈ tl, inRect cl.1 cl.2 (deriveCellStep f1 f2 d hd).rect := by
      intro cl hcl
      exact hmem cl (List.mem_cons_of_mem hd hcl)
    rw [List.foldl_cons,
      ih (deriveCellStep f1 f2 d hd) hwf1 hch hmem1 x y hxy c hc]
    by_cases hmt : (x, y) ∈ tl
    · rw [if_pos hmt, if_pos (List.mem_cons_of_mem hd hmt)]
    · by_cases hdx : (x, y) = hd
      · rw [if_neg hmt, if_pos (by rw [hdx]; exact List.mem_cons_self hd tl)]
        subst hdx
        rw [deriveCellStep_eq]
        have w1 : wf (d.setF x y 0 (deriveFxyz f1 f2 x y).1) := wf_setF _ _ _ _ _ hwf
        have w2 : wf ((d.setF x y 0 (deriveFxyz f1 f2 x y).1).setF x y 1
            (deriveFxyz f1 f2 x y).2.1) := wf_setF _ _ _ _ _ w1
        rcases c with _ | _ | _ | c
        · rw [if_pos rfl]
          rw [atF_setF_other _ w2 x y 2 hxy hch2 x y 0 hxy hch0 (by simp)]
          rw [atF_setF_other _ w1 x y 1 hxy hch1 x y 0 hxy hch0 (by simp)]
          exact atF_setF_self d hwf x y 0 hxy hch0 _
        · rw [if_neg (by omega), if_pos rfl]
          rw [atF_setF_other _ w2 x y 2 hxy hch2 x y 1 hxy hch1 (by simp)]
          exact atF_setF_self _ w1 x y 1 hxy hch1 _
        · rw [if_neg (by omega), if_neg (by omega)]
          exact atF_setF_self _ w2 x y 2 hxy hch2 _
        · omega
      · rw [if_neg hmt, if_neg (by
          intro hmm
          rcases List.mem_cons.mp hmm with h | h
          · exact hdx h
          · exact hmt h)]
        rw [deriveCellStep_eq]
        have w1 : wf (d.setF hd.1 hd.2 0 (deriveFxyz f1 f2 hd.1 hd.2).1) := wf_setF _ _ _ _ _ hwf
        have w2 : wf ((d.setF hd.1 hd.2 0 (deriveFxyz f1 f2 hd.1 hd.2).1).setF hd.1 hd.2 1
            (deriveFxyz f1 f2 hd.1 hd.2).2.1) := wf_setF _ _ _ _ _ w1
        have hnecell : ∀ ca : Nat, ¬(hd.1 = x ∧ hd.2 = y ∧ ca = c) := by
          intro ca ⟨e1, e2, _⟩
          exact hdx (by rw [Prod.ext_iff]; exact ⟨e1.symm, e2.symm⟩)
        rw [atF_setF_other _ w2 hd.1 hd.2 2 hhd hch2 x y c hxy hcc (hnecell 2)]
        rw [atF_setF_other _ w1 hd.1 hd.2 1 hhd hch1 x y c hxy hcc (hnecell 1)]
        rw [atF_setF_other _ hwf hd.1 hd.2 0 hhd hch0 x y c hxy hcc (hnecell 0)]

theorem deriveCellStep_comm (f1 f2 : FloatImg) (z : FloatImg) (c1 c2 : Int × Int)
    (hwf : wf z) (hch : z.chancnt = 3)
    (h1 : inRect c1.1 c1.2 z.rect) (h2 : inRect c2.1 c2.2 z.rect) :
    deriveCellStep f1 f2 (deriveCellStep f1 f2 z c1) c2 =
    deriveCellStep f1 f2 (deriveCellStep f1 f2 z c2) c1 := by
  by_cases heq : c1 = c2
  · rw [heq]
  · have hne : ¬(c1.1 = c2.1 ∧ c1.2 = c2.2) := by
      intro ⟨e1, e2⟩
      exact heq (Prod.ext e1 e2)
    show [((0 : Nat), (deriveFxyz f1 f2 c2.1 c2.2).1),
          (1, (deriveFxyz f1 f2 c2.1 c2.2).2.1),
          (2, (deriveFxyz f1 f2 c2.1 c2.2).2.2)].foldl
            (fun g w => g.setF c2.1 c2.2 w.1 w.2)
          ([((0 : Nat), (deriveFxyz f1 f2 c1.1 c1.2).1),
            (1, (deriveFxyz f1 f2 c1.1 c1.2).2.1),
            (2, (deriveFxyz f1 f2 c1.1 c1.2).2.2)].foldl
              (fun g w => g.setF c1.1 c1.2 w.1 w.2) z) =
        [((0 : Nat), (deriveFxyz f1 f2 c1.1 c1.2).1),
          (1, (deriveFxyz f1 f2 c1.1 c1.2).2.1),
          (2, (deriveFxyz f1 f2 c1.1 c1.2).2.2)].foldl
            (fun g w => g.setF c1.1 c1.2 w.1 w.2)
          ([((0 : Nat), (deriveFxyz f1 f2 c2.1 c2.2).1),
            (1, (deriveFxyz f1 f2 c2.1 c2.2).2.1),
            (2, (deriveFxyz f1 f2 c2.1 c2.2).2.2)].foldl
              (fun g w => g.setF c2.1 c2.2 w.1 w.2) z)
    apply setF_chain_comm c1.1 c1.2 c2.1 c2.2 hne _ _ z hwf h1 h2
    · intro w hw
      simp only [List.mem_cons, List.not_mem_nil, or_false] at hw
      rcases hw with h | h | h <;> simp [h] <;> omega
    · intro w hw
      simp only [List.mem_cons, List.not_mem_nil, or_false] at hw
      rcases hw with h | h | h <;> simp [h] <;> omega

theorem deriveFold_perm (f1 f2 : FloatImg) (R : Rect)
    (ord1 ord2 : List (Int × Int)) (hp : ord1.Perm ord2)
    (hmem : ∀ cl ∈ ord1, inRect cl.1 cl.2 R)
    (d : FloatImg) (hwf : wf d) (hch : d.chancnt = 3) (hrect : d.rect = R) :
    ord1.foldl (fun dd cl => deriveCellStep f1 f2 dd cl) d =
    ord2.foldl (fun dd cl => deriveCellStep f1 f2 dd cl) d := by
  refine foldl_perm_of_comm (P := fun z => wf z ∧ z.chancnt = 3 ∧ z.rect = R)
    ?_ hp ?_ d ⟨hwf, hch, hrect⟩
  · intro z cl hz
    exact ⟨deriveCellStep_wf f1 f2 z cl hz.1,
      by rw [deriveCellStep_chancnt]; exact hz.2.1,
      by rw [deriveCellStep_rect]; exact hz.2.2⟩
  · intro c1 hc1 c2 hc2 z hz
    exact deriveCellStep_comm f1 f2 z c1 c2 hz.1 hz.2.1
      (by rw [hz.2.2]; exact hmem c1 hc1) (by rw [hz.2.2]; exact hmem c2 hc2)

end Imgtest

namespace Imgtest

/-! Shape facts for the derivative field and the one-sweep wrapper. -/

theorem deriveFold_rect (f1 f2 : FloatImg) :
    ∀ (ord : List (Int × Int)) (d : FloatImg),
    (ord.foldl (fun dd cl => deriveCellStep f1 f2 dd cl) d).rect = d.rect := by
  intro ord
  induction ord with
  | nil => intro d; rfl
  | cons hd tl ih =>
    intro d
    rw [List.foldl_cons, ih]
    rfl

theorem deriveFold_chancnt (f1 f2 : FloatImg) :
    ∀ (ord : List (Int × Int)) (d : FloatImg),
    (ord.foldl (fun dd cl => deriveCellStep f1 f2 dd cl) d).chancnt = d.chancnt := by
  intro ord
  induction ord with
  | nil => intro d; rfl
  | cons hd tl ih =>
    intro d
    rw [List.foldl_cons, ih]
    rfl

theorem deriveFold_wf (f1 f2 : FloatImg) :
    ∀ (ord : List (Int × Int)) (d : FloatImg), wf d →
    wf (ord.foldl (fun dd cl => deriveCellStep f1 f2 dd cl) d) := by
  intro ord
  induction ord with
  | nil => intro d h; exact h
  | cons hd tl ih =>
    intro d h
    rw [List.foldl_cons]
    exact ih _ (deriveCellStep_wf f1 f2 d hd h)

theorem deriveSched_rect (ord : List (Int × Int)) (f1 f2 : FloatImg) :
    (deriveSched ord f1 f2).rect = f1.rect :=
  deriveFold_rect f1 f2 ord (NewFloatImg f1.rect 3)

theorem deriveSched_chancnt (ord : List (Int × Int)) (f1 f2 : FloatImg) :
    (deriveSched ord f1 f2).chancnt = 3 :=
  deriveFold_chancnt f1 f2 ord (NewFloatImg f1.rect 3)

theorem deriveSched_wf (ord : List (Int × Int)) (f1 f2 : FloatImg) :
    wf (deriveSched ord f1 f2) :=
  deriveFold_wf f1 f2 ord (NewFloatImg f1.rect 3) (wf_new f1.rect 3)

theorem mem_deriveOrder_inRect (r : Rect) (n : Int) (hn : 1 ≤ n) (cl : Int × Int)
    (h : cl ∈ deriveOrder r n) : inRect cl.1 cl.2 r := by
  rw [deriveOrder_eq r n hn, mem_blockCells] at h
  exact ⟨by omega, by omega, by omega, by omega⟩

/-- Pointwise description of `deriveMixed`: the Horn–Schunck derivatives on the
interior, zero on the 1-cell border (which is never written). -/
theorem deriveMixed_atF (f1 f2 : FloatImg) (n : Int) (hn : 1 ≤ n) (x y : Int)
    (hxy : inRect x y f1.rect) (c : Nat) (hc : c < 3) :
    (deriveMixed f1 f2 n).atF x y c =
      if f1.rect.Min.X + 1 ≤ x ∧ x < f1.rect.Max.X - 1 ∧
         f1.rect.Min.Y + 1 ≤ y ∧ y < f1.rect.Max.Y - 1 then
        (if c = 0 then (deriveFxyz f1 f2 x y).1
         else if c = 1 then (deriveFxyz f1 f2 x y).2.1
         else (deriveFxyz f1 f2 x y).2.2)
      else 0 := by
  unfold deriveMixed deriveSched
  rw [deriveFold_atF f1 f2 (deriveOrder f1.rect n) (NewFloatImg f1.rect 3)
    (wf_new f1.rect 3) (chancnt_new f1.rect 3)
    (fun cl hcl => mem_deriveOrder_inRect f1.rect n hn cl hcl) x y hxy c hc]
  rw [deriveOrder_eq f1.rect n hn]
  by_cases h : (x, y) ∈ blockCells (f1.rect.Min.X + 1) (f1.rect.Max.X - 1)
      (f1.rect.Min.Y + 1) (f1.rect.Max.Y - 1)
  · rw [if_pos h]
    rw [mem_blockCells] at h
    have h2 : f1.rect.Min.X + 1 ≤ x ∧ x < f1.rect.Max.X - 1 ∧
        f1.rect.Min.Y + 1 ≤ y ∧ y < f1.rect.Max.Y - 1 := h
    rw [if_pos h2]
  · rw [if_neg h, atF_new]
    rw [mem_blockCells] at h
    have h2 : ¬(f1.rect.Min.X + 1 ≤ x ∧ x < f1.rect.Max.X - 1 ∧
        f1.rect.Min.Y + 1 ≤ y ∧ y < f1.rect.Max.Y - 1) := fun hcon => h hcon
    rw [if_neg h2]

/-! Driver-loop lemmas. -/

theorem hsIterStepN_frame (alpha : ℚ) (n : Int) (s : SolveState) :
    (hsIterStepN alpha n s).f1 = s.f1 ∧ (hsIterStepN alpha n s).f2 = s.f2 ∧
    (hsIterStepN alpha n s).derivs = s.derivs :=
  ⟨rfl, rfl, rfl⟩

theorem runItersN_frame (alpha : ℚ) (n : Int) :
    ∀ (k : Nat) (s : SolveState),
    (runItersN alpha n k s).f1 = s.f1 ∧ (runItersN alpha n k s).f2 = s.f2 ∧
    (runItersN alpha n k s).derivs = s.derivs := by
  intro k
  induction k with
  | zero => intro s; exact ⟨rfl, rfl, rfl⟩
  | succ k ih =>
    intro s
    show (runItersN alpha n k (hsIterStepN alpha n s)).f1 = s.f1 ∧ _ ∧ _
    obtain ⟨h1, h2, h3⟩ := ih (hsIterStepN alpha n s)
    exact ⟨h1, h2, h3⟩

theorem runItersSched_frame (alpha : ℚ) :
    ∀ (ords : List (List (Int × Int))) (s : SolveState),
    (runItersSched alpha ords s).f1 = s.f1 ∧ (runItersSched alpha ords s).f2 = s.f2 ∧
    (runItersSched alpha ords s).derivs = s.derivs := by
  intro ords
  induction ords with
  | nil => intro s; exact ⟨rfl, rfl, rfl⟩
  | cons o os ih =>
    intro s
    show (runItersSched alpha os (hsIterStepSched alpha s o)).f1 = s.f1 ∧ _ ∧ _
    obtain ⟨h1, h2, h3⟩ := ih (hsIterStepSched alpha s o)
    exact ⟨h1, h2, h3⟩

theorem hsIterStepN_uv_rect (alpha : ℚ) (n : Int) (s : SolveState) :
    (hsIterStepN alpha n s).uv.rect = s.uv.rect :=
  flowSched_rect alpha s.derivs s.uvOld _ s.uv

theorem runItersN_uv_rect (alpha : ℚ) (n : Int) :
    ∀ (k : Nat) (s : SolveState), (runItersN alpha n k s).uv.rect = s.uv.rect := by
  intro k
  induction k with
  | zero => intro s; rfl
  | succ k ih =>
    intro s
    show (runItersN alpha n k (hsIterStepN alpha n s)).uv.rect = s.uv.rect
    rw [ih, hsIterStepN_uv_rect]

theorem hsIterStepN_uv_chancnt (alpha : ℚ) (n : Int) (s : SolveState) :
    (hsIterStepN alpha n s).uv.chancnt = s.uv.chancnt :=
  flowSched_chancnt alpha s.derivs s.uvOld _ s.uv

theorem runItersN_uv_chancnt (alpha : ℚ) (n : Int) :
    ∀ (k : Nat) (s : SolveState), (runItersN alpha n k s).uv.chancnt = s.uv.chancnt := by
  intro k
  induction k with
  | zero => intro s; rfl
  | succ k ih =>
    intro s
    show (runItersN alpha n k (hsIterStepN alpha n s)).uv.chancnt = s.uv.chancnt
    rw [ih, hsIterStepN_uv_chancnt]

theorem runItersN_eq_sched (alpha : ℚ) (n : Int) :
    ∀ (k : Nat) (s : SolveState),
    runItersN alpha n k s =
      runItersSched alpha (List.replicate k (flowOrder s.uv.rect n)) s := by
  intro k
  induction k with
  | zero => intro s; rfl
  | succ k ih =>
    intro s
    show runItersN alpha n k (hsIterStepN alpha n s) = _
    rw [ih (hsIterStepN alpha n s)]
    rw [List.replicate_succ]
    show _ = runItersSched alpha (List.replicate k (flowOrder s.uv.rect n))
      (hsIterStepSched alpha s (flowOrder s.uv.rect n))
    rw [hsIterStepN_uv_rect]
    rfl

theorem hsIterStepSched_uv (alpha : ℚ) (s : SolveState) (o : List (Int × Int)) :
    (hsIterStepSched alpha s o).uv = flowSched o alpha s.derivs s.uvOld s.uv := rfl

theorem runItersSched_perm (alpha : ℚ) (R : Rect) (C : List (Int × Int))
    (hmemC : ∀ cl ∈ C, inRect cl.1 cl.2 R) :
    ∀ (ords1 ords2 : List (List (Int × Int))),
    List.Forall₂ (fun o1 o2 => o1.Perm C ∧ o2.Perm C) ords1 ords2 →
    ∀ s : SolveState, wf s.uv → s.uv.chancnt = 2 → s.uv.rect = R →
    runItersSched alpha ords1 s = runItersSched alpha ords2 s := by
  intro ords1 ords2 hfa
  induction hfa with
  | nil =>
    intro s _ _ _
    rfl
  | cons ho hfa2 ih =>
    rename_i o1 o2 os1 os2
    intro s hwf hch hrect
    have hperm : o1.Perm o2 := ho.1.trans ho.2.symm
    have hmem1 : ∀ cl ∈ o1, inRect cl.1 cl.2 R := fun cl hcl =>
      hmemC cl (ho.1.mem_iff.mp hcl)
    have hstep : hsIterStepSched alpha s o1 = hsIterStepSched alpha s o2 := by
      unfold hsIterStepSched
      rw [flowSched_perm alpha s.derivs s.uvOld R o1 o2 hperm hmem1 s.uv hwf hch hrect]
    show runItersSched alpha os1 (hsIterStepSched alpha s o1) = _
    rw [hstep]
    have huv : (hsIterStepSched alpha s o2).uv =
        flowSched o2 alpha s.derivs s.uvOld s.uv := rfl
    refine ih (hsIterStepSched alpha s o2) ?_ ?_ ?_
    · rw [huv]
      exact flowSched_wf alpha s.derivs s.uvOld o2 s.uv hwf
    · rw [huv, flowSched_chancnt]
      exact hch
    · rw [huv, flowSched_rect]
      exact hrect

end Imgtest

namespace Imgtest

/-! Bridge between the loop-accumulated update and the spec's closed formula. -/

theorem flowUV_spec (alpha : ℚ) (d o : FloatImg) (r : Rect) (i j : Int)
    (hij : inRect i j r) :
    flowUV alpha d o r i j =
      (((if inRect (i-1) j r then o.atF (i-1) j 0 else 0) +
        (if inRect (i+1) j r then o.atF (i+1) j 0 else 0) +
        (if inRect i (j-1) r then o.atF i (j-1) 0 else 0) +
        (if inRect i (j+1) r then o.atF i (j+1) 0 else 0) -
        1 / alpha * d.atF i j 0 * (d.atF i j 1 * o.atF i j 1 + d.atF i j 2)) /
       (((if inRect (i-1) j r then (1:ℚ) else 0) + (if inRect (i+1) j r then 1 else 0) +
         (if inRect i (j-1) r then 1 else 0) + (if inRect i (j+1) r then 1 else 0)) +
        1 / alpha * (d.atF i j 0) ^ 2),
       ((if inRect (i-1) j r then o.atF (i-1) j 1 else 0) +
        (if inRect (i+1) j r then o.atF (i+1) j 1 else 0) +
        (if inRect i (j-1) r then o.atF i (j-1) 1 else 0) +
        (if inRect i (j+1) r then o.atF i (j+1) 1 else 0) -
        1 / alpha * d.atF i j 1 * (d.atF i j 0 * o.atF i j 0 + d.atF i j 2)) /
       (((if inRect (i-1) j r then (1:ℚ) else 0) + (if inRect (i+1) j r then 1 else 0) +
         (if inRect i (j-1) r then 1 else 0) + (if inRect i (j+1) r then 1 else 0)) +
        1 / alpha * (d.atF i j 1) ^ 2)) := by
  obtain ⟨h1, h2, h3, h4⟩ := hij
  have e1 : inRect (i-1) j r ↔ r.Min.X < i := by unfold inRect; omega
  have e2 : inRect (i+1) j r ↔ i < r.Max.X - 1 := by unfold inRect; omega
  have e3 : inRect i (j-1) r ↔ r.Min.Y < j := by unfold inRect; omega
  have e4 : inRect i (j+1) r ↔ j < r.Max.Y - 1 := by unfold inRect; omega
  unfold flowUV
  simp only [e1, e2, e3, e4]
  split_ifs <;>
    (refine Prod.ext ?_ ?_ <;> (simp only []; push_cast; ring_nf))

end Imgtest

namespace Imgtest

/-! All-zero flow iterates are preserved when the temporal derivative is zero. -/

theorem atF_of_replicate (o : FloatImg) (L : Nat) (h : o.pix = List.replicate L 0)
    (x y : Int) (c : Nat) : o.atF x y c = 0 := by
  unfold FloatImg.atF
  rw [h]
  exact getQ_replicate ..

theorem flowUV_zero (alpha : ℚ) (d o : FloatImg) (r : Rect) (i j : Int)
    (ho : ∀ (x y : Int) (c : Nat), o.atF x y c = 0) (hfz : d.atF i j 2 = 0) :
    flowUV alpha d o r i j = (0, 0) := by
  unfold flowUV
  simp only [ho, hfz]
  split_ifs <;>
    (refine Prod.ext ?_ ?_ <;> (simp only []; push_cast; ring_nf))

theorem flowSched_zero (alpha : ℚ) (d o : FloatImg) (L : Nat)
    (ho : ∀ (x y : Int) (c : Nat), o.atF x y c = 0) :
    ∀ (ord : List (Int × Int)) (v : FloatImg),
    (∀ cl ∈ ord, d.atF cl.1 cl.2 2 = 0) → v.pix = List.replicate L 0 →
    (flowSched ord alpha d o v).pix = List.replicate L 0 := by
  intro ord
  induction ord with
  | nil =>
    intro v _ hv
    exact hv
  | cons hd tl ih =>
    intro v hdz hv
    have hval : flowUV alpha d o v.rect hd.1 hd.2 = (0, 0) :=
      flowUV_zero alpha d o v.rect hd.1 hd.2 ho (hdz hd (by simp))
    have hstep : (flowCellStep alpha d o v hd).pix = List.replicate L 0 := by
      rw [flowCellStep_eq, hval]
      show setQ (setQ v.pix _ 0) _ 0 = _
      rw [hv, setQ_replicate_zero, setQ_replicate_zero]
    show (flowSched tl alpha d o (flowCellStep alpha d o v hd)).pix = _
    exact ih (flowCellStep alpha d o v hd)
      (fun cl hcl => hdz cl (List.mem_cons_of_mem hd hcl)) hstep

theorem copyList_replicate (L : Nat) :
    copyList (List.replicate L (0:ℚ)) (List.replicate L 0) = List.replicate L 0 := by
  unfold copyList
  simp [List.take_replicate, List.drop_replicate]

theorem runItersN_zero (alpha : ℚ) (n : Int) (hn : 1 ≤ n) (R : Rect) (D : FloatImg)
    (hdz : ∀ x y : Int, inRect x y R → D.atF x y 2 = 0) (L : Nat) :
    ∀ (k : Nat) (s : SolveState), s.derivs = D → s.uv.rect = R →
    s.uv.pix = List.replicate L 0 → s.uvOld.pix = List.replicate L 0 →
    (runItersN alpha n k s).uv.pix = List.replicate L 0 := by
  intro k
  induction k with
  | zero =>
    intro s _ _ h3 _
    exact h3
  | succ k ih =>
    intro s h1 h2 h3 h4
    show (runItersN alpha n k (hsIterStepN alpha n s)).uv.pix = _
    have ho : ∀ (x y : Int) (c : Nat), s.uvOld.atF x y c = 0 :=
      atF_of_replicate s.uvOld L h4
    have hcells : ∀ cl ∈ flowOrder s.uv.rect n, s.derivs.atF cl.1 cl.2 2 = 0 := by
      intro cl hcl
      rw [flowOrder_eq s.uv.rect n hn, mem_blockCells] at hcl
      rw [h1]
      exact hdz cl.1 cl.2 (by rw [← h2]; exact ⟨hcl.1, hcl.2.1, hcl.2.2.1, hcl.2.2.2⟩)
    have huv : (hsIterStepN alpha n s).uv.pix = List.replicate L 0 :=
      flowSched_zero alpha s.derivs s.uvOld L ho (flowOrder s.uv.rect n) s.uv hcells h3
    have huvOld : (hsIterStepN alpha n s).uvOld.pix = List.replicate L 0 := by
      show (s.uvOld.copyFrom (flowGo n alpha s.derivs s.uvOld s.uv)).pix = _
      show copyList s.uvOld.pix (flowGo n alpha s.derivs s.uvOld s.uv).pix = _
      have : (flowGo n alpha s.derivs s.uvOld s.uv).pix = List.replicate L 0 := huv
      rw [this, h4]
      exact copyList_replicate L
    refine ih (hsIterStepN alpha n s) h1 ?_ huv huvOld
    rw [hsIterStepN_uv_rect]
    exact h2

/-! Pairing two lists of sweeps against a common canonical order. -/

theorem forall₂_of_all {α : Type} {Q S : List α → Prop} :
    ∀ (l1 l2 : List (List α)), l1.length = l2.length →
    (∀ a ∈ l1, Q a) → (∀ b ∈ l2, S b) →
    List.Forall₂ (fun a b => Q a ∧ S b) l1 l2 := by
  intro l1
  induction l1 with
  | nil =>
    intro l2 hlen _ _
    cases l2 with
    | nil => exact List.Forall₂.nil
    | cons b bs => simp at hlen
  | cons a as ih =>
    intro l2 hlen hQ hS
    cases l2 with
    | nil => simp at hlen
    | cons b bs =>
      refine List.Forall₂.cons ⟨hQ a (by simp), hS b (by simp)⟩ ?_
      exact ih bs (by simpa using hlen) (fun a2 ha2 => hQ a2 (by simp [ha2]))
        (fun b2 hb2 => hS b2 (by simp [hb2]))

end Imgtest

namespace Imgtest

/-- Claim C10: from the moment the derivative field is computed until
`OpticFlowHornSchunk` returns, the buffers f1, f2 and derivs are only read,
never written — the final state's f1/f2/derivs components equal their values
right after derivative computation, for every alpha, iteration count, band
granularity, and per-sweep cell scheduling. -/
theorem claim_C10 (f1 f2 : FloatImg) (alpha : ℚ) (iterations : Nat) (n : Int)
    (dOrd : List (Int × Int)) (fOrds : List (List (Int × Int))) :
    ((OpticFlowHornSchunkS f1 f2 alpha iterations n).f1 = f1 ∧
     (OpticFlowHornSchunkS f1 f2 alpha iterations n).f2 = f2 ∧
     (OpticFlowHornSchunkS f1 f2 alpha iterations n).derivs = deriveMixed f1 f2 n) ∧
    ((OpticFlowHornSchunkSched f1 f2 alpha dOrd fOrds).f1 = f1 ∧
     (OpticFlowHornSchunkSched f1 f2 alpha dOrd fOrds).f2 = f2 ∧
     (OpticFlowHornSchunkSched f1 f2 alpha dOrd fOrds).derivs = deriveSched dOrd f1 f2) := by
  constructor
  · obtain ⟨h1, h2, h3⟩ := runItersN_frame alpha n iterations
      { f1 := f1, f2 := f2, derivs := deriveMixed f1 f2 n,
        uvOld := NewFloatImg f1.rect 2, uv := NewFloatImg f1.rect 2 }
    exact ⟨h1, h2, h3⟩
  · obtain ⟨h1, h2, h3⟩ := runItersSched_frame alpha fOrds
      { f1 := f1, f2 := f2, derivs := deriveSched dOrd f1 f2,
        uvOld := NewFloatImg f1.rect 2, uv := NewFloatImg f1.rect 2 }
    exact ⟨h1, h2, h3⟩

/-- Claim C1, counterexample: on a 4x4 bordered input the returned flow field
carries the FULL bordered bounds, not the interior bounds [1,3)x[1,3); and the
banded sweep's processed-cell sequence contains the border cell (0,0), whose
derivative values the sweep reads. -/
theorem claim_C1_counterexample :
    (OpticFlowHornSchunk z44 z44 1 1 1).rect ≠ (⟨⟨1, 1⟩, ⟨3, 3⟩⟩ : Rect) ∧
    ((0 : Int), (0 : Int)) ∈ flowOrder (⟨⟨0, 0⟩, ⟨4, 4⟩⟩ : Rect) 1 := by
  constructor
  · have h : (OpticFlowHornSchunk z44 z44 1 1 1).rect = z44.rect := by
      show (runItersN 1 1 1 _).uv.rect = z44.rect
      rw [runItersN_uv_rect]
      rfl
    rw [h]
    decide
  · decide

/-- Claim C1, amended: the flow field returned by `OpticFlowHornSchunk` is a
2-channel buffer over the FULL bordered input bounds (`f1.Bounds()`), the
border cells included; consequently one banded relaxation sweep processes
exactly the cells of those full bounds — reading the derivative field at each
of them, border cells included — and the derivative field holds zero at every
non-interior cell it reads there. -/
theorem claim_C1 (f1 f2 : FloatImg) (alpha : ℚ) (iterations : Nat) (n : Int) :
    (OpticFlowHornSchunk f1 f2 alpha iterations n).rect = f1.rect ∧
    (OpticFlowHornSchunk f1 f2 alpha iterations n).chancnt = 2 ∧
    (1 ≤ n →
      flowOrder f1.rect n =
        blockCells f1.rect.Min.X f1.rect.Max.X f1.rect.Min.Y f1.rect.Max.Y ∧
      ∀ x y : Int, inRect x y f1.rect →
        ¬(f1.rect.Min.X + 1 ≤ x ∧ x < f1.rect.Max.X - 1 ∧
          f1.rect.Min.Y + 1 ≤ y ∧ y < f1.rect.Max.Y - 1) →
        ∀ c : Nat, c < 3 → (deriveMixed f1 f2 n).atF x y c = 0) := by
  refine ⟨?_, ?_, ?_⟩
  · show (runItersN alpha n iterations _).uv.rect = f1.rect
    rw [runItersN_uv_rect]
    rfl
  · show (runItersN alpha n iterations _).uv.chancnt = 2
    rw [runItersN_uv_chancnt]
    rfl
  · intro hn
    refine ⟨flowOrder_eq f1.rect n hn, ?_⟩
    intro x y hxy hni c hc
    rw [deriveMixed_atF f1 f2 n hn x y hxy c hc, if_neg hni]

/-- Claim C1, witness at a concrete 4x4 bordered input. -/
theorem claim_C1_witness :
    (1 : Int) ≤ 1 ∧ (OpticFlowHornSchunk z44 z44 1 1 1).rect = z44.rect ∧
    (deriveMixed z44 z44 1).atF 0 0 2 = 0 := by
  have h := claim_C1 z44 z44 1 1 1
  refine ⟨by norm_num, h.1, ?_⟩
  exact (h.2.2 (by norm_num)).2 0 0 (by decide) (by decide) 2 (by norm_num)

end Imgtest

namespace Imgtest

/-- Claim C2: for every cell (i,j) of the flow field's bounds and every
alpha > 0, one banded relaxation sweep writes into the current iterate at
(i,j) exactly the pair (uSum, vSum) given by: nn = number of in-bounds
4-neighbors (no wraparound); uSum/vSum start as the sums of the previous
iterate's u/v over those neighbors; then
uSum -= (1/alpha)*Fx*(Fy*v_old + Fz); uSum /= nn + (1/alpha)*Fx^2;
vSum -= (1/alpha)*Fy*(Fx*u_old + Fz); vSum /= nn + (1/alpha)*Fy^2,
with (Fx,Fy,Fz) the derivative field at (i,j) and u_old/v_old the previous
iterate's values there; all value reads are from the previous iterate. -/
theorem claim_C2 (n : Int) (alpha : ℚ) (derivs oldvec cur : FloatImg)
    (hn : 1 ≤ n) (halpha : 0 < alpha) (hwf : wf cur) (hch : cur.chancnt = 2)
    (i j : Int) (hij : inRect i j cur.rect) :
    (flowGo n alpha derivs oldvec cur).atF i j 0 =
      ((if inRect (i-1) j cur.rect then oldvec.atF (i-1) j 0 else 0) +
       (if inRect (i+1) j cur.rect then oldvec.atF (i+1) j 0 else 0) +
       (if inRect i (j-1) cur.rect then oldvec.atF i (j-1) 0 else 0) +
       (if inRect i (j+1) cur.rect then oldvec.atF i (j+1) 0 else 0) -
       1 / alpha * derivs.atF i j 0 *
         (derivs.atF i j 1 * oldvec.atF i j 1 + derivs.atF i j 2)) /
      (((if inRect (i-1) j cur.rect then (1:ℚ) else 0) +
        (if inRect (i+1) j cur.rect then 1 else 0) +
        (if inRect i (j-1) cur.rect then 1 else 0) +
        (if inRect i (j+1) cur.rect then 1 else 0)) +
       1 / alpha * (derivs.atF i j 0) ^ 2) ∧
    (flowGo n alpha derivs oldvec cur).atF i j 1 =
      ((if inRect (i-1) j cur.rect then oldvec.atF (i-1) j 1 else 0) +
       (if inRect (i+1) j cur.rect then oldvec.atF (i+1) j 1 else 0) +
       (if inRect i (j-1) cur.rect then oldvec.atF i (j-1) 1 else 0) +
       (if inRect i (j+1) cur.rect then oldvec.atF i (j+1) 1 else 0) -
       1 / alpha * derivs.atF i j 1 *
         (derivs.atF i j 0 * oldvec.atF i j 0 + derivs.atF i j 2)) /
      (((if inRect (i-1) j cur.rect then (1:ℚ) else 0) +
        (if inRect (i+1) j cur.rect then 1 else 0) +
        (if inRect i (j-1) cur.rect then 1 else 0) +
        (if inRect i (j+1) cur.rect then 1 else 0)) +
       1 / alpha * (derivs.atF i j 1) ^ 2) := by
  have hmem : ∀ cl ∈ flowOrder cur.rect n, inRect cl.1 cl.2 cur.rect := by
    intro cl hcl
    rw [flowOrder_eq cur.rect n hn, mem_blockCells] at hcl
    exact ⟨hcl.1, hcl.2.1, hcl.2.2.1, hcl.2.2.2⟩
  have hmemij : (i, j) ∈ flowOrder cur.rect n := by
    rw [flowOrder_eq cur.rect n hn, mem_blockCells]
    exact ⟨hij.1, hij.2.1, hij.2.2.1, hij.2.2.2⟩
  have h0 := flowSched_atF alpha derivs oldvec (flowOrder cur.rect n) cur hwf hch hmem
    i j hij 0 (by norm_num)
  have h1 := flowSched_atF alpha derivs oldvec (flowOrder cur.rect n) cur hwf hch hmem
    i j hij 1 (by norm_num)
  rw [if_pos hmemij, if_pos rfl] at h0
  rw [if_pos hmemij, if_neg (by norm_num)] at h1
  have hs := flowUV_spec alpha derivs oldvec cur.rect i j hij
  constructor
  · show (flowSched (flowOrder cur.rect n) alpha derivs oldvec cur).atF i j 0 = _
    rw [h0, hs]
  · show (flowSched (flowOrder cur.rect n) alpha derivs oldvec cur).atF i j 1 = _
    rw [h1, hs]

/-- Claim C2, witness on concrete all-zero 2x2 buffers. -/
theorem claim_C2_witness :
    (flowGo 1 1 (NewFloatImg ⟨⟨0, 0⟩, ⟨2, 2⟩⟩ 3) (NewFloatImg ⟨⟨0, 0⟩, ⟨2, 2⟩⟩ 2)
      (NewFloatImg ⟨⟨0, 0⟩, ⟨2, 2⟩⟩ 2)).atF 0 0 0 = 0 := by
  have h := (claim_C2 1 1 (NewFloatImg ⟨⟨0, 0⟩, ⟨2, 2⟩⟩ 3) (NewFloatImg ⟨⟨0, 0⟩, ⟨2, 2⟩⟩ 2)
    (NewFloatImg ⟨⟨0, 0⟩, ⟨2, 2⟩⟩ 2) (by norm_num) (by norm_num) (wf_new _ _) rfl
    0 0 (by decide)).1
  rw [h]
  simp only [atF_new, ite_self]
  norm_num

/-- Claim C3: `deriveMixed` on two single-channel buffers of identical bounds
returns a 3-channel buffer over the same bounds; every interior cell holds
(Fx, Fy, Fz) with Fx = ((f1[i+1,j]-f1[i-1,j]) + (f2[i+1,j]-f2[i-1,j]))/4,
Fy = ((f1[i,j+1]-f1[i,j-1]) + (f2[i,j+1]-f2[i,j-1]))/4, Fz = f2[i,j]-f1[i,j];
every border cell holds zero in all three channels. -/
theorem claim_C3 (f1 f2 : FloatImg) (n : Int) (hn : 1 ≤ n) (hr : f1.rect = f2.rect)
    (hc1 : f1.chancnt = 1) (hc2 : f2.chancnt = 1) :
    (deriveMixed f1 f2 n).rect = f1.rect ∧ (deriveMixed f1 f2 n).chancnt = 3 ∧
    (∀ i j : Int, f1.rect.Min.X + 1 ≤ i → i < f1.rect.Max.X - 1 →
      f1.rect.Min.Y + 1 ≤ j → j < f1.rect.Max.Y - 1 →
      (deriveMixed f1 f2 n).atF i j 0 =
        ((f1.atF (i+1) j 0 - f1.atF (i-1) j 0) + (f2.atF (i+1) j 0 - f2.atF (i-1) j 0)) / 4 ∧
      (deriveMixed f1 f2 n).atF i j 1 =
        ((f1.atF i (j+1) 0 - f1.atF i (j-1) 0) + (f2.atF i (j+1) 0 - f2.atF i (j-1) 0)) / 4 ∧
      (deriveMixed f1 f2 n).atF i j 2 = f2.atF i j 0 - f1.atF i j 0) ∧
    (∀ i j : Int, inRect i j f1.rect →
      ¬(f1.rect.Min.X + 1 ≤ i ∧ i < f1.rect.Max.X - 1 ∧
        f1.rect.Min.Y + 1 ≤ j ∧ j < f1.rect.Max.Y - 1) →
      ∀ c : Nat, c < 3 → (deriveMixed f1 f2 n).atF i j c = 0) := by
  refine ⟨deriveSched_rect _ f1 f2, deriveSched_chancnt _ f1 f2, ?_, ?_⟩
  · intro i j hi1 hi2 hj1 hj2
    have hin : inRect i j f1.rect := ⟨by omega, by omega, by omega, by omega⟩
    have hint : f1.rect.Min.X + 1 ≤ i ∧ i < f1.rect.Max.X - 1 ∧
        f1.rect.Min.Y + 1 ≤ j ∧ j < f1.rect.Max.Y - 1 := ⟨hi1, hi2, hj1, hj2⟩
    refine ⟨?_, ?_, ?_⟩
    · rw [deriveMixed_atF f1 f2 n hn i j hin 0 (by norm_num), if_pos hint, if_pos rfl]
      show (f1.atF (i+1) j 0 - f1.atF (i-1) j 0 + f2.atF (i+1) j 0 - f2.atF (i-1) j 0) /
        (4 * 1) = _
      ring
    · rw [deriveMixed_atF f1 f2 n hn i j hin 1 (by norm_num), if_pos hint,
        if_neg (by norm_num), if_pos rfl]
      show (f1.atF i (j+1) 0 - f1.atF i (j-1) 0 + f2.atF i (j+1) 0 - f2.atF i (j-1) 0) /
        (4 * 1) = _
      ring
    · rw [deriveMixed_atF f1 f2 n hn i j hin 2 (by norm_num), if_pos hint,
        if_neg (by norm_num), if_neg (by norm_num)]
      rfl
  · intro i j hin hni c hc
    rw [deriveMixed_atF f1 f2 n hn i j hin c hc, if_neg hni]

/-- Claim C3, witness on a concrete 4x4 input. -/
theorem claim_C3_witness :
    m44.chancnt = 1 ∧ (deriveMixed m44 m44 1).atF 1 1 0 = 1 := by
  have h := claim_C3 m44 m44 1 (by norm_num) rfl rfl rfl
  refine ⟨rfl, ?_⟩
  have h2 := (h.2.2.1 1 1 (by decide) (by decide) (by decide) (by decide)).1
  have e1 : m44.atF (1+1) 1 0 = 6 := by decide
  have e2 : m44.atF (1-1) 1 0 = 4 := by decide
  rw [h2, e1, e2]
  norm_num

/-- Claim C5: if f1 == f2 everywhere then for every alpha > 0, every K ≥ 1 and
every band granularity n ≥ 1, `OpticFlowHornSchunk` started from the all-zero
initial iterate returns the all-zero flow field. -/
theorem claim_C5 (f1 f2 : FloatImg) (alpha : ℚ) (K : Nat) (n : Int)
    (h12 : ∀ x y : Int, f1.atF x y 0 = f2.atF x y 0)
    (halpha : 0 < alpha) (hK : 1 ≤ K) (hn : 1 ≤ n) :
    (OpticFlowHornSchunk f1 f2 alpha K n).pix =
      List.replicate (2 * f1.rect.Dx.toNat * f1.rect.Dy.toNat) 0 := by
  have hdz : ∀ x y : Int, inRect x y f1.rect → (deriveMixed f1 f2 n).atF x y 2 = 0 := by
    intro x y hxy
    rw [deriveMixed_atF f1 f2 n hn x y hxy 2 (by norm_num)]
    by_cases h : f1.rect.Min.X + 1 ≤ x ∧ x < f1.rect.Max.X - 1 ∧
        f1.rect.Min.Y + 1 ≤ y ∧ y < f1.rect.Max.Y - 1
    · rw [if_pos h, if_neg (by norm_num), if_neg (by norm_num)]
      show f2.atF x y 0 - f1.atF x y 0 = 0
      rw [h12 x y]
      ring
    · rw [if_neg h]
  show (runItersN alpha n K _).uv.pix = _
  exact runItersN_zero alpha n hn f1.rect (deriveMixed f1 f2 n) hdz
    (2 * f1.rect.Dx.toNat * f1.rect.Dy.toNat) K _ rfl rfl rfl rfl

/-- Claim C5, witness: identical nonzero 4x4 inputs give the all-zero field. -/
theorem claim_C5_witness :
    (OpticFlowHornSchunk m44 m44 1 1 1).pix = List.replicate 32 0 := by
  have h := claim_C5 m44 m44 1 1 1 (fun x y => rfl) (by norm_num) (by norm_num) (by norm_num)
  rw [h]
  rfl

end Imgtest

namespace Imgtest

/-- Claim C4: for fixed inputs, alpha and iteration count, the flow field of
`OpticFlowHornSchunk` is identical for every band granularity n ≥ 1 and every
scheduling order of the bands (modelled as: any permutation of the derivative
pass's banded cell sequence, and per sweep any permutation of that sweep's
banded cell sequence), and equals the sequential banded run. -/
theorem claim_C4 (f1 f2 : FloatImg) (alpha : ℚ) (iterations : Nat) (n1 n2 : Int)
    (hn1 : 1 ≤ n1) (hn2 : 1 ≤ n2)
    (dOrd1 dOrd2 : List (Int × Int)) (fOrds1 fOrds2 : List (List (Int × Int)))
    (hd1 : dOrd1.Perm (deriveOrder f1.rect n1))
    (hd2 : dOrd2.Perm (deriveOrder f1.rect n2))
    (hl1 : fOrds1.length = iterations) (hl2 : fOrds2.length = iterations)
    (hf1 : ∀ o ∈ fOrds1, o.Perm (flowOrder f1.rect n1))
    (hf2 : ∀ o ∈ fOrds2, o.Perm (flowOrder f1.rect n2)) :
    (OpticFlowHornSchunkSched f1 f2 alpha dOrd1 fOrds1).uv =
      (OpticFlowHornSchunkSched f1 f2 alpha dOrd2 fOrds2).uv ∧
    (OpticFlowHornSchunkSched f1 f2 alpha dOrd1 fOrds1).uv =
      OpticFlowHornSchunk f1 f2 alpha iterations n1 := by
  have hCmem : ∀ cl ∈ blockCells f1.rect.Min.X f1.rect.Max.X f1.rect.Min.Y f1.rect.Max.Y,
      inRect cl.1 cl.2 f1.rect := by
    intro cl hcl
    rw [mem_blockCells] at hcl
    exact ⟨hcl.1, hcl.2.1, hcl.2.2.1, hcl.2.2.2⟩
  have hderiv : ∀ (dOrd : List (Int × Int)) (m : Int), 1 ≤ m →
      dOrd.Perm (deriveOrder f1.rect m) → deriveSched dOrd f1 f2 = deriveMixed f1 f2 n1 := by
    intro dOrd m hm hperm
    have hperm2 : dOrd.Perm (deriveOrder f1.rect n1) := by
      have he : deriveOrder f1.rect m = deriveOrder f1.rect n1 := by
        rw [deriveOrder_eq _ _ hm, deriveOrder_eq _ _ hn1]
      rw [← he]
      exact hperm
    show deriveSched dOrd f1 f2 = deriveSched (deriveOrder f1.rect n1) f1 f2
    unfold deriveSched
    exact deriveFold_perm f1 f2 f1.rect dOrd (deriveOrder f1.rect n1) hperm2
      (fun cl hcl => mem_deriveOrder_inRect f1.rect m hm cl (hperm.mem_iff.mp hcl))
      (NewFloatImg f1.rect 3) (wf_new _ _) rfl rfl
  have hrun : ∀ (foA foB : List (List (Int × Int))), foA.length = foB.length →
      (∀ o ∈ foA, o.Perm (blockCells f1.rect.Min.X f1.rect.Max.X f1.rect.Min.Y f1.rect.Max.Y)) →
      (∀ o ∈ foB, o.Perm (blockCells f1.rect.Min.X f1.rect.Max.X f1.rect.Min.Y f1.rect.Max.Y)) →
      ∀ s : SolveState, wf s.uv → s.uv.chancnt = 2 → s.uv.rect = f1.rect →
      runItersSched alpha foA s = runItersSched alpha foB s := by
    intro foA foB hlen pA pB s h1 h2 h3
    exact runItersSched_perm alpha f1.rect _ hCmem foA foB
      (forall₂_of_all foA foB hlen pA pB) s h1 h2 h3
  have hp1 : ∀ o ∈ fOrds1, o.Perm (blockCells f1.rect.Min.X f1.rect.Max.X
      f1.rect.Min.Y f1.rect.Max.Y) := by
    intro o ho
    have h := hf1 o ho
    rw [flowOrder_eq _ _ hn1] at h
    exact h
  have hp2 : ∀ o ∈ fOrds2, o.Perm (blockCells f1.rect.Min.X f1.rect.Max.X
      f1.rect.Min.Y f1.rect.Max.Y) := by
    intro o ho
    have h := hf2 o ho
    rw [flowOrder_eq _ _ hn2] at h
    exact h
  constructor
  · show (runItersSched alpha fOrds1
        { f1 := f1, f2 := f2, derivs := deriveSched dOrd1 f1 f2,
          uvOld := NewFloatImg f1.rect 2, uv := NewFloatImg f1.rect 2 }).uv =
      (runItersSched alpha fOrds2
        { f1 := f1, f2 := f2, derivs := deriveSched dOrd2 f1 f2,
          uvOld := NewFloatImg f1.rect 2, uv := NewFloatImg f1.rect 2 }).uv
    rw [hderiv dOrd1 n1 hn1 hd1, hderiv dOrd2 n2 hn2 hd2]
    exact congrArg SolveState.uv
      (hrun fOrds1 fOrds2 (hl1.trans hl2.symm) hp1 hp2 _ (wf_new _ _) rfl rfl)
  · show (runItersSched alpha fOrds1
        { f1 := f1, f2 := f2, derivs := deriveSched dOrd1 f1 f2,
          uvOld := NewFloatImg f1.rect 2, uv := NewFloatImg f1.rect 2 }).uv =
      (runItersN alpha n1 iterations
        { f1 := f1, f2 := f2, derivs := deriveMixed f1 f2 n1,
          uvOld := NewFloatImg f1.rect 2, uv := NewFloatImg f1.rect 2 }).uv
    rw [hderiv dOrd1 n1 hn1 hd1]
    rw [runItersN_eq_sched alpha n1 iterations]
    rw [rect_new]
    refine congrArg SolveState.uv
      (hrun fOrds1 (List.replicate iterations (flowOrder f1.rect n1)) ?_ hp1 ?_
        _ (wf_new _ _) rfl rfl)
    · rw [List.length_replicate]
      exact hl1
    · intro o ho
      cases List.eq_of_mem_replicate ho
      rw [flowOrder_eq f1.rect n1 hn1]

/-- Claim C4, witness: equal results for band sizes 1 and 2 on a 4x4 input. -/
theorem claim_C4_witness :
    (OpticFlowHornSchunkSched z44 z44 1 (deriveOrder z44.rect 1)
        (List.replicate 1 (flowOrder z44.rect 1))).uv =
      (OpticFlowHornSchunkSched z44 z44 1 (deriveOrder z44.rect 2)
        (List.replicate 1 (flowOrder z44.rect 2))).uv :=
  (claim_C4 z44 z44 1 1 1 2 (by norm_num) (by norm_num)
    (deriveOrder z44.rect 1) (deriveOrder z44.rect 2)
    (List.replicate 1 (flowOrder z44.rect 1)) (List.replicate 1 (flowOrder z44.rect 2))
    (List.Perm.refl _) (List.Perm.refl _) rfl rfl
    (fun o ho => by cases List.eq_of_mem_replicate ho; exact List.Perm.refl _)
    (fun o ho => by cases List.eq_of_mem_replicate ho; exact List.Perm.refl _)).1

end Imgtest

namespace Imgtest

/-! Characterization of one column/row mirroring step of `Dummies`:
per channel, write cell P1 from cell Q1, then write cell P2 from cell Q2,
reading live storage. -/

theorem chanFold_shape (p1x p1y p2x p2y q1x q1y q2x q2y : Int) :
    ∀ (cs : List Nat) (g : FloatImg),
    ((cs.foldl (fun g2 c =>
        (g2.setF p1x p1y c (g2.atF q1x q1y c)).setF p2x p2y c
          ((g2.setF p1x p1y c (g2.atF q1x q1y c)).atF q2x q2y c)) g).rect = g.rect ∧
     (cs.foldl (fun g2 c =>
        (g2.setF p1x p1y c (g2.atF q1x q1y c)).setF p2x p2y c
          ((g2.setF p1x p1y c (g2.atF q1x q1y c)).atF q2x q2y c)) g).chancnt = g.chancnt) ∧
    (wf g → wf (cs.foldl (fun g2 c =>
        (g2.setF p1x p1y c (g2.atF q1x q1y c)).setF p2x p2y c
          ((g2.setF p1x p1y c (g2.atF q1x q1y c)).atF q2x q2y c)) g)) := by
  intro cs
  induction cs with
  | nil =>
    intro g
    exact ⟨⟨rfl, rfl⟩, fun h => h⟩
  | cons c cs ih =>
    intro g
    rw [List.foldl_cons]
    refine ⟨(ih _).1, fun h => (ih _).2 ?_⟩
    exact wf_setF _ _ _ _ _ (wf_setF _ _ _ _ _ h)

theorem chanFold_atF (p1x p1y q1x q1y p2x p2y q2x q2y : Int)
    (hne12 : ¬(p1x = p2x ∧ p1y = p2y))
    (hq1p1 : ¬(q1x = p1x ∧ q1y = p1y)) (hq1p2 : ¬(q1x = p2x ∧ q1y = p2y))
    (hq2p1 : ¬(q2x = p1x ∧ q2y = p1y)) (hq2p2 : ¬(q2x = p2x ∧ q2y = p2y)) :
    ∀ (cs : List Nat) (g : FloatImg), wf g → cs.Nodup →
    (∀ c ∈ cs, c < g.chancnt) →
    inRect p1x p1y g.rect → inRect p2x p2y g.rect →
    inRect q1x q1y g.rect → inRect q2x q2y g.rect →
    ∀ (x2 y2 : Int) (c2 : Nat), inRect x2 y2 g.rect → c2 < g.chancnt →
    (cs.foldl (fun g2 c =>
        (g2.setF p1x p1y c (g2.atF q1x q1y c)).setF p2x p2y c
          ((g2.setF p1x p1y c (g2.atF q1x q1y c)).atF q2x q2y c)) g).atF x2 y2 c2 =
      if x2 = p1x ∧ y2 = p1y ∧ c2 ∈ cs then g.atF q1x q1y c2
      else if x2 = p2x ∧ y2 = p2y ∧ c2 ∈ cs then g.atF q2x q2y c2
      else g.atF x2 y2 c2 := by
  intro cs
  induction cs with
  | nil =>
    intro g _ _ _ _ _ _ _ x2 y2 c2 _ _
    simp
  | cons c cs ih =>
    intro g hwf hnd hcs hp1 hp2 hq1 hq2 x2 y2 c2 hxy2 hc2
    have hc : c < g.chancnt := hcs c (by simp)
    have w1 : wf (g.setF p1x p1y c (g.atF q1x q1y c)) := wf_setF _ _ _ _ _ hwf
    have w2 : wf ((g.setF p1x p1y c (g.atF q1x q1y c)).setF p2x p2y c
        ((g.setF p1x p1y c (g.atF q1x q1y c)).atF q2x q2y c)) := wf_setF _ _ _ _ _ w1
    rw [List.foldl_cons]
    have hrest := ih ((g.setF p1x p1y c (g.atF q1x q1y c)).setF p2x p2y c
        ((g.setF p1x p1y c (g.atF q1x q1y c)).atF q2x q2y c)) w2
      (List.nodup_cons.mp hnd).2
      (fun c3 hc3 => hcs c3 (by simp [hc3])) hp1 hp2 hq1 hq2 x2 y2 c2 hxy2 hc2
    rw [hrest]
    -- the intermediate image read/written by the head step
    have hstepq1 : ∀ c3 : Nat, c3 < g.chancnt →
        ((g.setF p1x p1y c (g.atF q1x q1y c)).setF p2x p2y c
          ((g.setF p1x p1y c (g.atF q1x q1y c)).atF q2x q2y c)).atF q1x q1y c3 =
        g.atF q1x q1y c3 := by
      intro c3 hc3
      rw [atF_setF_other _ w1 p2x p2y c hp2 hc q1x q1y c3 hq1 hc3
        (by intro ⟨e1, e2, _⟩; exact hq1p2 ⟨e1.symm, e2.symm⟩)]
      rw [atF_setF_other _ hwf p1x p1y c hp1 hc q1x q1y c3 hq1 hc3
        (by intro ⟨e1, e2, _⟩; exact hq1p1 ⟨e1.symm, e2.symm⟩)]
    have hstepq2 : ∀ c3 : Nat, c3 < g.chancnt →
        ((g.setF p1x p1y c (g.atF q1x q1y c)).setF p2x p2y c
          ((g.setF p1x p1y c (g.atF q1x q1y c)).atF q2x q2y c)).atF q2x q2y c3 =
        g.atF q2x q2y c3 := by
      intro c3 hc3
      rw [atF_setF_other _ w1 p2x p2y c hp2 hc q2x q2y c3 hq2 hc3
        (by intro ⟨e1, e2, _⟩; exact hq2p2 ⟨e1.symm, e2.symm⟩)]
      rw [atF_setF_other _ hwf p1x p1y c hp1 hc q2x q2y c3 hq2 hc3
        (by intro ⟨e1, e2, _⟩; exact hq2p1 ⟨e1.symm, e2.symm⟩)]
    by_cases h1 : x2 = p1x ∧ y2 = p1y ∧ c2 ∈ c :: cs
    · rw [if_pos h1]
      obtain ⟨e1, e2, hmem⟩ := h1
      by_cases hmem2 : c2 ∈ cs
      · rw [if_pos ⟨e1, e2, hmem2⟩, hstepq1 c2 hc2]
      · have hc2c : c2 = c := by
          rcases List.mem_cons.mp hmem with h | h
          · exact h
          · exact absurd h hmem2
        rw [if_neg (fun h => hmem2 h.2.2)]
        rw [if_neg (fun h => hmem2 h.2.2)]
        rw [e1, e2, hc2c]
        rw [atF_setF_other _ w1 p2x p2y c hp2 hc p1x p1y c hp1 hc
          (fun h => hne12 ⟨h.1.symm, h.2.1.symm⟩)]
        exact atF_setF_self g hwf p1x p1y c hp1 hc _
    · rw [if_neg h1]
      by_cases h2 : x2 = p2x ∧ y2 = p2y ∧ c2 ∈ c :: cs
      · rw [if_pos h2]
        obtain ⟨e1, e2, hmem⟩ := h2
        by_cases hmem2 : c2 ∈ cs
        · rw [if_neg (fun h => h1 ⟨h.1, h.2.1, List.mem_cons_of_mem c h.2.2⟩)]
          rw [if_pos ⟨e1, e2, hmem2⟩, hstepq2 c2 hc2]
        · have hc2c : c2 = c := by
            rcases List.mem_cons.mp hmem with h | h
            · exact h
            · exact absurd h hmem2
          rw [if_neg (fun h => hmem2 h.2.2)]
          rw [if_neg (fun h => hmem2 h.2.2)]
          rw [e1, e2, hc2c]
          rw [atF_setF_self _ w1 p2x p2y c hp2 hc]
          rw [atF_setF_other _ hwf p1x p1y c hp1 hc q2x q2y c hq2 hc
            (fun h => hq2p1 ⟨h.1.symm, h.2.1.symm⟩)]
      · rw [if_neg h2]
        rw [if_neg (fun h => h1 ⟨h.1, h.2.1, List.mem_cons_of_mem c h.2.2⟩)]
        rw [if_neg (fun h => h2 ⟨h.1, h.2.1, List.mem_cons_of_mem c h.2.2⟩)]
        have hsame1 : ¬(p1x = x2 ∧ p1y = y2 ∧ c = c2) := by
          intro h
          exact h1 ⟨h.1.symm, h.2.1.symm, by rw [← h.2.2]; exact List.mem_cons_self c cs⟩
        have hsame2 : ¬(p2x = x2 ∧ p2y = y2 ∧ c = c2) := by
          intro h
          exact h2 ⟨h.1.symm, h.2.1.symm, by rw [← h.2.2]; exact List.mem_cons_self c cs⟩
        rw [atF_setF_other _ w1 p2x p2y c hp2 hc x2 y2 c2 hxy2 hc2 hsame2]
        rw [atF_setF_other _ hwf p1x p1y c hp1 hc x2 y2 c2 hxy2 hc2 hsame1]

end Imgtest

namespace Imgtest

/-! Pointwise characterization of the full top/bottom mirroring pass. -/

theorem tbFold_atF (f : FloatImg) (hdy : 3 ≤ f.rect.Dy) :
    ∀ (xs : List Int) (g : FloatImg), wf g → g.rect = f.rect → g.chancnt = f.chancnt →
    (∀ x ∈ xs, f.rect.Min.X + 1 ≤ x ∧ x < f.rect.Max.X - 1) →
    ∀ (x2 y2 : Int) (c2 : Nat), inRect x2 y2 f.rect → c2 < f.chancnt →
    (xs.foldl (fun g4 x =>
        (List.range f.chancnt).foldl (fun g2 c =>
          (g2.setF x (f.rect.Max.Y - 1) c (g2.atF x (f.rect.Max.Y - 2) c)).setF x
            f.rect.Min.Y c
            ((g2.setF x (f.rect.Max.Y - 1) c (g2.atF x (f.rect.Max.Y - 2) c)).atF x
              (f.rect.Min.Y + 1) c)) g4) g).atF x2 y2 c2 =
      if x2 ∈ xs ∧ y2 = f.rect.Max.Y - 1 then g.atF x2 (f.rect.Max.Y - 2) c2
      else if x2 ∈ xs ∧ y2 = f.rect.Min.Y then g.atF x2 (f.rect.Min.Y + 1) c2
      else g.atF x2 y2 c2 := by
  have hDy2 : 3 ≤ f.rect.Max.Y - f.rect.Min.Y := by
    have h := hdy
    unfold Rect.Dy at h
    exact h
  intro xs
  induction xs with
  | nil =>
    intro g _ _ _ _ x2 y2 c2 _ _
    simp
  | cons x0 rest ih =>
    intro g hwf hgr hgc hxs x2 y2 c2 hxy2 hc2
    obtain ⟨hx0a, hx0b⟩ := hxs x0 (by simp)
    have hgc2 : c2 < g.chancnt := by rw [hgc]; exact hc2
    have hmemc2 : c2 ∈ List.range f.chancnt := List.mem_range.mpr hc2
    have hin : ∀ a b : Int, f.rect.Min.X ≤ a → a < f.rect.Max.X →
        f.rect.Min.Y ≤ b → b < f.rect.Max.Y → inRect a b g.rect := by
      intro a b h1 h2 h3 h4
      rw [hgr]
      exact ⟨h1, h2, h3, h4⟩
    obtain ⟨hb1, hb2, hb3, hb4⟩ := hxy2
    have hch := chanFold_atF x0 (f.rect.Max.Y - 1) x0 (f.rect.Max.Y - 2)
      x0 f.rect.Min.Y x0 (f.rect.Min.Y + 1)
      (fun h => absurd h.2 (by omega))
      (fun h => absurd h.2 (by omega))
      (fun h => absurd h.2 (by omega))
      (fun h => absurd h.2 (by omega))
      (fun h => absurd h.2 (by omega))
      (List.range f.chancnt) g hwf (List.nodup_range _)
      (fun c3 hc3 => by rw [hgc]; exact List.mem_range.mp hc3)
      (hin x0 (f.rect.Max.Y - 1) (by omega) (by omega) (by omega) (by omega))
      (hin x0 f.rect.Min.Y (by omega) (by omega) (by omega) (by omega))
      (hin x0 (f.rect.Max.Y - 2) (by omega) (by omega) (by omega) (by omega))
      (hin x0 (f.rect.Min.Y + 1) (by omega) (by omega) (by omega) (by omega))
    have hsh := chanFold_shape x0 (f.rect.Max.Y - 1) x0 f.rect.Min.Y
      x0 (f.rect.Max.Y - 2) x0 (f.rect.Min.Y + 1) (List.range f.chancnt) g
    simp only [List.foldl_cons]
    rw [ih _ (hsh.2 hwf) (hsh.1.1.trans hgr) (hsh.1.2.trans hgc)
      (fun x hx => hxs x (List.mem_cons_of_mem x0 hx)) x2 y2 c2 ⟨hb1, hb2, hb3, hb4⟩ hc2]
    have e1 : ((List.range f.chancnt).foldl (fun g2 c =>
          (g2.setF x0 (f.rect.Max.Y - 1) c (g2.atF x0 (f.rect.Max.Y - 2) c)).setF x0
            f.rect.Min.Y c
            ((g2.setF x0 (f.rect.Max.Y - 1) c (g2.atF x0 (f.rect.Max.Y - 2) c)).atF x0
              (f.rect.Min.Y + 1) c)) g).atF x2 (f.rect.Max.Y - 2) c2 =
        g.atF x2 (f.rect.Max.Y - 2) c2 := by
      rw [hch x2 (f.rect.Max.Y - 2) c2
        (hin x2 (f.rect.Max.Y - 2) (by omega) (by omega) (by omega) (by omega)) hgc2]
      rw [if_neg (fun h => absurd h.2.1 (by omega))]
      rw [if_neg (fun h => absurd h.2.1 (by omega))]
    have e2 : ((List.range f.chancnt).foldl (fun g2 c =>
          (g2.setF x0 (f.rect.Max.Y - 1) c (g2.atF x0 (f.rect.Max.Y - 2) c)).setF x0
            f.rect.Min.Y c
            ((g2.setF x0 (f.rect.Max.Y - 1) c (g2.atF x0 (f.rect.Max.Y - 2) c)).atF x0
              (f.rect.Min.Y + 1) c)) g).atF x2 (f.rect.Min.Y + 1) c2 =
        g.atF x2 (f.rect.Min.Y + 1) c2 := by
      rw [hch x2 (f.rect.Min.Y + 1) c2
        (hin x2 (f.rect.Min.Y + 1) (by omega) (by omega) (by omega) (by omega)) hgc2]
      rw [if_neg (fun h => absurd h.2.1 (by omega))]
      rw [if_neg (fun h => absurd h.2.1 (by omega))]
    by_cases hy1 : y2 = f.rect.Max.Y - 1
    · by_cases hxr : x2 ∈ rest
      · rw [if_pos ⟨hxr, hy1⟩, if_pos ⟨List.mem_cons_of_mem x0 hxr, hy1⟩, e1]
      · by_cases hxx0 : x2 = x0
        · rw [if_neg (fun h => hxr h.1), if_neg (fun h => hxr h.1)]
          rw [if_pos ⟨by rw [hxx0]; exact List.mem_cons_self x0 rest, hy1⟩]
          rw [hch x2 y2 c2 (hin x2 y2 hb1 hb2 hb3 hb4) hgc2]
          rw [if_pos ⟨hxx0, hy1, hmemc2⟩, hxx0]
        · rw [if_neg (fun h => hxr h.1), if_neg (fun h => hxr h.1)]
          rw [if_neg (fun h => by
            rcases List.mem_cons.mp h.1 with hc | hc
            · exact hxx0 hc
            · exact hxr hc)]
          rw [if_neg (fun h => absurd (hy1.symm.trans h.2) (by omega))]
          rw [hch x2 y2 c2 (hin x2 y2 hb1 hb2 hb3 hb4) hgc2]
          rw [if_neg (fun h => hxx0 h.1)]
          rw [if_neg (fun h => hxx0 h.1)]
    · by_cases hy2 : y2 = f.rect.Min.Y
      · by_cases hxr : x2 ∈ rest
        · rw [if_neg (fun h => hy1 h.2), if_pos ⟨hxr, hy2⟩]
          rw [if_neg (fun h => hy1 h.2), if_pos ⟨List.mem_cons_of_mem x0 hxr, hy2⟩, e2]
        · by_cases hxx0 : x2 = x0
          · rw [if_neg (fun h => hy1 h.2), if_neg (fun h => hxr h.1)]
            rw [if_neg (fun h => hy1 h.2)]
            rw [if_pos ⟨by rw [hxx0]; exact List.mem_cons_self x0 rest, hy2⟩]
            rw [hch x2 y2 c2 (hin x2 y2 hb1 hb2 hb3 hb4) hgc2]
            rw [if_neg (fun h => absurd (hy2.symm.trans h.2.1) (by omega))]
            rw [if_pos ⟨hxx0, hy2, hmemc2⟩, hxx0]
          · rw [if_neg (fun h => hy1 h.2), if_neg (fun h => hxr h.1)]
            rw [if_neg (fun h => hy1 h.2)]
            rw [if_neg (fun h => by
              rcases List.mem_cons.mp h.1 with hc | hc
              · exact hxx0 hc
              · exact hxr hc)]
            rw [hch x2 y2 c2 (hin x2 y2 hb1 hb2 hb3 hb4) hgc2]
            rw [if_neg (fun h => hxx0 h.1)]
            rw [if_neg (fun h => hxx0 h.1)]
      · rw [if_neg (fun h => hy1 h.2), if_neg (fun h => hy2 h.2)]
        rw [if_neg (fun h => hy1 h.2), if_neg (fun h => hy2 h.2)]
        rw [hch x2 y2 c2 (hin x2 y2 hb1 hb2 hb3 hb4) hgc2]
        rw [if_neg (fun h => hy1 h.2.1)]
        rw [if_neg (fun h => hy2 h.2.1)]

end Imgtest

namespace Imgtest

/-! Pointwise characterization of the full left/right mirroring pass. -/

theorem lrFold_atF (f : FloatImg) (hdx : 3 ≤ f.rect.Dx) :
    ∀ (ys : List Int) (g : FloatImg), wf g → g.rect = f.rect → g.chancnt = f.chancnt →
    (∀ y ∈ ys, f.rect.Min.Y ≤ y ∧ y < f.rect.Max.Y) →
    ∀ (x2 y2 : Int) (c2 : Nat), inRect x2 y2 f.rect → c2 < f.chancnt →
    (ys.foldl (fun g4 y =>
        (List.range f.chancnt).foldl (fun g2 c =>
          (g2.setF f.rect.Min.X y c (g2.atF (f.rect.Min.X + 1) y c)).setF
            (f.rect.Max.X - 1) y c
            ((g2.setF f.rect.Min.X y c (g2.atF (f.rect.Min.X + 1) y c)).atF
              (f.rect.Max.X - 2) y c)) g4) g).atF x2 y2 c2 =
      if x2 = f.rect.Min.X ∧ y2 ∈ ys then g.atF (f.rect.Min.X + 1) y2 c2
      else if x2 = f.rect.Max.X - 1 ∧ y2 ∈ ys then g.atF (f.rect.Max.X - 2) y2 c2
      else g.atF x2 y2 c2 := by
  have hDx2 : 3 ≤ f.rect.Max.X - f.rect.Min.X := by
    have h := hdx
    unfold Rect.Dx at h
    exact h
  intro ys
  induction ys with
  | nil =>
    intro g _ _ _ _ x2 y2 c2 _ _
    simp
  | cons y0 rest ih =>
    intro g hwf hgr hgc hys x2 y2 c2 hxy2 hc2
    obtain ⟨hy0a, hy0b⟩ := hys y0 (by simp)
    have hgc2 : c2 < g.chancnt := by rw [hgc]; exact hc2
    have hmemc2 : c2 ∈ List.range f.chancnt := List.mem_range.mpr hc2
    have hin : ∀ a b : Int, f.rect.Min.X ≤ a → a < f.rect.Max.X →
        f.rect.Min.Y ≤ b → b < f.rect.Max.Y → inRect a b g.rect := by
      intro a b h1 h2 h3 h4
      rw [hgr]
      exact ⟨h1, h2, h3, h4⟩
    obtain ⟨hb1, hb2, hb3, hb4⟩ := hxy2
    have hch := chanFold_atF f.rect.Min.X y0 (f.rect.Min.X + 1) y0
      (f.rect.Max.X - 1) y0 (f.rect.Max.X - 2) y0
      (fun h => absurd h.1 (by omega))
      (fun h => absurd h.1 (by omega))
      (fun h => absurd h.1 (by omega))
      (fun h => absurd h.1 (by omega))
      (fun h => absurd h.1 (by omega))
      (List.range f.chancnt) g hwf (List.nodup_range _)
      (fun c3 hc3 => by rw [hgc]; exact List.mem_range.mp hc3)
      (hin f.rect.Min.X y0 (by omega) (by omega) (by omega) (by omega))
      (hin (f.rect.Max.X - 1) y0 (by omega) (by omega) (by omega) (by omega))
      (hin (f.rect.Min.X + 1) y0 (by omega) (by omega) (by omega) (by omega))
      (hin (f.rect.Max.X - 2) y0 (by omega) (by omega) (by omega) (by omega))
    have hsh := chanFold_shape f.rect.Min.X y0 (f.rect.Max.X - 1) y0
      (f.rect.Min.X + 1) y0 (f.rect.Max.X - 2) y0 (List.range f.chancnt) g
    simp only [List.foldl_cons]
    rw [ih _ (hsh.2 hwf) (hsh.1.1.trans hgr) (hsh.1.2.trans hgc)
      (fun y hy => hys y (List.mem_cons_of_mem y0 hy)) x2 y2 c2 ⟨hb1, hb2, hb3, hb4⟩ hc2]
    have e1 : ((List.range f.chancnt).foldl (fun g2 c =>
          (g2.setF f.rect.Min.X y0 c (g2.atF (f.rect.Min.X + 1) y0 c)).setF
            (f.rect.Max.X - 1) y0 c
            ((g2.setF f.rect.Min.X y0 c (g2.atF (f.rect.Min.X + 1) y0 c)).atF
              (f.rect.Max.X - 2) y0 c)) g).atF (f.rect.Min.X + 1) y2 c2 =
        g.atF (f.rect.Min.X + 1) y2 c2 := by
      rw [hch (f.rect.Min.X + 1) y2 c2
        (hin (f.rect.Min.X + 1) y2 (by omega) (by omega) (by omega) (by omega)) hgc2]
      rw [if_neg (fun h => absurd h.1 (by omega))]
      rw [if_neg (fun h => absurd h.1 (by omega))]
    have e2 : ((List.range f.chancnt).foldl (fun g2 c =>
          (g2.setF f.rect.Min.X y0 c (g2.atF (f.rect.Min.X + 1) y0 c)).setF
            (f.rect.Max.X - 1) y0 c
            ((g2.setF f.rect.Min.X y0 c (g2.atF (f.rect.Min.X + 1) y0 c)).atF
              (f.rect.Max.X - 2) y0 c)) g).atF (f.rect.Max.X - 2) y2 c2 =
        g.atF (f.rect.Max.X - 2) y2 c2 := by
      rw [hch (f.rect.Max.X - 2) y2 c2
        (hin (f.rect.Max.X - 2) y2 (by omega) (by omega) (by omega) (by omega)) hgc2]
      rw [if_neg (fun h => absurd h.1 (by omega))]
      rw [if_neg (fun h => absurd h.1 (by omega))]
    by_cases hx1 : x2 = f.rect.Min.X
    · by_cases hyr : y2 ∈ rest
      · rw [if_pos ⟨hx1, hyr⟩, if_pos ⟨hx1, List.mem_cons_of_mem y0 hyr⟩, e1]
      · by_cases hyy0 : y2 = y0
        · rw [if_neg (fun h => hyr h.2), if_neg (fun h => hyr h.2)]
          rw [if_pos ⟨hx1, by rw [hyy0]; exact List.mem_cons_self y0 rest⟩]
          rw [hch x2 y2 c2 (hin x2 y2 hb1 hb2 hb3 hb4) hgc2]
          rw [if_pos ⟨hx1, hyy0, hmemc2⟩, hyy0]
        · rw [if_neg (fun h => hyr h.2), if_neg (fun h => hyr h.2)]
          rw [if_neg (fun h => by
            rcases List.mem_cons.mp h.2 with hc | hc
            · exact hyy0 hc
            · exact hyr hc)]
          rw [if_neg (fun h => absurd (hx1.symm.trans h.1) (by omega))]
          rw [hch x2 y2 c2 (hin x2 y2 hb1 hb2 hb3 hb4) hgc2]
          rw [if_neg (fun h => hyy0 h.2.1)]
          rw [if_neg (fun h => hyy0 h.2.1)]
    · by_cases hx2 : x2 = f.rect.Max.X - 1
      · by_cases hyr : y2 ∈ rest
        · rw [if_neg (fun h => hx1 h.1), if_pos ⟨hx2, hyr⟩]
          rw [if_neg (fun h => hx1 h.1), if_pos ⟨hx2, List.mem_cons_of_mem y0 hyr⟩, e2]
        · by_cases hyy0 : y2 = y0
          · rw [if_neg (fun h => hx1 h.1), if_neg (fun h => hyr h.2)]
            rw [if_neg (fun h => hx1 h.1)]
            rw [if_pos ⟨hx2, by rw [hyy0]; exact List.mem_cons_self y0 rest⟩]
            rw [hch x2 y2 c2 (hin x2 y2 hb1 hb2 hb3 hb4) hgc2]
            rw [if_neg (fun h => hx1 h.1)]
            rw [if_pos ⟨hx2, hyy0, hmemc2⟩, hyy0]
          · rw [if_neg (fun h => hx1 h.1), if_neg (fun h => hyr h.2)]
            rw [if_neg (fun h => hx1 h.1)]
            rw [if_neg (fun h => by
              rcases List.mem_cons.mp h.2 with hc | hc
              · exact hyy0 hc
              · exact hyr hc)]
            rw [hch x2 y2 c2 (hin x2 y2 hb1 hb2 hb3 hb4) hgc2]
            rw [if_neg (fun h => hx1 h.1)]
            rw [if_neg (fun h => hyy0 h.2.1)]
      · rw [if_neg (fun h => hx1 h.1), if_neg (fun h => hx2 h.1)]
        rw [if_neg (fun h => hx1 h.1), if_neg (fun h => hx2 h.1)]
        rw [hch x2 y2 c2 (hin x2 y2 hb1 hb2 hb3 hb4) hgc2]
        rw [if_neg (fun h => hx1 h.1)]
        rw [if_neg (fun h => hx2 h.1)]

end Imgtest

namespace Imgtest

/-! Assembling the two passes of `Dummies`. -/

theorem dummiesTB_eq (f : FloatImg) :
    dummiesTB f = (intRange (f.rect.Min.X + 1) (f.rect.Max.X - 1)).foldl (fun g4 x =>
      (List.range f.chancnt).foldl (fun g2 c =>
        (g2.setF x (f.rect.Max.Y - 1) c (g2.atF x (f.rect.Max.Y - 2) c)).setF x
          f.rect.Min.Y c
          ((g2.setF x (f.rect.Max.Y - 1) c (g2.atF x (f.rect.Max.Y - 2) c)).atF x
            (f.rect.Min.Y + 1) c)) g4) f := rfl

theorem dummiesLR_eq (f : FloatImg) :
    dummiesLR f = (intRange f.rect.Min.Y f.rect.Max.Y).foldl (fun g4 y =>
      (List.range f.chancnt).foldl (fun g2 c =>
        (g2.setF f.rect.Min.X y c (g2.atF (f.rect.Min.X + 1) y c)).setF
          (f.rect.Max.X - 1) y c
          ((g2.setF f.rect.Min.X y c (g2.atF (f.rect.Min.X + 1) y c)).atF
            (f.rect.Max.X - 2) y c)) g4) f := rfl

theorem tbFold_shape (f : FloatImg) :
    ∀ (xs : List Int) (g : FloatImg),
    (((xs.foldl (fun g4 x =>
        (List.range f.chancnt).foldl (fun g2 c =>
          (g2.setF x (f.rect.Max.Y - 1) c (g2.atF x (f.rect.Max.Y - 2) c)).setF x
            f.rect.Min.Y c
            ((g2.setF x (f.rect.Max.Y - 1) c (g2.atF x (f.rect.Max.Y - 2) c)).atF x
              (f.rect.Min.Y + 1) c)) g4) g).rect = g.rect ∧
      (xs.foldl (fun g4 x =>
        (List.range f.chancnt).foldl (fun g2 c =>
          (g2.setF x (f.rect.Max.Y - 1) c (g2.atF x (f.rect.Max.Y - 2) c)).setF x
            f.rect.Min.Y c
            ((g2.setF x (f.rect.Max.Y - 1) c (g2.atF x (f.rect.Max.Y - 2) c)).atF x
              (f.rect.Min.Y + 1) c)) g4) g).chancnt = g.chancnt) ∧
     (wf g → wf (xs.foldl (fun g4 x =>
        (List.range f.chancnt).foldl (fun g2 c =>
          (g2.setF x (f.rect.Max.Y - 1) c (g2.atF x (f.rect.Max.Y - 2) c)).setF x
            f.rect.Min.Y c
            ((g2.setF x (f.rect.Max.Y - 1) c (g2.atF x (f.rect.Max.Y - 2) c)).atF x
              (f.rect.Min.Y + 1) c)) g4) g))) := by
  intro xs
  induction xs with
  | nil =>
    intro g
    exact ⟨⟨rfl, rfl⟩, fun h => h⟩
  | cons x0 rest ih =>
    intro g
    simp only [List.foldl_cons]
    have hsh := chanFold_shape x0 (f.rect.Max.Y - 1) x0 f.rect.Min.Y
      x0 (f.rect.Max.Y - 2) x0 (f.rect.Min.Y + 1) (List.range f.chancnt) g
    exact ⟨⟨(ih _).1.1.trans hsh.1.1, (ih _).1.2.trans hsh.1.2⟩,
      fun h => (ih _).2 (hsh.2 h)⟩

theorem dummiesTB_rect (f : FloatImg) : (dummiesTB f).rect = f.rect := by
  rw [dummiesTB_eq]
  exact (tbFold_shape f _ f).1.1

theorem dummiesTB_chancnt (f : FloatImg) : (dummiesTB f).chancnt = f.chancnt := by
  rw [dummiesTB_eq]
  exact (tbFold_shape f _ f).1.2

theorem dummiesTB_wf (f : FloatImg) (h : wf f) : wf (dummiesTB f) := by
  rw [dummiesTB_eq]
  exact (tbFold_shape f _ f).2 h

/-- Pointwise description of the top/bottom pass of `Dummies`. -/
theorem dummiesTB_atF (f : FloatImg) (hwf : wf f) (hdy : 3 ≤ f.rect.Dy)
    (x2 y2 : Int) (c2 : Nat) (hxy : inRect x2 y2 f.rect) (hc2 : c2 < f.chancnt) :
    (dummiesTB f).atF x2 y2 c2 =
      if (f.rect.Min.X + 1 ≤ x2 ∧ x2 < f.rect.Max.X - 1) ∧ y2 = f.rect.Max.Y - 1 then
        f.atF x2 (f.rect.Max.Y - 2) c2
      else if (f.rect.Min.X + 1 ≤ x2 ∧ x2 < f.rect.Max.X - 1) ∧ y2 = f.rect.Min.Y then
        f.atF x2 (f.rect.Min.Y + 1) c2
      else f.atF x2 y2 c2 := by
  rw [dummiesTB_eq]
  rw [tbFold_atF f hdy (intRange (f.rect.Min.X + 1) (f.rect.Max.X - 1)) f hwf rfl rfl
    (fun x hx => (mem_intRange x _ _).mp hx) x2 y2 c2 hxy hc2]
  simp only [mem_intRange]

/-- Pointwise description of `Dummies` in terms of the top/bottom pass. -/
theorem Dummies_atF (f : FloatImg) (hwf : wf f) (hdx : 3 ≤ f.rect.Dx)
    (x2 y2 : Int) (c2 : Nat) (hxy : inRect x2 y2 f.rect) (hc2 : c2 < f.chancnt) :
    (Dummies f).atF x2 y2 c2 =
      if x2 = f.rect.Min.X then (dummiesTB f).atF (f.rect.Min.X + 1) y2 c2
      else if x2 = f.rect.Max.X - 1 then (dummiesTB f).atF (f.rect.Max.X - 2) y2 c2
      else (dummiesTB f).atF x2 y2 c2 := by
  obtain ⟨hb1, hb2, hb3, hb4⟩ := hxy
  have htbr : (dummiesTB f).rect = f.rect := dummiesTB_rect f
  have htbc : (dummiesTB f).chancnt = f.chancnt := dummiesTB_chancnt f
  have htbw : wf (dummiesTB f) := dummiesTB_wf f hwf
  have h2 : (dummiesLR (dummiesTB f)).atF x2 y2 c2 =
      if x2 = (dummiesTB f).rect.Min.X ∧
          y2 ∈ intRange (dummiesTB f).rect.Min.Y (dummiesTB f).rect.Max.Y then
        (dummiesTB f).atF ((dummiesTB f).rect.Min.X + 1) y2 c2
      else if x2 = (dummiesTB f).rect.Max.X - 1 ∧
          y2 ∈ intRange (dummiesTB f).rect.Min.Y (dummiesTB f).rect.Max.Y then
        (dummiesTB f).atF ((dummiesTB f).rect.Max.X - 2) y2 c2
      else (dummiesTB f).atF x2 y2 c2 :=
    lrFold_atF (dummiesTB f) (by rw [htbr]; exact hdx)
      (intRange (dummiesTB f).rect.Min.Y (dummiesTB f).rect.Max.Y) (dummiesTB f)
      htbw rfl rfl (fun y hy => (mem_intRange y _ _).mp hy) x2 y2 c2
      (by rw [htbr]; exact ⟨hb1, hb2, hb3, hb4⟩) (by rw [htbc]; exact hc2)
  rw [htbr] at h2
  have hymem : y2 ∈ intRange f.rect.Min.Y f.rect.Max.Y := (mem_intRange y2 _ _).mpr ⟨hb3, hb4⟩
  show (dummiesLR (dummiesTB f)).atF x2 y2 c2 = _
  rw [h2]
  by_cases hx1 : x2 = f.rect.Min.X
  · rw [if_pos ⟨hx1, hymem⟩, if_pos hx1]
  · rw [if_neg (fun h => hx1 h.1), if_neg hx1]
    by_cases hx2 : x2 = f.rect.Max.X - 1
    · rw [if_pos ⟨hx2, hymem⟩, if_pos hx2]
    · rw [if_neg (fun h => hx2 h.1), if_neg hx2]

end Imgtest

namespace Imgtest

/-- Claim C7, counterexample: a 3-wide, 2-high buffer has Y extent 2 < 3, yet
the top/bottom (Y-mirroring) pass of `Dummies` is executed and changes the
stored values — it is not a no-op for that dimension. -/
theorem claim_C7_counterexample : (dummiesTB cimg32).pix ≠ cimg32.pix := by
  decide

/-- Claim C7, amended: the mirroring passes are not guarded by the extent of
the dimension being mirrored; the only guard that exists is that the
top/bottom (Y-mirroring) pass performs no iterations — touching no storage and
changing no values — exactly when the X extent is below 3. -/
theorem claim_C7 (f : FloatImg) (h : f.rect.Dx < 3) : dummiesTB f = f := by
  unfold dummiesTB
  rw [intRange_nil _ _ (by unfold Rect.Dx at h; omega)]
  rfl

/-- Claim C7, witness: a 2-wide buffer, whose top/bottom pass is skipped. -/
theorem claim_C7_witness : cimg22.rect.Dx < 3 ∧ dummiesTB cimg22 = cimg22 :=
  ⟨by decide, claim_C7 cimg22 (by decide)⟩

/-- Claim C8: after `Dummies` on a buffer with both extents at least 3, every
interior boundary cell's adjacent border cell holds exactly its channel
values, on all four sides independently (top, bottom, left, right). -/
theorem claim_C8 (f : FloatImg) (hwf : wf f) (hdx : 3 ≤ f.rect.Dx) (hdy : 3 ≤ f.rect.Dy) :
    (∀ (x : Int) (c : Nat), f.rect.Min.X + 1 ≤ x → x < f.rect.Max.X - 1 → c < f.chancnt →
      (Dummies f).atF x f.rect.Min.Y c = (Dummies f).atF x (f.rect.Min.Y + 1) c) ∧
    (∀ (x : Int) (c : Nat), f.rect.Min.X + 1 ≤ x → x < f.rect.Max.X - 1 → c < f.chancnt →
      (Dummies f).atF x (f.rect.Max.Y - 1) c = (Dummies f).atF x (f.rect.Max.Y - 2) c) ∧
    (∀ (y : Int) (c : Nat), f.rect.Min.Y + 1 ≤ y → y < f.rect.Max.Y - 1 → c < f.chancnt →
      (Dummies f).atF f.rect.Min.X y c = (Dummies f).atF (f.rect.Min.X + 1) y c) ∧
    (∀ (y : Int) (c : Nat), f.rect.Min.Y + 1 ≤ y → y < f.rect.Max.Y - 1 → c < f.chancnt →
      (Dummies f).atF (f.rect.Max.X - 1) y c = (Dummies f).atF (f.rect.Max.X - 2) y c) := by
  have hDx2 : 3 ≤ f.rect.Max.X - f.rect.Min.X := by
    have h := hdx
    unfold Rect.Dx at h
    exact h
  have hDy2 : 3 ≤ f.rect.Max.Y - f.rect.Min.Y := by
    have h := hdy
    unfold Rect.Dy at h
    exact h
  refine ⟨?_, ?_, ?_, ?_⟩
  · -- top side
    intro x c hx1 hx2 hc
    rw [Dummies_atF f hwf hdx x f.rect.Min.Y c ⟨by omega, by omega, by omega, by omega⟩ hc]
    rw [if_neg (by omega), if_neg (by omega)]
    rw [Dummies_atF f hwf hdx x (f.rect.Min.Y + 1) c
      ⟨by omega, by omega, by omega, by omega⟩ hc]
    rw [if_neg (by omega), if_neg (by omega)]
    rw [dummiesTB_atF f hwf hdy x f.rect.Min.Y c
      ⟨by omega, by omega, by omega, by omega⟩ hc]
    rw [if_neg (fun h => absurd h.2 (by omega)), if_pos ⟨⟨hx1, hx2⟩, rfl⟩]
    rw [dummiesTB_atF f hwf hdy x (f.rect.Min.Y + 1) c
      ⟨by omega, by omega, by omega, by omega⟩ hc]
    rw [if_neg (fun h => absurd h.2 (by omega)), if_neg (fun h => absurd h.2 (by omega))]
  · -- bottom side
    intro x c hx1 hx2 hc
    rw [Dummies_atF f hwf hdx x (f.rect.Max.Y - 1) c
      ⟨by omega, by omega, by omega, by omega⟩ hc]
    rw [if_neg (by omega), if_neg (by omega)]
    rw [Dummies_atF f hwf hdx x (f.rect.Max.Y - 2) c
      ⟨by omega, by omega, by omega, by omega⟩ hc]
    rw [if_neg (by omega), if_neg (by omega)]
    rw [dummiesTB_atF f hwf hdy x (f.rect.Max.Y - 1) c
      ⟨by omega, by omega, by omega, by omega⟩ hc]
    rw [if_pos ⟨⟨hx1, hx2⟩, rfl⟩]
    rw [dummiesTB_atF f hwf hdy x (f.rect.Max.Y - 2) c
      ⟨by omega, by omega, by omega, by omega⟩ hc]
    rw [if_neg (fun h => absurd h.2 (by omega)), if_neg (fun h => absurd h.2 (by omega))]
  · -- left side
    intro y c hy1 hy2 hc
    rw [Dummies_atF f hwf hdx f.rect.Min.X y c ⟨by omega, by omega, by omega, by omega⟩ hc]
    rw [if_pos rfl]
    rw [Dummies_atF f hwf hdx (f.rect.Min.X + 1) y c
      ⟨by omega, by omega, by omega, by omega⟩ hc]
    rw [if_neg (by omega), if_neg (by omega)]
  · -- right side
    intro y c hy1 hy2 hc
    rw [Dummies_atF f hwf hdx (f.rect.Max.X - 1) y c
      ⟨by omega, by omega, by omega, by omega⟩ hc]
    rw [if_neg (by omega), if_pos rfl]
    rw [Dummies_atF f hwf hdx (f.rect.Max.X - 2) y c
      ⟨by omega, by omega, by omega, by omega⟩ hc]
    rw [if_neg (by omega), if_neg (by omega)]

/-- Claim C8, witness on a concrete 3x3 buffer. -/
theorem claim_C8_witness :
    3 ≤ cimg33.rect.Dx ∧ (Dummies cimg33).atF 0 1 0 = (Dummies cimg33).atF 1 1 0 :=
  ⟨by decide, (claim_C8 cimg33 ⟨by decide, by decide⟩ (by decide) (by decide)).2.2.1
    1 0 (by decide) (by decide) (by decide)⟩

end Imgtest

namespace Imgtest

/-! Sub-view helpers. -/

theorem getQ_drop (l : List ℚ) (n : Nat) (i : Int) (hi : 0 ≤ i) :
    getQ (l.drop n) i = getQ l ((n : Int) + i) := by
  unfold getQ
  rw [if_pos hi, if_pos (by omega)]
  have ht : ((n : Int) + i).toNat = n + i.toNat := by omega
  rw [ht]
  simp [List.getD_eq_getElem?_getD, List.getElem?_drop]

theorem setQ_drop (l : List ℚ) (n : Nat) (k : Int) (v : ℚ) (h : (n : Int) ≤ k) :
    (setQ l k v).drop n = setQ (l.drop n) (k - (n : Int)) v := by
  unfold setQ
  rw [if_pos (by omega), if_pos (by omega)]
  rw [List.drop_set]
  rw [if_neg (by omega)]
  congr 1
  omega

theorem intersect_empty_self : (⟨⟨0, 0⟩, ⟨0, 0⟩⟩ : Rect).EmptyR := Or.inl (le_refl 0)

theorem intersect_eq_of_not_empty (r s : Rect) (h : ¬(r.intersect s).EmptyR) :
    r.intersect s = ⟨⟨max r.Min.X s.Min.X, max r.Min.Y s.Min.Y⟩,
      ⟨min r.Max.X s.Max.X, min r.Max.Y s.Max.Y⟩⟩ := by
  by_cases ht : (⟨⟨max r.Min.X s.Min.X, max r.Min.Y s.Min.Y⟩,
      ⟨min r.Max.X s.Max.X, min r.Max.Y s.Max.Y⟩⟩ : Rect).EmptyR
  · exfalso
    apply h
    show (if _ then _ else _ : Rect).EmptyR
    rw [if_pos ht]
    exact intersect_empty_self
  · show (if _ then _ else _ : Rect) = _
    rw [if_neg ht]

theorem intersect_bounds (r s : Rect) (h : ¬(r.intersect s).EmptyR) :
    s.Min.X ≤ (r.intersect s).Min.X ∧ (r.intersect s).Max.X ≤ s.Max.X ∧
    s.Min.Y ≤ (r.intersect s).Min.Y ∧ (r.intersect s).Max.Y ≤ s.Max.Y ∧
    (r.intersect s).Min.X < (r.intersect s).Max.X ∧
    (r.intersect s).Min.Y < (r.intersect s).Max.Y := by
  have he := intersect_eq_of_not_empty r s h
  rw [he] at h ⊢
  unfold Rect.EmptyR at h
  push_neg at h
  obtain ⟨h1, h2⟩ := h
  refine ⟨le_max_right _ _, min_le_right _ _, le_max_right _ _, min_le_right _ _, ?_, ?_⟩
  · omega
  · omega

end Imgtest

namespace Imgtest

theorem SubImage_eq_of_not_empty (p : FloatImg) (r : Rect)
    (h : ¬(r.intersect p.rect).EmptyR) :
    SubImage p r =
      ⟨p.pix.drop (p.PixOffset (r.intersect p.rect).Min.X
          (r.intersect p.rect).Min.Y).toNat,
        p.stride, p.chancnt, r.intersect p.rect⟩ := by
  simp only [SubImage]
  rw [if_neg h]

theorem SubImage_eq_of_empty (p : FloatImg) (r : Rect)
    (h : (r.intersect p.rect).EmptyR) :
    SubImage p r = NewFloatImg (r.intersect p.rect) 0 := by
  simp only [SubImage]
  rw [if_pos h]

/-- C9: sub-views alias the owner's storage over the clipped rectangle.  With
`r2` the intersection of `r` with the owner's bounds: when `r2` is nonempty,
the slice offset of its `Min` corner is within the owner's storage (no
dangling-slice arithmetic), every read through the sub-view at a cell of `r2`
equals the owner's read at the same coordinates, and a write through the owner
at a cell of `r2` is the same buffer as the corresponding write through the
sub-view (aliasing in both directions); when `r2` is empty, the result is a
zero-channel, zero-area buffer with empty storage. -/
theorem claim_C9 (p : FloatImg) (r : Rect) (hwf : wf p) :
    (¬(r.intersect p.rect).EmptyR →
      (0 ≤ p.PixOffset (r.intersect p.rect).Min.X (r.intersect p.rect).Min.Y ∧
        p.PixOffset (r.intersect p.rect).Min.X (r.intersect p.rect).Min.Y ≤
          (p.pix.length : Int)) ∧
      (∀ (x y : Int) (c : Nat), inRect x y (r.intersect p.rect) →
        (SubImage p r).atF x y c = p.atF x y c) ∧
      (∀ (x y : Int) (c : Nat) (v : ℚ), inRect x y (r.intersect p.rect) →
        SubImage (p.setF x y c v) r = (SubImage p r).setF x y c v)) ∧
    ((r.intersect p.rect).EmptyR →
      (SubImage p r).chancnt = 0 ∧ (SubImage p r).rect.EmptyR ∧
        (SubImage p r).pix = []) := by
  obtain ⟨hS, hlen⟩ := hwf
  constructor
  · intro h
    obtain ⟨hb1, hb2, hb3, hb4, hb5, hb6⟩ := intersect_bounds r p.rect h
    have hK : (0 : Int) ≤ (p.chancnt : Int) := Int.ofNat_nonneg _
    have hW : 0 < p.rect.Dx := by unfold Rect.Dx; omega
    have hH : 0 < p.rect.Dy := by unfold Rect.Dy; omega
    have hSnn : (0 : Int) ≤ p.stride := by rw [hS]; exact mul_nonneg hK hW.le
    have hlenZ : (p.pix.length : Int) = (p.chancnt : Int) * p.rect.Dx * p.rect.Dy := by
      rw [hlen]
      push_cast [Int.toNat_of_nonneg hW.le, Int.toNat_of_nonneg hH.le]
      ring
    have h1 : 0 ≤ p.PixOffset (r.intersect p.rect).Min.X (r.intersect p.rect).Min.Y := by
      unfold FloatImg.PixOffset
      have g1 := mul_nonneg
        (show (0 : Int) ≤ (r.intersect p.rect).Min.Y - p.rect.Min.Y by omega) hSnn
      have g2 := mul_nonneg
        (show (0 : Int) ≤ (r.intersect p.rect).Min.X - p.rect.Min.X by omega) hK
      linarith
    have h2 : p.PixOffset (r.intersect p.rect).Min.X (r.intersect p.rect).Min.Y ≤
        (p.pix.length : Int) := by
      unfold FloatImg.PixOffset
      rw [hlenZ]
      have e1 : (r.intersect p.rect).Min.Y - p.rect.Min.Y ≤ p.rect.Dy - 1 := by
        unfold Rect.Dy; omega
      have e2 : (r.intersect p.rect).Min.X - p.rect.Min.X ≤ p.rect.Dx - 1 := by
        unfold Rect.Dx; omega
      have f1 := mul_le_mul_of_nonneg_right e1 hSnn
      have f2 := mul_le_mul_of_nonneg_right e2 hK
      calc ((r.intersect p.rect).Min.Y - p.rect.Min.Y) * p.stride +
            ((r.intersect p.rect).Min.X - p.rect.Min.X) * (p.chancnt : Int)
          ≤ (p.rect.Dy - 1) * p.stride + (p.rect.Dx - 1) * (p.chancnt : Int) :=
            add_le_add f1 f2
        _ = (p.chancnt : Int) * p.rect.Dx * p.rect.Dy - (p.chancnt : Int) := by
            rw [hS]; ring
        _ ≤ (p.chancnt : Int) * p.rect.Dx * p.rect.Dy := by linarith
    refine ⟨⟨h1, h2⟩, ?_, ?_⟩
    · intro x y c hin
      obtain ⟨hx1, hx2, hy1, hy2⟩ := hin
      have hoff : (0 : Int) ≤ (y - (r.intersect p.rect).Min.Y) * p.stride +
          (x - (r.intersect p.rect).Min.X) * (p.chancnt : Int) + (c : Int) := by
        have g1 := mul_nonneg (show (0 : Int) ≤ y - (r.intersect p.rect).Min.Y by omega) hSnn
        have g2 := mul_nonneg (show (0 : Int) ≤ x - (r.intersect p.rect).Min.X by omega) hK
        have g3 : (0 : Int) ≤ (c : Int) := Int.ofNat_nonneg c
        linarith
      have hiden : p.PixOffset x y + (c : Int) =
          p.PixOffset (r.intersect p.rect).Min.X (r.intersect p.rect).Min.Y +
            ((y - (r.intersect p.rect).Min.Y) * p.stride +
              (x - (r.intersect p.rect).Min.X) * (p.chancnt : Int) + (c : Int)) := by
        unfold FloatImg.PixOffset
        ring
      rw [SubImage_eq_of_not_empty p r h]
      show getQ (p.pix.drop (p.PixOffset (r.intersect p.rect).Min.X
          (r.intersect p.rect).Min.Y).toNat)
          ((y - (r.intersect p.rect).Min.Y) * p.stride +
            (x - (r.intersect p.rect).Min.X) * (p.chancnt : Int) + (c : Int)) =
        getQ p.pix (p.PixOffset x y + (c : Int))
      rw [getQ_drop _ _ _ hoff]
      congr 1
      rw [Int.toNat_of_nonneg h1]
      exact hiden.symm
    · intro x y c v hin
      obtain ⟨hx1, hx2, hy1, hy2⟩ := hin
      have hoff : (0 : Int) ≤ (y - (r.intersect p.rect).Min.Y) * p.stride +
          (x - (r.intersect p.rect).Min.X) * (p.chancnt : Int) + (c : Int) := by
        have g1 := mul_nonneg (show (0 : Int) ≤ y - (r.intersect p.rect).Min.Y by omega) hSnn
        have g2 := mul_nonneg (show (0 : Int) ≤ x - (r.intersect p.rect).Min.X by omega) hK
        have g3 : (0 : Int) ≤ (c : Int) := Int.ofNat_nonneg c
        linarith
      have hiden : p.PixOffset x y + (c : Int) =
          p.PixOffset (r.intersect p.rect).Min.X (r.intersect p.rect).Min.Y +
            ((y - (r.intersect p.rect).Min.Y) * p.stride +
              (x - (r.intersect p.rect).Min.X) * (p.chancnt : Int) + (c : Int)) := by
        unfold FloatImg.PixOffset
        ring
      have hle : ((p.PixOffset (r.intersect p.rect).Min.X
          (r.intersect p.rect).Min.Y).toNat : Int) ≤ p.PixOffset x y + (c : Int) := by
        rw [Int.toNat_of_nonneg h1, hiden]
        linarith
      rw [SubImage_eq_of_not_empty (p.setF x y c v) r h,
        SubImage_eq_of_not_empty p r h]
      have hpix : (setQ p.pix (p.PixOffset x y + (c : Int)) v).drop
          (p.PixOffset (r.intersect p.rect).Min.X (r.intersect p.rect).Min.Y).toNat =
          setQ (p.pix.drop (p.PixOffset (r.intersect p.rect).Min.X
              (r.intersect p.rect).Min.Y).toNat)
            ((y - (r.intersect p.rect).Min.Y) * p.stride +
              (x - (r.intersect p.rect).Min.X) * (p.chancnt : Int) + (c : Int)) v := by
        rw [setQ_drop _ _ _ _ hle]
        congr 1
        rw [Int.toNat_of_nonneg h1, hiden]
        ring
      exact congrArg
        (fun l => FloatImg.mk l p.stride p.chancnt (r.intersect p.rect)) hpix
  · intro h
    rw [SubImage_eq_of_empty p r h]
    refine ⟨rfl, h, ?_⟩
    simp [NewFloatImg]

/-- Witness for C9 on the 3x3 buffer and a clip rectangle hanging over its
edge: the owner-side write at (1,1) is seen through the sub-view, and the
sub-view's read at (2,2) equals the owner's. -/
theorem claim_C9_witness :
    wf cimg33 ∧
    inRect 1 1 (Rect.intersect ⟨⟨1, 1⟩, ⟨5, 5⟩⟩ cimg33.rect) ∧
    SubImage (cimg33.setF 1 1 0 42) ⟨⟨1, 1⟩, ⟨5, 5⟩⟩ =
      (SubImage cimg33 ⟨⟨1, 1⟩, ⟨5, 5⟩⟩).setF 1 1 0 42 ∧
    (SubImage cimg33 ⟨⟨1, 1⟩, ⟨5, 5⟩⟩).atF 2 2 0 = cimg33.atF 2 2 0 := by
  refine ⟨by unfold wf; decide, by decide, ?_, ?_⟩
  · exact ((claim_C9 cimg33 ⟨⟨1, 1⟩, ⟨5, 5⟩⟩ (by unfold wf; decide)).1 (by decide)).2.2
      1 1 0 42 (by decide)
  · exact ((claim_C9 cimg33 ⟨⟨1, 1⟩, ⟨5, 5⟩⟩ (by unfold wf; decide)).1 (by decide)).2.1
      2 2 0 (by decide)

end Imgtest

namespace Imgtest

/-! Offset facts and reads-after-writes for the NaN-aware buffer. -/

theorem pixOffsetF_bound (p : FloatImgF) (hwf : wfF p) (x y : Int) (c : Nat)
    (hin : inRect x y p.rect) (hc : c < p.chancnt) :
    0 ≤ p.PixOffset x y + (c : Int) ∧
    p.PixOffset x y + (c : Int) < (p.pix.length : Int) := by
  obtain ⟨hs, hl⟩ := hwf
  obtain ⟨h1, h2, h3, h4⟩ := hin
  have hDx : (0 : Int) < p.rect.Dx := by unfold Rect.Dx; omega
  have hDy : (0 : Int) < p.rect.Dy := by unfold Rect.Dy; omega
  have hlen : (p.pix.length : Int) = (p.chancnt : Int) * p.rect.Dx * p.rect.Dy := by
    rw [hl]
    push_cast [Int.toNat_of_nonneg hDx.le, Int.toNat_of_nonneg hDy.le]
    ring
  have hb := offset_nonneg_lt (p.chancnt : Int) p.rect.Dx p.rect.Dy
    (x - p.rect.Min.X) (y - p.rect.Min.Y) (c : Int)
    (by omega) (by unfold Rect.Dx; omega) (by omega) (by unfold Rect.Dy; omega)
    (by positivity) (by exact_mod_cast hc)
  rw [FloatImgF.PixOffset, hs, hlen]
  constructor
  · nlinarith [hb.1]
  · nlinarith [hb.2]

theorem pixOffsetF_inj_cells (p : FloatImgF) (hwf : wfF p) (x y x2 y2 : Int) (c c2 : Nat)
    (hin : inRect x y p.rect) (hc : c < p.chancnt)
    (hin2 : inRect x2 y2 p.rect) (hc2 : c2 < p.chancnt)
    (heq : p.PixOffset x y + (c : Int) = p.PixOffset x2 y2 + (c2 : Int)) :
    x = x2 ∧ y = y2 ∧ c = c2 := by
  obtain ⟨hs, _⟩ := hwf
  obtain ⟨h1, h2, h3, h4⟩ := hin
  obtain ⟨g1, g2, g3, g4⟩ := hin2
  rw [FloatImgF.PixOffset, FloatImgF.PixOffset, hs] at heq
  have hi := offset_inj (p.chancnt : Int) p.rect.Dx p.rect.Dy
    (x - p.rect.Min.X) (y - p.rect.Min.Y) (x2 - p.rect.Min.X) (y2 - p.rect.Min.Y)
    (c : Int) (c2 : Int)
    (by omega) (by unfold Rect.Dx; omega) (by omega) (by unfold Rect.Dy; omega)
    (by positivity) (by exact_mod_cast hc)
    (by omega) (by unfold Rect.Dx; omega) (by omega) (by unfold Rect.Dy; omega)
    (by positivity) (by exact_mod_cast hc2)
    (by linear_combination heq)
  refine ⟨by omega, by omega, ?_⟩
  exact_mod_cast hi.2.2

theorem setFF_rect (p : FloatImgF) (x y : Int) (c : Nat) (v : FV) :
    (p.setFF x y c v).rect = p.rect := by
  unfold FloatImgF.setFF
  split <;> rfl

theorem setFF_stride (p : FloatImgF) (x y : Int) (c : Nat) (v : FV) :
    (p.setFF x y c v).stride = p.stride := by
  unfold FloatImgF.setFF
  split <;> rfl

theorem setFF_chancnt (p : FloatImgF) (x y : Int) (c : Nat) (v : FV) :
    (p.setFF x y c v).chancnt = p.chancnt := by
  unfold FloatImgF.setFF
  split <;> rfl

theorem setFF_length (p : FloatImgF) (x y : Int) (c : Nat) (v : FV) :
    (p.setFF x y c v).pix.length = p.pix.length := by
  unfold FloatImgF.setFF
  split
  · exact List.length_set _ _ _
  · rfl

theorem wfF_setFF (p : FloatImgF) (h : wfF p) (x y : Int) (c : Nat) (v : FV) :
    wfF (p.setFF x y c v) := by
  unfold wfF
  rw [setFF_rect, setFF_stride, setFF_chancnt, setFF_length]
  exact h

theorem atFF_setFF_self (p : FloatImgF) (hwf : wfF p) (x y : Int) (c : Nat)
    (hin : inRect x y p.rect) (hc : c < p.chancnt) (v : FV) :
    (p.setFF x y c v).atFF x y c = v := by
  have hb := pixOffsetF_bound p hwf x y c hin hc
  unfold FloatImgF.setFF
  rw [if_pos hb.1]
  show (if 0 ≤ p.PixOffset x y + (c : Int) then
      (p.pix.set (p.PixOffset x y + (c : Int)).toNat v).getD
        (p.PixOffset x y + (c : Int)).toNat (some 0)
    else some 0) = v
  rw [if_pos hb.1]
  have hlt : (p.PixOffset x y + (c : Int)).toNat < p.pix.length := by omega
  simp [List.getD_eq_getElem?_getD, List.getElem?_set_self, hlt]

theorem atFF_setFF_other (p : FloatImgF) (hwf : wfF p) (x y : Int) (c : Nat)
    (hin : inRect x y p.rect) (hc : c < p.chancnt)
    (x2 y2 : Int) (c2 : Nat) (hin2 : inRect x2 y2 p.rect) (hc2 : c2 < p.chancnt)
    (hne : ¬(x = x2 ∧ y = y2 ∧ c = c2)) (v : FV) :
    (p.setFF x y c v).atFF x2 y2 c2 = p.atFF x2 y2 c2 := by
  have hb := pixOffsetF_bound p hwf x y c hin hc
  have hb2 := pixOffsetF_bound p hwf x2 y2 c2 hin2 hc2
  have hneq : p.PixOffset x y + (c : Int) ≠ p.PixOffset x2 y2 + (c2 : Int) :=
    fun heq => hne (pixOffsetF_inj_cells p hwf x y x2 y2 c c2 hin hc hin2 hc2 heq)
  unfold FloatImgF.setFF
  rw [if_pos hb.1]
  show (if 0 ≤ p.PixOffset x2 y2 + (c2 : Int) then
      (p.pix.set (p.PixOffset x y + (c : Int)).toNat v).getD
        (p.PixOffset x2 y2 + (c2 : Int)).toNat (some 0)
    else some 0) = p.atFF x2 y2 c2
  unfold FloatImgF.atFF
  rw [if_pos hb2.1, if_pos hb2.1]
  have hnat : (p.PixOffset x y + (c : Int)).toNat ≠ (p.PixOffset x2 y2 + (c2 : Int)).toNat := by
    omega
  simp only [List.getD_eq_getElem?_getD, List.getElem?_set_ne hnat]

end Imgtest

namespace Imgtest

/-! Single-channel characterizations of `ScaleToUnsignedByte`. -/

theorem scaleMax_single_go (p : FloatImgF) (hc : p.chancnt = 1) :
    ∀ (l : List (Int × Int)) (m : FV),
      l.foldl (fun m2 cell =>
        (List.range p.chancnt).foldl (fun m3 c =>
          let v := p.atFF cell.1 cell.2 c
          if fgtF v (m3.getD c none) then m3.set c v else m3) m2) [m] =
      [l.foldl (fun m2 cell =>
        if fgtF (p.atFF cell.1 cell.2 0) m2 then p.atFF cell.1 cell.2 0 else m2) m] := by
  intro l
  induction l with
  | nil => intro m; rfl
  | cons cell l ih =>
    intro m
    rw [List.foldl_cons, List.foldl_cons]
    have hh : (List.range p.chancnt).foldl (fun m3 c =>
        let v := p.atFF cell.1 cell.2 c
        if fgtF v (m3.getD c none) then m3.set c v else m3) [m] =
        [if fgtF (p.atFF cell.1 cell.2 0) m then p.atFF cell.1 cell.2 0 else m] := by
      rw [hc]
      show (if fgtF (p.atFF cell.1 cell.2 0) m then
          [m].set 0 (p.atFF cell.1 cell.2 0) else [m]) = _
      by_cases h : fgtF (p.atFF cell.1 cell.2 0) m
      · rw [if_pos h, if_pos h]
        rfl
      · rw [if_neg h, if_neg h]
    rw [hh, ih]

theorem scaleMax_single (p : FloatImgF) (hc : p.chancnt = 1) :
    scaleMax p = [(blockCells p.rect.Min.X p.rect.Max.X p.rect.Min.Y p.rect.Max.Y).foldl
      (fun m2 cell =>
        if fgtF (p.atFF cell.1 cell.2 0) m2 then p.atFF cell.1 cell.2 0 else m2)
      (some (-1 * maxFloat32))] := by
  unfold scaleMax
  have hrep : List.replicate p.chancnt (some (-1 * maxFloat32) : FV) =
      [some (-1 * maxFloat32)] := by
    rw [hc]
    rfl
  rw [hrep]
  exact scaleMax_single_go p hc _ _

theorem foldMaxF_some (p : FloatImgF) (c : Nat) :
    ∀ (l : List (Int × Int)) (a : ℚ),
      ∃ M : ℚ,
        l.foldl (fun m2 cell =>
          if fgtF (p.atFF cell.1 cell.2 c) m2 then p.atFF cell.1 cell.2 c else m2)
          (some a) = some M ∧
        (M = a ∨ ∃ cl ∈ l, p.atFF cl.1 cl.2 c = some M) ∧
        a ≤ M ∧
        ∀ cl ∈ l, ∀ v : ℚ, p.atFF cl.1 cl.2 c = some v → v ≤ M := by
  intro l
  induction l with
  | nil =>
    intro a
    exact ⟨a, rfl, Or.inl rfl, le_refl a, by simp⟩
  | cons cell l ih =>
    intro a
    rw [List.foldl_cons]
    rcases hv : p.atFF cell.1 cell.2 c with _ | b
    · rw [if_neg (show ¬(fgtF none (some a) = true) from Bool.false_ne_true)]
      obtain ⟨M, h1, h2, h3, h4⟩ := ih a
      refine ⟨M, h1, ?_, h3, ?_⟩
      · rcases h2 with h | ⟨cl, hcl, hclv⟩
        · exact Or.inl h
        · exact Or.inr ⟨cl, List.mem_cons_of_mem _ hcl, hclv⟩
      · intro cl hcl v hclv
        rcases List.mem_cons.mp hcl with h | h
        · exfalso
          rw [h, hv] at hclv
          exact Option.noConfusion hclv
        · exact h4 cl h v hclv
    · by_cases hab : a < b
      · have hg : fgtF (some b) (some a) = true := by
          simpa [fgtF] using hab
        rw [if_pos hg]
        obtain ⟨M, h1, h2, h3, h4⟩ := ih b
        refine ⟨M, h1, ?_, by linarith, ?_⟩
        · rcases h2 with h | ⟨cl, hcl, hclv⟩
          · exact Or.inr ⟨cell, List.mem_cons_self _ _, by rw [hv, h]⟩
          · exact Or.inr ⟨cl, List.mem_cons_of_mem _ hcl, hclv⟩
        · intro cl hcl v hclv
          rcases List.mem_cons.mp hcl with h | h
          · rw [h, hv] at hclv
            have hvb : b = v := Option.some.inj hclv
            rw [← hvb]
            exact h3
          · exact h4 cl h v hclv
      · have hg : fgtF (some b) (some a) = false := by
          simpa [fgtF] using hab
        rw [if_neg (by rw [hg]; exact Bool.false_ne_true)]
        obtain ⟨M, h1, h2, h3, h4⟩ := ih a
        refine ⟨M, h1, ?_, h3, ?_⟩
        · rcases h2 with h | ⟨cl, hcl, hclv⟩
          · exact Or.inl h
          · exact Or.inr ⟨cl, List.mem_cons_of_mem _ hcl, hclv⟩
        · intro cl hcl v hclv
          rcases List.mem_cons.mp hcl with h | h
          · rw [h, hv] at hclv
            have hvb : b = v := Option.some.inj hclv
            rw [← hvb]
            linarith
          · exact h4 cl h v hclv

theorem scaleTo_single (p : FloatImgF) (hc : p.chancnt = 1) :
    ScaleToUnsignedByte p =
      (blockCells p.rect.Min.X p.rect.Max.X p.rect.Min.Y p.rect.Max.Y).foldl
        (fun q cell => q.setFF cell.1 cell.2 0
          (fdivF (fmul255 (q.atFF cell.1 cell.2 0)) ((scaleMax p).getD 0 none))) p := by
  show (blockCells p.rect.Min.X p.rect.Max.X p.rect.Min.Y p.rect.Max.Y).foldl
      (fun q cell =>
        (List.range p.chancnt).foldl (fun q2 c =>
          q2.setFF cell.1 cell.2 c
            (fdivF (fmul255 (q2.atFF cell.1 cell.2 c)) ((scaleMax p).getD c none))) q) p = _
  congr 1
  funext q cell
  rw [hc]
  rfl

end Imgtest

namespace Imgtest

/-- C6 counterexample: on a single-channel all-zero buffer (channel maximum
zero) `ScaleToUnsignedByte` does not leave the values at zero: the unguarded
division `255*v/max` by the zero maximum turns every cell non-finite
(`none`, the model's NaN/Inf). -/
theorem claim_C6_counterexample :
    zf2.pix = [some 0, some 0] ∧ (ScaleToUnsignedByte zf2).pix = [none, none] := by
  refine ⟨rfl, ?_⟩
  have hbc : blockCells zf2.rect.Min.X zf2.rect.Max.X zf2.rect.Min.Y zf2.rect.Max.Y =
      [((0 : Int), (0 : Int)), (1, 0)] := by decide
  have hv0 : zf2.atFF 0 0 0 = some 0 := by decide
  have hv1 : zf2.atFF 1 0 0 = some 0 := by decide
  have hmax : scaleMax zf2 = [some 0] := by
    rw [scaleMax_single zf2 rfl, hbc]
    simp only [List.foldl_cons, List.foldl_nil]
    rw [hv0, hv1]
    have hg1 : fgtF (some 0) (some (-1 * maxFloat32)) = true := by
      simp only [fgtF, decide_eq_true_eq]
      norm_num [maxFloat32]
    rw [if_pos hg1]
    have hg2 : fgtF (some 0) (some 0) = false := by
      simp [fgtF]
    rw [if_neg (by rw [hg2]; exact Bool.false_ne_true)]
  rw [scaleTo_single zf2 rfl, hbc, hmax]
  simp only [List.foldl_cons, List.foldl_nil]
  rw [hv0]
  have hdiv0 : fdivF (fmul255 (some 0)) ([(some 0 : FV)].getD 0 none) = none := by
    show fdivF (some (255 * 0)) (some 0) = none
    simp [fdivF]
  rw [hdiv0]
  have hq1 : zf2.setFF 0 0 0 none =
      ⟨[none, some 0], 2, 1, ⟨⟨0, 0⟩, ⟨2, 1⟩⟩⟩ := by decide
  rw [hq1]
  have hv1b : (⟨[none, some 0], 2, 1, ⟨⟨0, 0⟩, ⟨2, 1⟩⟩⟩ : FloatImgF).atFF 1 0 0 =
      some 0 := by decide
  rw [hv1b, hdiv0]
  decide

end Imgtest

namespace Imgtest

/-! Multi-channel characterizations of `ScaleToUnsignedByte`: the per-channel
maxima list and the per-cell, per-channel in-place rescale. -/

theorem maxChanFold_length (p : FloatImgF) (cell : Int × Int) :
    ∀ (cs : List Nat) (m : List FV),
      (cs.foldl (fun m3 c3 =>
        let v := p.atFF cell.1 cell.2 c3
        if fgtF v (m3.getD c3 none) then m3.set c3 v else m3) m).length = m.length := by
  intro cs
  induction cs with
  | nil => intro m; rfl
  | cons c0 cs ih =>
    intro m
    rw [List.foldl_cons, ih]
    show (if fgtF (p.atFF cell.1 cell.2 c0) (m.getD c0 none) then
        m.set c0 (p.atFF cell.1 cell.2 c0) else m).length = m.length
    split
    · exact List.length_set _ _ _
    · rfl

theorem maxChanFold_getD (p : FloatImgF) (cell : Int × Int) :
    ∀ (cs : List Nat) (m : List FV), cs.Nodup →
      ∀ c : Nat, c < m.length →
      (cs.foldl (fun m3 c3 =>
        let v := p.atFF cell.1 cell.2 c3
        if fgtF v (m3.getD c3 none) then m3.set c3 v else m3) m).getD c none =
        if c ∈ cs then
          (if fgtF (p.atFF cell.1 cell.2 c) (m.getD c none) then p.atFF cell.1 cell.2 c
           else m.getD c none)
        else m.getD c none := by
  intro cs
  induction cs with
  | nil =>
    intro m _ c _
    rw [List.foldl_nil, if_neg (List.not_mem_nil c)]
  | cons c0 cs ih =>
    intro m hnd c hc
    rw [List.foldl_cons]
    rw [show (let v := p.atFF cell.1 cell.2 c0;
          if fgtF v (m.getD c0 none) then m.set c0 v else m) =
        (if fgtF (p.atFF cell.1 cell.2 c0) (m.getD c0 none) then
          m.set c0 (p.atFF cell.1 cell.2 c0) else m) from rfl]
    have hnd' := hnd.of_cons
    have hc0nin : c0 ∉ cs := (List.nodup_cons.mp hnd).1
    by_cases hg : fgtF (p.atFF cell.1 cell.2 c0) (m.getD c0 none)
    · rw [if_pos hg, ih (m.set c0 (p.atFF cell.1 cell.2 c0)) hnd' c
        (by rw [List.length_set]; exact hc)]
      by_cases hcc : c = c0
      · rw [if_neg (fun h => hc0nin (hcc ▸ h)),
          if_pos (by rw [hcc]; exact List.mem_cons_self _ _), hcc]
        rw [if_pos hg]
        have hlt : c0 < m.length := hcc ▸ hc
        simp [List.getD_eq_getElem?_getD, List.getElem?_set_self, hlt]
      · have hgset : (m.set c0 (p.atFF cell.1 cell.2 c0)).getD c none = m.getD c none := by
          simp [List.getD_eq_getElem?_getD,
            List.getElem?_set_ne (show c0 ≠ c from fun h => hcc h.symm)]
        rw [hgset]
        by_cases hmem : c ∈ cs
        · rw [if_pos hmem, if_pos (List.mem_cons_of_mem _ hmem)]
        · rw [if_neg hmem,
            if_neg (fun h => (List.mem_cons.mp h).elim (fun h2 => hcc h2) (fun h2 => hmem h2))]
    · rw [if_neg hg, ih m hnd' c hc]
      by_cases hcc : c = c0
      · rw [if_neg (fun h => hc0nin (hcc ▸ h)),
          if_pos (by rw [hcc]; exact List.mem_cons_self _ _), hcc]
        rw [if_neg hg]
      · by_cases hmem : c ∈ cs
        · rw [if_pos hmem, if_pos (List.mem_cons_of_mem _ hmem)]
        · rw [if_neg hmem,
            if_neg (fun h => (List.mem_cons.mp h).elim (fun h2 => hcc h2) (fun h2 => hmem h2))]

theorem scaleMax_getD_go (p : FloatImgF) (c : Nat) (hc : c < p.chancnt) :
    ∀ (l : List (Int × Int)) (m : List FV), m.length = p.chancnt →
      (l.foldl (fun m2 cell => (List.range p.chancnt).foldl (fun m3 c3 =>
          let v := p.atFF cell.1 cell.2 c3
          if fgtF v (m3.getD c3 none) then m3.set c3 v else m3) m2) m).getD c none =
        l.foldl (fun m2 cell =>
          if fgtF (p.atFF cell.1 cell.2 c) m2 then p.atFF cell.1 cell.2 c else m2)
          (m.getD c none) := by
  intro l
  induction l with
  | nil => intro m _; rfl
  | cons cell l ih =>
    intro m hlen
    rw [List.foldl_cons, List.foldl_cons]
    have hlen1 : ((List.range p.chancnt).foldl (fun m3 c3 =>
        let v := p.atFF cell.1 cell.2 c3
        if fgtF v (m3.getD c3 none) then m3.set c3 v else m3) m).length = p.chancnt :=
      (maxChanFold_length p cell _ m).trans hlen
    rw [ih _ hlen1]
    congr 1
    rw [maxChanFold_getD p cell (List.range p.chancnt) m (List.nodup_range p.chancnt) c
      (by omega)]
    rw [if_pos (List.mem_range.mpr hc)]

theorem scaleMax_getD (p : FloatImgF) (c : Nat) (hc : c < p.chancnt) :
    (scaleMax p).getD c none =
      (blockCells p.rect.Min.X p.rect.Max.X p.rect.Min.Y p.rect.Max.Y).foldl
        (fun m2 cell =>
          if fgtF (p.atFF cell.1 cell.2 c) m2 then p.atFF cell.1 cell.2 c else m2)
        (some (-1 * maxFloat32)) := by
  unfold scaleMax
  rw [scaleMax_getD_go p c hc _ _ (List.length_replicate _ _)]
  have hinit : (List.replicate p.chancnt (some (-1 * maxFloat32) : FV)).getD c none =
      some (-1 * maxFloat32) := by
    rw [List.getD_eq_getElem?_getD, List.getElem?_replicate, if_pos hc]
    rfl
  rw [hinit]

theorem scaleChanFold_shape (maxs : List FV) (cell : Int × Int) :
    ∀ (cs : List Nat) (q : FloatImgF),
      (cs.foldl (fun q3 c3 => q3.setFF cell.1 cell.2 c3
          (fdivF (fmul255 (q3.atFF cell.1 cell.2 c3)) (maxs.getD c3 none))) q).rect = q.rect ∧
      (cs.foldl (fun q3 c3 => q3.setFF cell.1 cell.2 c3
          (fdivF (fmul255 (q3.atFF cell.1 cell.2 c3)) (maxs.getD c3 none))) q).stride =
        q.stride ∧
      (cs.foldl (fun q3 c3 => q3.setFF cell.1 cell.2 c3
          (fdivF (fmul255 (q3.atFF cell.1 cell.2 c3)) (maxs.getD c3 none))) q).chancnt =
        q.chancnt ∧
      (cs.foldl (fun q3 c3 => q3.setFF cell.1 cell.2 c3
          (fdivF (fmul255 (q3.atFF cell.1 cell.2 c3)) (maxs.getD c3 none))) q).pix.length =
        q.pix.length := by
  intro cs
  induction cs with
  | nil => intro q; exact ⟨rfl, rfl, rfl, rfl⟩
  | cons c0 cs ih =>
    intro q
    rw [List.foldl_cons]
    obtain ⟨e1, e2, e3, e4⟩ := ih (q.setFF cell.1 cell.2 c0
      (fdivF (fmul255 (q.atFF cell.1 cell.2 c0)) (maxs.getD c0 none)))
    exact ⟨e1.trans (setFF_rect _ _ _ _ _), e2.trans (setFF_stride _ _ _ _ _),
      e3.trans (setFF_chancnt _ _ _ _ _), e4.trans (setFF_length _ _ _ _ _)⟩

theorem scaleChanFold_wfF (maxs : List FV) (cell : Int × Int) (cs : List Nat)
    (q : FloatImgF) (h : wfF q) :
    wfF (cs.foldl (fun q3 c3 => q3.setFF cell.1 cell.2 c3
      (fdivF (fmul255 (q3.atFF cell.1 cell.2 c3)) (maxs.getD c3 none))) q) := by
  obtain ⟨e1, e2, e3, e4⟩ := scaleChanFold_shape maxs cell cs q
  unfold wfF
  rw [e1, e2, e3, e4]
  exact h

theorem scaleChanFold_atFF (maxs : List FV) (cell : Int × Int) :
    ∀ (cs : List Nat) (q : FloatImgF), wfF q → inRect cell.1 cell.2 q.rect →
      (∀ c3 ∈ cs, c3 < q.chancnt) → cs.Nodup →
      ∀ (x y : Int) (c2 : Nat), inRect x y q.rect → c2 < q.chancnt →
      (cs.foldl (fun q3 c3 => q3.setFF cell.1 cell.2 c3
          (fdivF (fmul255 (q3.atFF cell.1 cell.2 c3)) (maxs.getD c3 none))) q).atFF x y c2 =
        if (x, y) = cell ∧ c2 ∈ cs then
          fdivF (fmul255 (q.atFF x y c2)) (maxs.getD c2 none)
        else q.atFF x y c2 := by
  intro cs
  induction cs with
  | nil =>
    intro q _ _ _ _ x y c2 _ _
    rw [List.foldl_nil, if_neg (fun h => List.not_mem_nil c2 h.2)]
  | cons c0 cs ih =>
    intro q hwf hcell hcs hnd x y c2 hin hc2
    rw [List.foldl_cons]
    have hc0lt : c0 < q.chancnt := hcs c0 (List.mem_cons_self _ _)
    have hwf1 : wfF (q.setFF cell.1 cell.2 c0
        (fdivF (fmul255 (q.atFF cell.1 cell.2 c0)) (maxs.getD c0 none))) :=
      wfF_setFF q hwf _ _ _ _
    have hr1 : (q.setFF cell.1 cell.2 c0
        (fdivF (fmul255 (q.atFF cell.1 cell.2 c0)) (maxs.getD c0 none))).rect = q.rect :=
      setFF_rect _ _ _ _ _
    have hch1 : (q.setFF cell.1 cell.2 c0
        (fdivF (fmul255 (q.atFF cell.1 cell.2 c0)) (maxs.getD c0 none))).chancnt =
        q.chancnt := setFF_chancnt _ _ _ _ _
    rw [ih _ hwf1 (by rw [hr1]; exact hcell)
      (fun c3 h => by rw [hch1]; exact hcs c3 (List.mem_cons_of_mem _ h)) hnd.of_cons
      x y c2 (by rw [hr1]; exact hin) (by rw [hch1]; exact hc2)]
    by_cases hxy : (x, y) = cell
    · by_cases hcc : c2 = c0
      · have hnin : c0 ∉ cs := (List.nodup_cons.mp hnd).1
        rw [if_neg (fun h => hnin (hcc ▸ h.2)),
          if_pos ⟨hxy, by rw [hcc]; exact List.mem_cons_self _ _⟩, hcc]
        have hx' : x = cell.1 := congrArg Prod.fst hxy
        have hy' : y = cell.2 := congrArg Prod.snd hxy
        rw [← hx', ← hy'] at hcell ⊢
        exact atFF_setFF_self q hwf x y c0 hcell hc0lt _
      · have hother : (q.setFF cell.1 cell.2 c0
            (fdivF (fmul255 (q.atFF cell.1 cell.2 c0)) (maxs.getD c0 none))).atFF x y c2 =
            q.atFF x y c2 :=
          atFF_setFF_other q hwf cell.1 cell.2 c0 hcell hc0lt x y c2 hin hc2
            (fun h => hcc h.2.2.symm) _
        rw [hother]
        by_cases hmem : c2 ∈ cs
        · rw [if_pos ⟨hxy, hmem⟩, if_pos ⟨hxy, List.mem_cons_of_mem _ hmem⟩]
        · rw [if_neg (fun h => hmem h.2),
            if_neg (fun h =>
              (List.mem_cons.mp h.2).elim (fun h2 => hcc h2) (fun h2 => hmem h2))]
    · have hother : (q.setFF cell.1 cell.2 c0
          (fdivF (fmul255 (q.atFF cell.1 cell.2 c0)) (maxs.getD c0 none))).atFF x y c2 =
          q.atFF x y c2 :=
        atFF_setFF_other q hwf cell.1 cell.2 c0 hcell hc0lt x y c2 hin hc2
          (fun h => hxy (by rw [← h.1, ← h.2.1])) _
      rw [hother, if_neg (fun h => hxy h.1), if_neg (fun h => hxy h.1)]

theorem scaleCellsFold_atFF (maxs : List FV) (K : Nat) :
    ∀ (l : List (Int × Int)) (q : FloatImgF), wfF q → q.chancnt = K →
      (∀ cl ∈ l, inRect cl.1 cl.2 q.rect) → l.Nodup →
      ∀ (x y : Int) (c : Nat), inRect x y q.rect → c < K →
      (l.foldl (fun q2 cell => (List.range K).foldl (fun q3 c3 =>
          q3.setFF cell.1 cell.2 c3
            (fdivF (fmul255 (q3.atFF cell.1 cell.2 c3)) (maxs.getD c3 none))) q2) q).atFF
          x y c =
        if (x, y) ∈ l then fdivF (fmul255 (q.atFF x y c)) (maxs.getD c none)
        else q.atFF x y c := by
  intro l
  induction l with
  | nil =>
    intro q _ _ _ _ x y c _ _
    rw [List.foldl_nil, if_neg (List.not_mem_nil _)]
  | cons cell l ih =>
    intro q hwf hqK hcl hnd x y c hin hcK
    rw [List.foldl_cons]
    have hcell : inRect cell.1 cell.2 q.rect := hcl cell (List.mem_cons_self _ _)
    obtain ⟨e1, e2, e3, e4⟩ := scaleChanFold_shape maxs cell (List.range K) q
    have hwf1 := scaleChanFold_wfF maxs cell (List.range K) q hwf
    have hcs : ∀ c3 ∈ List.range K, c3 < q.chancnt := fun c3 h => by
      rw [hqK]; exact List.mem_range.mp h
    rw [ih _ hwf1 (e3.trans hqK)
      (fun cl h => by rw [e1]; exact hcl cl (List.mem_cons_of_mem _ h))
      hnd.of_cons x y c (by rw [e1]; exact hin) hcK]
    have hchar := scaleChanFold_atFF maxs cell (List.range K) q hwf hcell hcs
      (List.nodup_range K) x y c hin (by rw [hqK]; exact hcK)
    by_cases hxy : (x, y) = cell
    · have hnin : (x, y) ∉ l := by
        rw [hxy]
        exact (List.nodup_cons.mp hnd).1
      rw [if_neg hnin, if_pos (by rw [hxy]; exact List.mem_cons_self _ _)]
      rw [hchar, if_pos ⟨hxy, List.mem_range.mpr hcK⟩]
    · have hncond : ¬((x, y) = cell ∧ c ∈ List.range K) := fun h => hxy h.1
      rw [hchar, if_neg hncond]
      by_cases hml : (x, y) ∈ l
      · rw [if_pos hml, if_pos (List.mem_cons_of_mem _ hml)]
      · have hncons : (x, y) ∉ cell :: l := fun h =>
          (List.mem_cons.mp h).elim (fun h2 => hxy h2) (fun h2 => hml h2)
        rw [if_neg hml, if_neg hncons]

/-- C6 (amended): for every channel `c`, `ScaleToUnsignedByte` computes `M`,
the running maximum of channel `c` over all cells started from `-MaxFloat32`
(so `M` bounds every finite value of the channel and is either the initial
sentinel or attained at some cell), and rewrites every finite value `v` of the
channel in place to `255*v/M` — so for `M > 0` the channel's maximum maps to
255 with ratios preserved — except that the division is NOT guarded: when the
channel's maximum `M` is zero, every such cell becomes non-finite (NaN), not
zero. -/
theorem claim_C6 (p : FloatImgF) (hwf : wfF p) (c : Nat) (hc : c < p.chancnt) :
    ∃ M : ℚ, (scaleMax p).getD c none = some M ∧
      (M = -1 * maxFloat32 ∨ ∃ x y : Int, inRect x y p.rect ∧ p.atFF x y c = some M) ∧
      (∀ x y : Int, inRect x y p.rect → ∀ v : ℚ, p.atFF x y c = some v → v ≤ M) ∧
      (∀ x y : Int, inRect x y p.rect → ∀ v : ℚ, p.atFF x y c = some v →
        (ScaleToUnsignedByte p).atFF x y c =
          if M = 0 then none else some (255 * v / M)) := by
  obtain ⟨M, h1, h2, h3, h4⟩ := foldMaxF_some p c
    (blockCells p.rect.Min.X p.rect.Max.X p.rect.Min.Y p.rect.Max.Y) (-1 * maxFloat32)
  have hM : (scaleMax p).getD c none = some M := by
    rw [scaleMax_getD p c hc]
    exact h1
  refine ⟨M, hM, ?_, ?_, ?_⟩
  · rcases h2 with h | ⟨cl, hcl, hclv⟩
    · exact Or.inl h
    · rw [mem_blockCells] at hcl
      exact Or.inr ⟨cl.1, cl.2, ⟨hcl.1, hcl.2.1, hcl.2.2.1, hcl.2.2.2⟩, hclv⟩
  · intro x y hin v hv
    exact h4 (x, y)
      (by rw [mem_blockCells]; exact ⟨hin.1, hin.2.1, hin.2.2.1, hin.2.2.2⟩) v hv
  · intro x y hin v hv
    have hcl : ∀ cl ∈ blockCells p.rect.Min.X p.rect.Max.X p.rect.Min.Y p.rect.Max.Y,
        inRect cl.1 cl.2 p.rect := by
      intro cl hm
      rw [mem_blockCells] at hm
      exact ⟨hm.1, hm.2.1, hm.2.2.1, hm.2.2.2⟩
    have hmain : (ScaleToUnsignedByte p).atFF x y c =
        if (x, y) ∈ blockCells p.rect.Min.X p.rect.Max.X p.rect.Min.Y p.rect.Max.Y then
          fdivF (fmul255 (p.atFF x y c)) ((scaleMax p).getD c none)
        else p.atFF x y c := by
      show ((blockCells p.rect.Min.X p.rect.Max.X p.rect.Min.Y p.rect.Max.Y).foldl
          (fun q2 cell => (List.range p.chancnt).foldl (fun q3 c3 =>
            q3.setFF cell.1 cell.2 c3
              (fdivF (fmul255 (q3.atFF cell.1 cell.2 c3)) ((scaleMax p).getD c3 none))) q2)
          p).atFF x y c = _
      exact scaleCellsFold_atFF (scaleMax p) p.chancnt _ p hwf rfl hcl
        (nodup_blockCells _ _ _ _) x y c hin hc
    rw [hmain,
      if_pos (by rw [mem_blockCells]; exact ⟨hin.1, hin.2.1, hin.2.2.1, hin.2.2.2⟩)]
    rw [hv, hM]
    show fdivF (some (255 * v)) (some M) = if M = 0 then none else some (255 * v / M)
    rfl

/-- Witness for C6 on the spec's single-channel test vector `[0, 10, 50, 100]`
and on a 2x1 two-channel buffer: the computed channel maxima are 100 (sf4,
channel 0) and 10 (mf2, channel 1); sf4's maximal cell maps to exactly 255 and
mf2's channel-1 value 5 maps to 255*5/10 = 127.5, ratios preserved per
channel. -/
theorem claim_C6_witness :
    wfF sf4 ∧ 0 < sf4.chancnt ∧ (ScaleToUnsignedByte sf4).atFF 3 0 0 = some 255 ∧
    wfF mf2 ∧ 1 < mf2.chancnt ∧ (ScaleToUnsignedByte mf2).atFF 0 0 1 = some (255 / 2) := by
  refine ⟨by unfold wfF; decide, by decide, ?_, by unfold wfF; decide, by decide, ?_⟩
  · obtain ⟨M, hM, hor, hub, happ⟩ := claim_C6 sf4 (by unfold wfF; decide) 0 (by decide)
    have h100 : (100 : ℚ) ≤ M := hub 3 0 (by decide) 100 (by decide)
    have hM100 : M = 100 := by
      rcases hor with h | ⟨x, y, hin, hval⟩
      · exfalso
        rw [h] at h100
        norm_num [maxFloat32] at h100
      · obtain ⟨h1, h2, h3, h4⟩ := hin
        simp only [sf4] at h1 h2 h3 h4
        have hy : y = 0 := by omega
        subst hy
        have hx0 : x = 0 ∨ x = 1 ∨ x = 2 ∨ x = 3 := by omega
        rcases hx0 with rfl | rfl | rfl | rfl
        · rw [show sf4.atFF 0 0 0 = some 0 from by decide] at hval
          have h0 := Option.some.inj hval
          rw [← h0] at h100
          norm_num at h100
        · rw [show sf4.atFF 1 0 0 = some 10 from by decide] at hval
          have h0 := Option.some.inj hval
          rw [← h0] at h100
          norm_num at h100
        · rw [show sf4.atFF 2 0 0 = some 50 from by decide] at hval
          have h0 := Option.some.inj hval
          rw [← h0] at h100
          norm_num at h100
        · rw [show sf4.atFF 3 0 0 = some 100 from by decide] at hval
          exact (Option.some.inj hval).symm
    rw [happ 3 0 (by decide) 100 (by decide), hM100]
    norm_num
  · obtain ⟨M, hM, hor, hub, happ⟩ := claim_C6 mf2 (by unfold wfF; decide) 1 (by decide)
    have h10 : (10 : ℚ) ≤ M := hub 1 0 (by decide) 10 (by decide)
    have hM10 : M = 10 := by
      rcases hor with h | ⟨x, y, hin, hval⟩
      · exfalso
        rw [h] at h10
        norm_num [maxFloat32] at h10
      · obtain ⟨h1, h2, h3, h4⟩ := hin
        simp only [mf2] at h1 h2 h3 h4
        have hy : y = 0 := by omega
        subst hy
        have hx0 : x = 0 ∨ x = 1 := by omega
        rcases hx0 with rfl | rfl
        · rw [show mf2.atFF 0 0 1 = some 5 from by decide] at hval
          have h0 := Option.some.inj hval
          rw [← h0] at h10
          norm_num at h10
        · rw [show mf2.atFF 1 0 1 = some 10 from by decide] at hval
          exact (Option.some.inj hval).symm
    rw [happ 0 0 (by decide) 5 (by decide), hM10]
    norm_num

end Imgtest
